import Mathlib

/-!
# keyATM: count tables of the collapsed Gibbs sampler (`src/src/LDA_base.cpp`)

A shallow embedding of `LDAbase::read_data_common`, `LDAbase::initialize_common`
and `LDAbase::sample_z`.

Modelling conventions.

* The arithmetic type of the embedded functions is a parameter `K` that carries the
  operations of `double` and the cast to `int`.  Three instances are used:
  a linearly ordered field with a floor function (exact arithmetic; the theorems
  about `log` take `ℝ` and `Real.log`), the IEEE doubles `Dbl` (rounding to
  nearest, ties to even), and `WithNaN ℝ` (exact arithmetic with NaN for the
  logarithm of a negative number).
* `VectorXd` is `List K`, `MatrixXd` is a list of rows `List (List K)`.  The R
  lists `W` and `Z` are `List (List Nat)`.  Reading outside a container yields
  `0`, writing outside a container leaves it as it is; the source has undefined
  behaviour there and no theorem below relies on such an access.
* `int` indices are `Nat`.  The member `total_words` is an `Int` that holds the
  result of the cast `(int)` of line 72: the truncated sum when it lies in
  `[INT_MIN, INT_MAX]`, and `INT_MIN` otherwise.  The predicate `FitsInt` is the
  size bound under which the cast is exact.
* The member object is passed explicitly: every method is a function on the
  record `LDAbase K`.
* `sampler::rcat_without_normalize` is not part of the embedded sources; it is
  the parameter `rcat` of `sample_z`.
-/

namespace KeyATM

open Finset

/-! ## Containers -/

section Containers

variable {K : Type}

/-- The C `for (int i = 0; i < n; i++) body` loop over a state `σ`. -/
def forLoop {σ : Type} (n : Nat) (body : Nat → σ → σ) (init : σ) : σ :=
  (List.range n).foldl (fun acc i => body i acc) init

/-- Read `v(i)` of a vector. -/
def vecGet [Zero K] (v : List K) (i : Nat) : K := v.getD i 0

/-- Assignment `v(i) = x`. -/
def vecSet (v : List K) (i : Nat) (x : K) : List K := v.set i x

/-- Update `v(i) += x`. -/
def vecAdd [Zero K] [Add K] (v : List K) (i : Nat) (x : K) : List K :=
  vecSet v i (vecGet v i + x)

/-- Update `v(i) -= x`. -/
def vecSub [Zero K] [Sub K] (v : List K) (i : Nat) (x : K) : List K :=
  vecSet v i (vecGet v i - x)

/-- Read `m(i, j)` of a matrix stored as a list of rows. -/
def matGet [Zero K] (m : List (List K)) (i j : Nat) : K := vecGet (m.getD i []) j

/-- Update `m(i, j) += x`. -/
def matAdd [Zero K] [Add K] (m : List (List K)) (i j : Nat) (x : K) : List (List K) :=
  m.set i (vecAdd (m.getD i []) j x)

/-- Update `m(i, j) -= x`. -/
def matSub [Zero K] [Sub K] (m : List (List K)) (i j : Nat) (x : K) : List (List K) :=
  m.set i (vecSub (m.getD i []) j x)

/-- The cast `(int) x` of a `double` to the 32-bit `int` (line 72): truncation
towards zero when the truncated value lies in `[INT_MIN, INT_MAX]`.  Outside that
range the conversion is undefined in C++; the x86 conversion instruction then
yields `INT_MIN`, which is the value taken here. -/
def truncToInt [LinearOrderedField K] [FloorRing K] (x : K) : Int :=
  let t : Int := if 0 ≤ x then Int.floor x else Int.ceil x
  if -2147483648 ≤ t ∧ t ≤ 2147483647 then t else -2147483648

/-- The arithmetic type comes with the cast `(int) x`. -/
class CastToInt (K : Type) where
  /-- The cast `(int) x`. -/
  toInt : K → Int

instance instCastToIntOfField [LinearOrderedField K] [FloorRing K] : CastToInt K :=
  ⟨truncToInt⟩

/-- The element `X[d][p]` of one of the nested R lists `W`, `Z`. -/
def tokenAt (X : List (List Nat)) (d p : Nat) : Nat := (X.getD d []).getD p 0

end Containers

/-! ## The model object -/

/-- The fields of the R list `model` that `read_data_common` reads and the
embedded functions use. -/
structure Model (K : Type) where
  /-- The list of documents: `model["W"]`, one vector of word indices each. -/
  W : List (List Nat)
  /-- The topic of every token: `model["Z"]`. -/
  Z : List (List Nat)
  /-- The size of `model["vocab"]`. -/
  vocab_size : Nat
  /-- The entry `model["no_keyword_topics"]`. -/
  no_keyword_topics : Nat
  /-- The entry `options$use_weights`. -/
  use_weights : Int
  /-- The entry `priors$beta`. -/
  beta : K

/-- The members of `LDAbase` that the embedded functions read or write. -/
structure LDAbase (K : Type) where
  W : List (List Nat)
  Z : List (List Nat)
  num_topics : Nat
  num_vocab : Nat
  num_doc : Nat
  use_weight : Int
  beta : K
  doc_each_len : List Nat
  total_words : Int
  vocab_weights : List K
  n_kv : List (List K)
  n_dk : List (List K)
  n_k : List K
  n_k_noWeight : List K
  z_prob_vec : List K
  sum : K
  new_z : Int

section Code

variable {K : Type} [Zero K] [One K] [Add K] [Sub K] [Mul K] [Div K] [Neg K] [NatCast K]
  [IntCast K] [CastToInt K]

/-- The method `LDAbase::read_data_common` (lines 8-36): copy the corpus, the
sizes, the weighting option and the prior out of the R list.  The members that
are not assigned here are default-constructed (empty, zero). -/
def read_data_common (model : Model K) : LDAbase K :=
  { W := model.W
    Z := model.Z
    num_topics := model.no_keyword_topics
    num_vocab := model.vocab_size
    num_doc := model.W.length
    use_weight := model.use_weights
    beta := model.beta
    doc_each_len := []
    total_words := 0
    vocab_weights := []
    n_kv := []
    n_dk := []
    n_k := []
    n_k_noWeight := []
    z_prob_vec := []
    sum := 0
    new_z := 0 }

/-- Body of the inner loop of lines 67-70: `vocab_weights(w) += 1.0`. -/
def countWordBody (doc_w : List Nat) (w_position : Nat) (m : LDAbase K) : LDAbase K :=
  let w := doc_w.getD w_position 0
  { m with vocab_weights := vecAdd m.vocab_weights w 1 }

/-- Body of the outer loop of lines 62-71. -/
def countDocBody (doc_id : Nat) (m : LDAbase K) : LDAbase K :=
  let doc_w := m.W.getD doc_id []
  let doc_len := doc_w.length
  let m := { m with doc_each_len := m.doc_each_len ++ [doc_len] }
  forLoop doc_len (countWordBody doc_w) m

/-- Lines 53-81: the vocabulary weights. -/
def initVocabWeights (log : K → K) (m : LDAbase K) : LDAbase K :=
  let m := { m with vocab_weights := List.replicate m.num_vocab 1 }
  let m := forLoop m.num_doc countDocBody m
  let m := { m with total_words := CastToInt.toInt m.vocab_weights.sum }
  let m := { m with vocab_weights := m.vocab_weights.map (fun x => x / (m.total_words : K)) }
  let m := { m with vocab_weights := m.vocab_weights.map log }
  let m := { m with vocab_weights := m.vocab_weights.map (fun x => - x / log 2) }
  if m.use_weight = 0 then
    { m with vocab_weights := List.replicate m.num_vocab 1 }
  else m

/-- Body of the inner loop of lines 96-103: add one token to the four tables. -/
def addTokenBody (doc_id : Nat) (doc_z doc_w : List Nat) (w_position : Nat)
    (m : LDAbase K) : LDAbase K :=
  let z := doc_z.getD w_position 0
  let w := doc_w.getD w_position 0
  let m := { m with n_kv := matAdd m.n_kv z w (vecGet m.vocab_weights w) }
  let m := { m with n_k := vecAdd m.n_k z (vecGet m.vocab_weights w) }
  let m := { m with n_k_noWeight := vecAdd m.n_k_noWeight z 1 }
  { m with n_dk := matAdd m.n_dk doc_id z 1 }

/-- Body of the outer loop of lines 92-104. -/
def addDocBody (doc_id : Nat) (m : LDAbase K) : LDAbase K :=
  let doc_z := m.Z.getD doc_id []
  let doc_w := m.W.getD doc_id []
  let doc_len := m.doc_each_len.getD doc_id 0
  forLoop doc_len (addTokenBody doc_id doc_z doc_w) m

/-- Lines 84-108: the count tables and the scratch vector. -/
def initCountTables (m : LDAbase K) : LDAbase K :=
  let m := { m with n_kv := List.replicate m.num_topics (List.replicate m.num_vocab 0) }
  let m := { m with n_dk := List.replicate m.num_doc (List.replicate m.num_topics 0) }
  let m := { m with n_k := List.replicate m.num_topics 0 }
  let m := { m with n_k_noWeight := List.replicate m.num_topics 0 }
  let m := forLoop m.num_doc addDocBody m
  { m with z_prob_vec := List.replicate m.num_topics 0 }

/-- The method `LDAbase::initialize_common` (lines 39-110).  The constants of
the slice sampler (lines 41-50) are not read by any embedded function and are
left out. -/
def initialize_common (log : K → K) (m : LDAbase K) : LDAbase K :=
  initCountTables (initVocabWeights log m)

/-- Lines 115-121 of `sample_z`: remove the token from the tables. -/
def sampleRemove (m : LDAbase K) (z w doc_id : Nat) : LDAbase K :=
  let m := { m with n_kv := matSub m.n_kv z w (vecGet m.vocab_weights w) }
  let m := { m with n_k := vecSub m.n_k z (vecGet m.vocab_weights w) }
  let m := { m with n_k_noWeight := vecSub m.n_k_noWeight z 1 }
  let m := { m with n_dk := matSub m.n_dk doc_id z 1 }
  { m with new_z := -1 }

/-- Body of the loop of lines 124-132: the candidate weight of topic `k`.
The members `numerator` and `denominator` are written and read only here. -/
def weightBody (alpha : List K) (w doc_id : Nat) (k : Nat) (m : LDAbase K) : LDAbase K :=
  let numerator := (m.beta + matGet m.n_kv k w) * (matGet m.n_dk doc_id k + vecGet alpha k)
  let denominator := (m.num_vocab : K) * m.beta + vecGet m.n_k k
  { m with z_prob_vec := vecSet m.z_prob_vec k (numerator / denominator) }

/-- Lines 124-134 of `sample_z`: the candidate weights and their sum. -/
def sampleWeights (m : LDAbase K) (alpha : List K) (w doc_id : Nat) : LDAbase K :=
  let m := forLoop m.num_topics (weightBody alpha w doc_id) m
  { m with sum := m.z_prob_vec.sum }

/-- Lines 138-142 of `sample_z`: add the token back under the drawn topic. -/
def sampleAdd (m : LDAbase K) (new_z w doc_id : Nat) : LDAbase K :=
  let m := { m with new_z := (new_z : Int) }
  let m := { m with n_kv := matAdd m.n_kv new_z w (vecGet m.vocab_weights w) }
  let m := { m with n_k := vecAdd m.n_k new_z (vecGet m.vocab_weights w) }
  let m := { m with n_k_noWeight := vecAdd m.n_k_noWeight new_z 1 }
  { m with n_dk := matAdd m.n_dk doc_id new_z 1 }

/-- The topic drawn at line 135 from the candidate weights. -/
def drawnTopic (rcat : List K → K → Nat → Nat) (m : LDAbase K) (alpha : List K)
    (z w doc_id : Nat) : Nat :=
  let m := sampleWeights (sampleRemove m z w doc_id) alpha w doc_id
  rcat m.z_prob_vec m.sum m.num_topics

/-- The method `LDAbase::sample_z` (lines 113-145): the returned topic and the
object after the call.  The argument `s` is not used by the source. -/
def sample_z (rcat : List K → K → Nat → Nat) (m : LDAbase K) (alpha : List K)
    (z _s w doc_id : Nat) : Nat × LDAbase K :=
  let m := sampleRemove m z w doc_id
  let m := sampleWeights m alpha w doc_id
  let new_z := rcat m.z_prob_vec m.sum m.num_topics
  let m := sampleAdd m new_z w doc_id
  (new_z, m)

end Code

/-! ## The quantities of the data model -/

section DataModel

variable {K : Type} [LinearOrderedField K]

/-- Length of document `d`. -/
def docLen (W : List (List Nat)) (d : Nat) : Nat := (W.getD d []).length

/-- The corpus invariant of the data model: the two sequences of every document
have the same length, every word index is below `num_vocab` and every topic
index is below `num_topics`. -/
def WellFormed (W Z : List (List Nat)) (num_vocab num_topics : Nat) : Prop :=
  Z.length = W.length ∧
  ∀ d, d < W.length → docLen Z d = docLen W d ∧
    ∀ p, p < docLen W d → tokenAt W d p < num_vocab ∧ tokenAt Z d p < num_topics

instance (W Z : List (List Nat)) (num_vocab num_topics : Nat) :
    Decidable (WellFormed W Z num_vocab num_topics) := by
  unfold WellFormed; infer_instance

/-- Number of tokens of the corpus. -/
def numTokens (W : List (List Nat)) : Nat := ∑ d ∈ range W.length, docLen W d

/-- The size bound under which the cast of line 72 is exact: the number of tokens
plus `num_vocab` is at most `INT_MAX`. -/
def FitsInt (W : List (List Nat)) (num_vocab : Nat) : Prop :=
  numTokens W + num_vocab < 2147483648

instance (W : List (List Nat)) (num_vocab : Nat) : Decidable (FitsInt W num_vocab) := by
  unfold FitsInt; infer_instance

/-- Number of occurrences of word `v` in the whole corpus. -/
def occurrences (W : List (List Nat)) (v : Nat) : Nat :=
  ∑ d ∈ range W.length, ∑ p ∈ range (docLen W d), if tokenAt W d p = v then 1 else 0

/-- Number of tokens with word `v` and topic `k`. -/
def countKV (W Z : List (List Nat)) (k v : Nat) : Nat :=
  ∑ d ∈ range W.length, ∑ p ∈ range (docLen W d),
    if tokenAt Z d p = k ∧ tokenAt W d p = v then 1 else 0

/-- Number of tokens of document `d` with topic `k`. -/
def countDK (W Z : List (List Nat)) (d k : Nat) : Nat :=
  ∑ p ∈ range (docLen W d), if tokenAt Z d p = k then 1 else 0

/-- Number of tokens with topic `k`. -/
def countK (W Z : List (List Nat)) (k : Nat) : Nat :=
  ∑ d ∈ range W.length, ∑ p ∈ range (docLen W d), if tokenAt Z d p = k then 1 else 0

/-- Sum of `weight(word)` over the tokens with topic `k`. -/
def weightK (weight : Nat → K) (W Z : List (List Nat)) (k : Nat) : K :=
  ∑ d ∈ range W.length, ∑ p ∈ range (docLen W d),
    if tokenAt Z d p = k then weight (tokenAt W d p) else 0

/-- The assignment `Z` with the topic of the token at `(d, p)` replaced by `new_z`. -/
def setTopic (Z : List (List Nat)) (d p new_z : Nat) : List (List Nat) :=
  Z.set d ((Z.getD d []).set p new_z)

/-- A matrix has `r` rows of `c` entries each. -/
def MatShape (m : List (List K)) (r c : Nat) : Prop :=
  m.length = r ∧ ∀ i, i < r → (m.getD i []).length = c

/-- The members that the table loop of `initialize_common` and `sample_z` only read
are the same in `m` and `m'`. -/
structure SameParams (m m' : LDAbase K) : Prop where
  W : m'.W = m.W
  Z : m'.Z = m.Z
  num_topics : m'.num_topics = m.num_topics
  num_vocab : m'.num_vocab = m.num_vocab
  num_doc : m'.num_doc = m.num_doc
  use_weight : m'.use_weight = m.use_weight
  beta : m'.beta = m.beta
  doc_each_len : m'.doc_each_len = m.doc_each_len
  total_words : m'.total_words = m.total_words
  vocab_weights : m'.vocab_weights = m.vocab_weights

/-- The four tables have the dimensions that `initialize_common` gives them:
`n_kv` is `T × V`, `n_dk` is `D × T`, `n_k` and `n_k_noWeight` have `T` entries. -/
structure TableShape (m : LDAbase K) (D T V : Nat) : Prop where
  n_kv : MatShape m.n_kv T V
  n_dk : MatShape m.n_dk D T
  n_k : m.n_k.length = T
  n_k_noWeight : m.n_k_noWeight.length = T

/-- What the tables hold after the first `n` tokens of one document were added. -/
def DocLoopInv (d : Nat) (dz dw : List Nat) (D T V : Nat) (m : LDAbase K) (n : Nat)
    (m' : LDAbase K) : Prop :=
  SameParams m m' ∧ TableShape m' D T V ∧
  (∀ k v, matGet m'.n_kv k v = matGet m.n_kv k v + ∑ p ∈ range n,
      if (k = dz.getD p 0 ∧ v = dw.getD p 0) ∧ (dz.getD p 0 < T ∧ dw.getD p 0 < V)
      then vecGet m.vocab_weights (dw.getD p 0) else 0) ∧
  (∀ k, vecGet m'.n_k k = vecGet m.n_k k + ∑ p ∈ range n,
      if k = dz.getD p 0 ∧ dz.getD p 0 < T then vecGet m.vocab_weights (dw.getD p 0) else 0) ∧
  (∀ k, vecGet m'.n_k_noWeight k = vecGet m.n_k_noWeight k + ∑ p ∈ range n,
      if k = dz.getD p 0 ∧ dz.getD p 0 < T then 1 else 0) ∧
  (∀ a k, matGet m'.n_dk a k = matGet m.n_dk a k + ∑ p ∈ range n,
      if (a = d ∧ k = dz.getD p 0) ∧ (d < D ∧ dz.getD p 0 < T) then 1 else 0)

/-- What the tables hold after the tokens of the first `n` documents were added. -/
def CorpusLoopInv (D T V : Nat) (m : LDAbase K) (n : Nat) (m' : LDAbase K) : Prop :=
  SameParams m m' ∧ TableShape m' D T V ∧
  (∀ k v, matGet m'.n_kv k v = matGet m.n_kv k v + ∑ d ∈ range n,
      ∑ p ∈ range (m.doc_each_len.getD d 0),
        if (k = tokenAt m.Z d p ∧ v = tokenAt m.W d p) ∧ (tokenAt m.Z d p < T ∧ tokenAt m.W d p < V)
        then vecGet m.vocab_weights (tokenAt m.W d p) else 0) ∧
  (∀ k, vecGet m'.n_k k = vecGet m.n_k k + ∑ d ∈ range n,
      ∑ p ∈ range (m.doc_each_len.getD d 0),
        if k = tokenAt m.Z d p ∧ tokenAt m.Z d p < T
        then vecGet m.vocab_weights (tokenAt m.W d p) else 0) ∧
  (∀ k, vecGet m'.n_k_noWeight k = vecGet m.n_k_noWeight k + ∑ d ∈ range n,
      ∑ p ∈ range (m.doc_each_len.getD d 0),
        if k = tokenAt m.Z d p ∧ tokenAt m.Z d p < T then 1 else 0) ∧
  (∀ a k, matGet m'.n_dk a k = matGet m.n_dk a k + ∑ d ∈ range n,
      ∑ p ∈ range (m.doc_each_len.getD d 0),
        if (a = d ∧ k = tokenAt m.Z d p) ∧ (d < D ∧ tokenAt m.Z d p < T) then 1 else 0)

/-- The corpus, the sizes, the weighting option and the prior are the same in
`m` and `m'`. -/
structure SameCorpus (m m' : LDAbase K) : Prop where
  W : m'.W = m.W
  Z : m'.Z = m.Z
  num_topics : m'.num_topics = m.num_topics
  num_vocab : m'.num_vocab = m.num_vocab
  num_doc : m'.num_doc = m.num_doc
  use_weight : m'.use_weight = m.use_weight
  beta : m'.beta = m.beta

/-- Every word index of the corpus is below `num_vocab`. -/
def WordsInRange (W : List (List Nat)) (num_vocab : Nat) : Prop :=
  ∀ d, d < W.length → ∀ p, p < docLen W d → tokenAt W d p < num_vocab

instance (W : List (List Nat)) (num_vocab : Nat) : Decidable (WordsInRange W num_vocab) := by
  unfold WordsInRange; infer_instance

/-- What `vocab_weights` and `doc_each_len` hold after the words of the first `n`
documents were counted. -/
def VocabLoopInv (m : LDAbase K) (n : Nat) (m' : LDAbase K) : Prop :=
  SameCorpus m m' ∧
  m'.doc_each_len = m.doc_each_len ++ (List.range n).map (docLen m.W) ∧
  m'.vocab_weights.length = m.vocab_weights.length ∧
  ∀ v, vecGet m'.vocab_weights v = vecGet m.vocab_weights v + ∑ d ∈ range n,
    ∑ p ∈ range (docLen m.W d),
      if v = tokenAt m.W d p ∧ tokenAt m.W d p < m.vocab_weights.length then 1 else 0

/-- The object right after line 71: the raw word counts, before normalisation. -/
def countedWords (m : LDAbase K) : LDAbase K :=
  forLoop m.num_doc countDocBody { m with vocab_weights := List.replicate m.num_vocab 1 }


/-- The object right after line 89: the four tables are zero matrices. -/
def zeroTables (m : LDAbase K) : LDAbase K :=
  { m with
    n_kv := List.replicate m.num_topics (List.replicate m.num_vocab 0)
    n_dk := List.replicate m.num_doc (List.replicate m.num_topics 0)
    n_k := List.replicate m.num_topics 0
    n_k_noWeight := List.replicate m.num_topics 0 }


/-- The four tables of `m` reflect the assignment `Z` of the corpus `W`, with the
weights stored in `m`: every entry is the count the data model defines. -/
structure TablesReflect (m : LDAbase K) (W Z : List (List Nat)) : Prop where
  n_kv : ∀ k v, matGet m.n_kv k v = vecGet m.vocab_weights v * (countKV W Z k v : K)
  n_dk : ∀ d k, matGet m.n_dk d k = (countDK W Z d k : K)
  n_k : ∀ k, vecGet m.n_k k = weightK (vecGet m.vocab_weights) W Z k
  n_k_noWeight : ∀ k, vecGet m.n_k_noWeight k = (countK W Z k : K)


/-- A small corpus: two documents, three words, two topics, `beta = 0.1`. -/
def exampleModel (K : Type) [One K] [Div K] [NatCast K] (use_weights : Int) :
    Model K :=
  { W := [[0, 1, 1], [2, 0]]
    Z := [[0, 1, 0], [1, 1]]
    vocab_size := 3
    no_keyword_topics := 2
    use_weights := use_weights
    beta := 1 / 10 }


/-- The candidate weight of topic `k` for a token with word `w` in document
`doc_id`, as a function of the tables currently stored in `m`:
`(beta + n_kv(k,w)) * (n_dk(doc_id,k) + alpha(k)) / (num_vocab * beta + n_k(k))`. -/
def candidateWeight (m : LDAbase K) (alpha : List K) (w doc_id k : Nat) : K :=
  (m.beta + matGet m.n_kv k w) * (matGet m.n_dk doc_id k + vecGet alpha k)
    / ((m.num_vocab : K) * m.beta + vecGet m.n_k k)

/-- The four tables are the same in `m` and `m'`. -/
structure SameTables (m m' : LDAbase K) : Prop where
  n_kv : m'.n_kv = m.n_kv
  n_dk : m'.n_dk = m.n_dk
  n_k : m'.n_k = m.n_k
  n_k_noWeight : m'.n_k_noWeight = m.n_k_noWeight

/-- The tables of `m'` are those of `m` with `sign` times the contribution of one
token (topic `z`, word `w`, document `doc_id`) added: `sign * weight(w)` at
`n_kv(z,w)` and `n_k(z)`, `sign` at `n_k_noWeight(z)` and `n_dk(doc_id,z)`. -/
structure TokenShift (D T V : Nat) (sign : K) (z w doc_id : Nat) (m m' : LDAbase K) : Prop where
  n_kv : ∀ k v, matGet m'.n_kv k v = matGet m.n_kv k v +
    if (k = z ∧ v = w) ∧ (z < T ∧ w < V) then sign * vecGet m.vocab_weights w else 0
  n_k : ∀ k, vecGet m'.n_k k = vecGet m.n_k k +
    if k = z ∧ z < T then sign * vecGet m.vocab_weights w else 0
  n_k_noWeight : ∀ k, vecGet m'.n_k_noWeight k = vecGet m.n_k_noWeight k +
    if k = z ∧ z < T then sign else 0
  n_dk : ∀ a k, matGet m'.n_dk a k = matGet m.n_dk a k +
    if (a = doc_id ∧ k = z) ∧ (doc_id < D ∧ z < T) then sign else 0


/-- Number of tokens other than the one at `(d0, p0)` with word `v` and topic `k`. -/
def countKVExcl (W Z : List (List Nat)) (d0 p0 k v : Nat) : Nat :=
  ∑ d ∈ range W.length, ∑ p ∈ range (docLen W d),
    if ¬ (d = d0 ∧ p = p0) ∧ tokenAt Z d p = k ∧ tokenAt W d p = v then 1 else 0

/-- Number of tokens of document `d` other than the one at `(d0, p0)` with topic `k`. -/
def countDKExcl (W Z : List (List Nat)) (d0 p0 d k : Nat) : Nat :=
  ∑ p ∈ range (docLen W d), if ¬ (d = d0 ∧ p = p0) ∧ tokenAt Z d p = k then 1 else 0

/-- Number of tokens other than the one at `(d0, p0)` with topic `k`. -/
def countKExcl (W Z : List (List Nat)) (d0 p0 k : Nat) : Nat :=
  ∑ d ∈ range W.length, ∑ p ∈ range (docLen W d),
    if ¬ (d = d0 ∧ p = p0) ∧ tokenAt Z d p = k then 1 else 0

/-- Sum of `weight(word)` over the tokens other than the one at `(d0, p0)` with
topic `k`. -/
def weightKExcl (weight : Nat → K) (W Z : List (List Nat)) (d0 p0 k : Nat) : K :=
  ∑ d ∈ range W.length, ∑ p ∈ range (docLen W d),
    if ¬ (d = d0 ∧ p = p0) ∧ tokenAt Z d p = k then weight (tokenAt W d p) else 0

/-- The four tables of `m` reflect the assignment `Z` of the corpus `W` with the
token at `(d0, p0)` excluded. -/
structure TablesReflectExcl (m : LDAbase K) (W Z : List (List Nat)) (d0 p0 : Nat) : Prop where
  n_kv : ∀ k v, matGet m.n_kv k v = vecGet m.vocab_weights v * (countKVExcl W Z d0 p0 k v : K)
  n_dk : ∀ d k, matGet m.n_dk d k = (countDKExcl W Z d0 p0 d k : K)
  n_k : ∀ k, vecGet m.n_k k = weightKExcl (vecGet m.vocab_weights) W Z d0 p0 k
  n_k_noWeight : ∀ k, vecGet m.n_k_noWeight k = (countKExcl W Z d0 p0 k : K)


/-- Sufficient-statistic consistency: for every topic the weighted total is the
sum of the topic's row of `n_kv`. -/
def Consistent (m : LDAbase K) (T V : Nat) : Prop :=
  ∀ k, k < T → vecGet m.n_k k = ∑ v ∈ range V, matGet m.n_kv k v

/-- Document-length conservation: for every document the row of `n_dk` sums to
the number of tokens of the document. -/
def LengthConserved (m : LDAbase K) (W : List (List Nat)) (T : Nat) : Prop :=
  ∀ d, d < W.length → ∑ k ∈ range T, matGet m.n_dk d k = (docLen W d : K)


/-- What is known of an object that stands for the assignment `Z` of the corpus of
`model`, with the vocabulary weights `vw`. -/
structure SweepState (model : Model K) (vw : List K) (Z : List (List Nat)) (m : LDAbase K) :
    Prop where
  wf : WellFormed model.W Z model.vocab_size model.no_keyword_topics
  reflect : TablesReflect m model.W Z
  shape : TableShape m model.W.length model.no_keyword_topics model.vocab_size
  vocab_weights : m.vocab_weights = vw
  num_topics : m.num_topics = model.no_keyword_topics
  num_vocab : m.num_vocab = model.vocab_size
  beta : m.beta = model.beta
  z_prob_vec : m.z_prob_vec.length = model.no_keyword_topics


/-- The smallest corpus: one document with one token, one word, one topic. -/
def singleTokenModel (K : Type) [One K] [Div K] [NatCast K] (use_weights : Int) :
    Model K :=
  { W := [[0]]
    Z := [[0]]
    vocab_size := 1
    no_keyword_topics := 1
    use_weights := use_weights
    beta := 1 / 10 }

/-- Every entry of the four tables is non-negative. -/
structure TablesNonneg (m : LDAbase K) : Prop where
  n_kv : ∀ row ∈ m.n_kv, ∀ x ∈ row, 0 ≤ x
  n_dk : ∀ row ∈ m.n_dk, ∀ x ∈ row, 0 ≤ x
  n_k : ∀ x ∈ m.n_k, 0 ≤ x
  n_k_noWeight : ∀ x ∈ m.n_k_noWeight, 0 ≤ x


/-- The corpus without documents over the empty vocabulary. -/
def emptyModel (K : Type) [One K] [Div K] [NatCast K] (use_weights : Int) :
    Model K :=
  { W := []
    Z := []
    vocab_size := 0
    no_keyword_topics := 1
    use_weights := use_weights
    beta := 1 / 10 }


end DataModel

/-! ## Reachable states -/

section Reachability

variable {K : Type} [Zero K] [One K] [Add K] [Sub K] [Mul K] [Div K] [Neg K] [NatCast K]
  [IntCast K] [CastToInt K]

/-- The objects that a run can reach: the object right after `initialize_common`,
and the object after any call of `sample_z` whose arguments `z`, `w`, `doc_id` and
whose drawn topic are in range. -/
inductive Reachable (log : K → K) (model : Model K) : LDAbase K → Prop where
  | init : Reachable log model (initialize_common log (read_data_common model))
  | step (m : LDAbase K) (rcat : List K → K → Nat → Nat) (alpha : List K)
      (z s w doc_id : Nat) :
      Reachable log model m →
      z < model.no_keyword_topics → w < model.vocab_size → doc_id < model.W.length →
      (sample_z rcat m alpha z s w doc_id).1 < model.no_keyword_topics →
      Reachable log model (sample_z rcat m alpha z s w doc_id).2

/-- The objects that the Gibbs sweep can reach, together with the assignment they
stand for: the object right after `initialize_common` with the initial assignment,
and the object after `sample_z` was called on a token with the word and the
current topic of that token and drew a topic in range, with the drawn topic
written to the assignment. -/
inductive SweepReachable (log : K → K) (model : Model K) :
    List (List Nat) → LDAbase K → Prop where
  | init : SweepReachable log model model.Z (initialize_common log (read_data_common model))
  | step (Z : List (List Nat)) (m : LDAbase K) (rcat : List K → K → Nat → Nat)
      (alpha : List K) (doc_id position s : Nat) :
      SweepReachable log model Z m →
      doc_id < model.W.length → position < docLen model.W doc_id →
      (sample_z rcat m alpha (tokenAt Z doc_id position) s
        (tokenAt model.W doc_id position) doc_id).1 < model.no_keyword_topics →
      SweepReachable log model
        (setTopic Z doc_id position
          (sample_z rcat m alpha (tokenAt Z doc_id position) s
            (tokenAt model.W doc_id position) doc_id).1)
        (sample_z rcat m alpha (tokenAt Z doc_id position) s
          (tokenAt model.W doc_id position) doc_id).2

end Reachability

/-! ## IEEE double precision

The source computes in `double`.  The type `Dbl` carries the finite doubles as
rational numbers; every operation is the exact rational operation followed by
rounding to the nearest double, ties to even, with 53 significant bits and gradual
underflow.  Every operation is rounded on its own (no fused multiply-add).
Infinities, NaN and the sign of zero are not represented: the runs evaluated with
this type stay finite and never divide by zero. -/

section Doubles

/-- Number of binary digits of `n`, with recursion depth `fuel`. -/
def bitLenAux : Nat → Nat → Nat
  | 0, _ => 0
  | fuel + 1, n => if n = 0 then 0 else bitLenAux fuel (n / 2) + 1

/-- Number of binary digits of `n` (for `n < 2 ^ 2200`). -/
def bitLen (n : Nat) : Nat := bitLenAux 2200 n

/-- The power `2 ^ e` for an integer exponent. -/
def pow2 (e : Int) : ℚ :=
  if 0 ≤ e then ((2 ^ e.toNat : Nat) : ℚ) else 1 / ((2 ^ (-e).toNat : Nat) : ℚ)

/-- The exponent `e` with `2 ^ e ≤ x < 2 ^ (e + 1)`, for `x > 0`. -/
def floorLog2 (x : ℚ) : Int :=
  let e0 : Int := (bitLen x.num.natAbs : Int) - (bitLen x.den : Int)
  if pow2 e0 ≤ x then e0 else e0 - 1

/-- Rounding to the nearest integer, ties to the even one. -/
def roundNearestEven (s : ℚ) : Int :=
  let n := Rat.floor s
  let r := s - n
  if r < 1 / 2 then n else if 1 / 2 < r then n + 1 else if n % 2 = 0 then n else n + 1

/-- Rounding of a rational number to the nearest double: 53 significant bits, and
a spacing of at least `2 ^ (-1074)` (the subnormal range). -/
def roundDbl (x : ℚ) : ℚ :=
  if x = 0 then 0 else
    let e := max (floorLog2 |x| - 52) (-1074)
    (roundNearestEven (x / pow2 e) : ℚ) * pow2 e

/-- A finite double, given by its value. -/
structure Dbl where
  /-- The value of the double. -/
  q : ℚ
deriving DecidableEq

instance : Zero Dbl := ⟨⟨0⟩⟩
instance : One Dbl := ⟨⟨1⟩⟩
instance : Add Dbl := ⟨fun a b => ⟨roundDbl (a.q + b.q)⟩⟩
instance : Sub Dbl := ⟨fun a b => ⟨roundDbl (a.q - b.q)⟩⟩
instance : Mul Dbl := ⟨fun a b => ⟨roundDbl (a.q * b.q)⟩⟩
instance : Div Dbl := ⟨fun a b => ⟨roundDbl (a.q / b.q)⟩⟩
instance : Neg Dbl := ⟨fun a => ⟨- a.q⟩⟩
instance : NatCast Dbl := ⟨fun n => ⟨roundDbl (n : ℚ)⟩⟩
instance : IntCast Dbl := ⟨fun n => ⟨roundDbl (n : ℚ)⟩⟩
instance : CastToInt Dbl := ⟨fun a => truncToInt a.q⟩

/-- The decimal constant `num / den` of a program text, as a double. -/
def dblLit (num den : Nat) : Dbl := ⟨roundDbl ((num : ℚ) / (den : ℚ))⟩

/-- The C library logarithm at the arguments that the two example corpora pass to
it: the doubles nearest to `ln (3/8)`, `ln (1/4)` and `ln 2`, and `ln 1 = 0`.  No
other argument occurs in the runs evaluated with it, and the value there is `0`. -/
def dblLog (x : Dbl) : Dbl :=
  if x.q = 3 / 8 then ⟨-1104315564594423 / 1125899906842624⟩
  else if x.q = 1 / 4 then ⟨-6243314768165359 / 4503599627370496⟩
  else if x.q = 2 then ⟨6243314768165359 / 9007199254740992⟩
  else if x.q = 1 then ⟨0⟩
  else ⟨0⟩

/-- The example corpus in doubles, weighting enabled, with the prior `beta`. -/
def dblModel (beta : Dbl) : Model Dbl := { exampleModel Dbl 1 with beta := beta }

/-- The corpus of one token in doubles, weighting enabled, with the prior `beta`. -/
def dblSingleModel (beta : Dbl) : Model Dbl := { singleTokenModel Dbl 1 with beta := beta }

/-- The object after `initialize_common` on the example corpus and three calls of
`sample_z` with `alpha = [1, 1]`: on the token `(0,1)` drawing topic 0, on the token
`(0,0)` drawing topic 1, and on the token `(0,1)` again drawing topic 1. -/
def driftState (beta : Dbl) : LDAbase Dbl :=
  (sample_z (fun _ _ _ => 1)
    (sample_z (fun _ _ _ => 1)
      (sample_z (fun _ _ _ => 0)
        (initialize_common dblLog (read_data_common (dblModel beta)))
        [1, 1] 1 0 1 0).2 [1, 1] 0 0 0 0).2 [1, 1] 0 0 1 0).2

/-- The assignment after these three calls. -/
def driftZ : List (List Nat) := [[1, 1, 0], [1, 1]]

end Doubles

/-! ## Exact arithmetic with NaN

The C library logarithm of a negative number is NaN; NaN is absorbing for the
arithmetic operations and makes every comparison false.  The type `WithNaN K` adds
this one value to an exact field `K`.  Infinities are not represented: the run
evaluated with this type does not divide by zero or take the logarithm of zero. -/

section NaN

/-- A number of `K`, or NaN. -/
inductive WithNaN (K : Type) where
  | val : K → WithNaN K
  | nan : WithNaN K

variable {K : Type}

instance [Zero K] : Zero (WithNaN K) := ⟨WithNaN.val 0⟩
instance [One K] : One (WithNaN K) := ⟨WithNaN.val 1⟩
instance [NatCast K] : NatCast (WithNaN K) := ⟨fun n => WithNaN.val (n : K)⟩
instance [IntCast K] : IntCast (WithNaN K) := ⟨fun n => WithNaN.val (n : K)⟩

instance [Add K] : Add (WithNaN K) :=
  ⟨fun a b => match a, b with
    | WithNaN.val x, WithNaN.val y => WithNaN.val (x + y)
    | _, _ => WithNaN.nan⟩

instance [Sub K] : Sub (WithNaN K) :=
  ⟨fun a b => match a, b with
    | WithNaN.val x, WithNaN.val y => WithNaN.val (x - y)
    | _, _ => WithNaN.nan⟩

instance [Mul K] : Mul (WithNaN K) :=
  ⟨fun a b => match a, b with
    | WithNaN.val x, WithNaN.val y => WithNaN.val (x * y)
    | _, _ => WithNaN.nan⟩

instance [Div K] : Div (WithNaN K) :=
  ⟨fun a b => match a, b with
    | WithNaN.val x, WithNaN.val y => WithNaN.val (x / y)
    | _, _ => WithNaN.nan⟩

instance [Neg K] : Neg (WithNaN K) :=
  ⟨fun a => match a with
    | WithNaN.val x => WithNaN.val (- x)
    | WithNaN.nan => WithNaN.nan⟩

/-- The cast `(int) x`; the conversion of NaN yields `INT_MIN`. -/
instance [CastToInt K] : CastToInt (WithNaN K) :=
  ⟨fun a => match a with
    | WithNaN.val x => CastToInt.toInt x
    | WithNaN.nan => -2147483648⟩

/-- Comparison `a <= b`: false when one side is NaN. -/
instance [LE K] : LE (WithNaN K) :=
  ⟨fun a b => match a, b with
    | WithNaN.val x, WithNaN.val y => x ≤ y
    | _, _ => False⟩

/-- Comparison `a < b`: false when one side is NaN. -/
instance [LT K] : LT (WithNaN K) :=
  ⟨fun a b => match a, b with
    | WithNaN.val x, WithNaN.val y => x < y
    | _, _ => False⟩

/-- The C library logarithm over `WithNaN K`, built from a logarithm `log` of `K`:
NaN for a negative argument and for NaN. -/
def nanLog [Zero K] [LT K] [DecidableRel (fun a b : K => a < b)] (log : K → K)
    (a : WithNaN K) : WithNaN K :=
  match a with
  | WithNaN.val x => if x < 0 then WithNaN.nan else WithNaN.val (log x)
  | WithNaN.nan => WithNaN.nan

/-- The corpus of one token of word 0 with a vocabulary of `n + 2` words and one
topic, weighting enabled, `beta = 0.1`. -/
def wideModel (K : Type) [One K] [Div K] [NatCast K] (n : Nat) : Model K :=
  { W := [[0]]
    Z := [[0]]
    vocab_size := n + 2
    no_keyword_topics := 1
    use_weights := 1
    beta := 1 / 10 }

/-- The corpus of one token with a vocabulary of `INT_MAX` words: the number of
tokens plus `num_vocab` is `2^31`, one more than `INT_MAX`. -/
def overflowModel (K : Type) [One K] [Div K] [NatCast K] : Model K :=
  wideModel K 2147483645

end NaN

/-! ## Loops and containers: basic facts -/

section Basics

variable {K : Type} [LinearOrderedField K]

theorem forLoop_zero {σ : Type} (body : Nat → σ → σ) (init : σ) :
    forLoop 0 body init = init := rfl

theorem forLoop_succ {σ : Type} (n : Nat) (body : Nat → σ → σ) (init : σ) :
    forLoop (n + 1) body init = body n (forLoop n body init) := by
  simp [forLoop, List.range_succ]

/-- Loop invariant rule: an invariant indexed by the loop counter. -/
theorem forLoop_invariant {σ : Type} (P : Nat → σ → Prop) (n : Nat) (body : Nat → σ → σ)
    (init : σ) (h0 : P 0 init)
    (hstep : ∀ i, i < n → ∀ s, P i s → P (i + 1) (body i s)) :
    P n (forLoop n body init) := by
  induction n with
  | zero => exact h0
  | succ n ih =>
    rw [forLoop_succ]
    exact hstep n (Nat.lt_succ_self n) _
      (ih (fun i hi s hs => hstep i (Nat.lt_succ_of_lt hi) s hs))

omit [LinearOrderedField K] in
theorem length_vecSet (v : List K) (i : Nat) (x : K) : (vecSet v i x).length = v.length := by
  simp [vecSet]

theorem length_vecAdd (v : List K) (i : Nat) (x : K) : (vecAdd v i x).length = v.length := by
  simp [vecAdd, vecSet]

theorem vecSub_eq_vecAdd (v : List K) (i : Nat) (x : K) : vecSub v i x = vecAdd v i (-x) := by
  simp [vecSub, vecAdd, sub_eq_add_neg]

theorem matSub_eq_matAdd (m : List (List K)) (i j : Nat) (x : K) :
    matSub m i j x = matAdd m i j (-x) := by
  simp [matSub, matAdd, vecSub_eq_vecAdd]

theorem vecGet_vecSet (v : List K) (i j : Nat) (x : K) :
    vecGet (vecSet v i x) j = if j = i ∧ i < v.length then x else vecGet v j := by
  unfold vecGet vecSet
  by_cases hji : j = i
  · subst hji
    by_cases hlt : j < v.length
    · simp [hlt]
    · simp [hlt, List.set_eq_of_length_le (Nat.le_of_not_lt hlt)]
  · have hij : i ≠ j := fun h => hji h.symm
    simp [hji, List.getElem?_set_ne hij]

theorem vecGet_vecAdd (v : List K) (i j : Nat) (x : K) :
    vecGet (vecAdd v i x) j = vecGet v j + if j = i ∧ i < v.length then x else 0 := by
  unfold vecAdd
  rw [vecGet_vecSet]
  by_cases h : j = i ∧ i < v.length
  · simp [h, h.1]
  · simp [h]

theorem vecGet_of_le (v : List K) (i : Nat) (h : v.length ≤ i) : vecGet v i = 0 := by
  simp [vecGet, List.getElem?_eq_none h]

theorem matShape_matAdd {m : List (List K)} {r c : Nat} (h : MatShape m r c) (i j : Nat)
    (x : K) : MatShape (matAdd m i j x) r c := by
  obtain ⟨hr, hc⟩ := h
  refine ⟨by simp [matAdd, hr], fun a ha => ?_⟩
  unfold matAdd
  by_cases hai : a = i
  · subst hai
    have : a < m.length := by omega
    simp only [List.getD_eq_getElem?_getD, List.getElem?_set_self this, Option.getD_some,
      length_vecAdd]
    simpa using hc a ha
  · have hia : i ≠ a := fun h => hai h.symm
    simp only [List.getD_eq_getElem?_getD, List.getElem?_set_ne hia]
    simpa using hc a ha

theorem matGet_matAdd {m : List (List K)} {r c : Nat} (h : MatShape m r c) (i j a b : Nat)
    (x : K) :
    matGet (matAdd m i j x) a b
      = matGet m a b + if (a = i ∧ b = j) ∧ (i < r ∧ j < c) then x else 0 := by
  obtain ⟨hr, hc⟩ := h
  unfold matGet matAdd
  by_cases hai : a = i
  · subst hai
    by_cases hlt : a < r
    · have hlen : a < m.length := by omega
      have hrow := hc a hlt
      simp only [List.getD_eq_getElem?_getD, List.getElem?_set_self hlen, Option.getD_some]
      rw [vecGet_vecAdd]
      simp only [List.getD_eq_getElem?_getD] at hrow
      simp [hrow, hlt]
    · have hlen : m.length ≤ a := by omega
      simp [List.set_eq_of_length_le hlen, hlt]
  · have hia : i ≠ a := fun h => hai h.symm
    simp [List.getElem?_set_ne hia, hai]

theorem matGet_of_row_le {m : List (List K)} {r c : Nat} (h : MatShape m r c) (i j : Nat)
    (hi : r ≤ i) : matGet m i j = 0 := by
  have : m.length ≤ i := by rw [h.1]; exact hi
  simp [matGet, vecGet, List.getElem?_eq_none this]

theorem matGet_of_col_le {m : List (List K)} {r c : Nat} (h : MatShape m r c) (i j : Nat)
    (hj : c ≤ j) : matGet m i j = 0 := by
  by_cases hi : i < r
  · have := h.2 i hi
    exact vecGet_of_le _ _ (by omega)
  · exact matGet_of_row_le h i j (by omega)

theorem vec_ext {v u : List K} (hlen : v.length = u.length)
    (h : ∀ i, i < v.length → vecGet v i = vecGet u i) : v = u := by
  apply List.ext_getElem hlen
  intro i h1 h2
  have := h i h1
  simpa [vecGet, List.getD_eq_getElem?_getD, List.getElem?_eq_getElem h1,
    List.getElem?_eq_getElem h2] using this

theorem mat_ext {m m' : List (List K)} {r c : Nat} (h : MatShape m r c)
    (h' : MatShape m' r c) (hget : ∀ i j, i < r → j < c → matGet m i j = matGet m' i j) :
    m = m' := by
  apply List.ext_getElem (by rw [h.1, h'.1])
  intro i h1 h2
  have hi : i < r := by rw [← h.1]; exact h1
  have e1 : m.getD i [] = m[i] := by simp [List.getElem?_eq_getElem h1]
  have e2 : m'.getD i [] = m'[i] := by simp [List.getElem?_eq_getElem h2]
  have l1 := h.2 i hi
  have l2 := h'.2 i hi
  rw [e1] at l1
  rw [e2] at l2
  apply vec_ext (by rw [l1, l2])
  intro j hj
  have := hget i j hi (by omega)
  unfold matGet at this
  rw [e1, e2] at this
  exact this

omit [LinearOrderedField K] in
theorem matShape_replicate (r c : Nat) (x : K) :
    MatShape (List.replicate r (List.replicate c x)) r c := by
  refine ⟨by simp, fun i hi => ?_⟩
  simp [List.getElem?_replicate, hi]

theorem matGet_replicate_zero (r c i j : Nat) :
    matGet (List.replicate r (List.replicate c (0 : K))) i j = 0 := by
  unfold matGet vecGet
  by_cases hi : i < r
  · by_cases hj : j < c
    · simp [List.getElem?_replicate, hi, hj]
    · simp [List.getElem?_replicate, hi, hj]
  · simp [List.getElem?_replicate, hi]

theorem vecGet_replicate (n i : Nat) (x : K) :
    vecGet (List.replicate n x) i = if i < n then x else 0 := by
  unfold vecGet
  by_cases hi : i < n <;> simp [List.getElem?_replicate, hi]

/-- The sum of a vector is the sum of its entries. -/
theorem list_sum_eq_sum_vecGet (v : List K) : v.sum = ∑ i ∈ range v.length, vecGet v i := by
  induction v with
  | nil => simp
  | cons a t ih =>
    rw [List.length_cons, Finset.sum_range_succ', List.sum_cons, ih, add_comm]
    simp [vecGet]

end Basics

/-! ## The loop that builds the count tables -/

section CountLoop

variable {K : Type} [LinearOrderedField K] [FloorRing K]

omit [LinearOrderedField K] [FloorRing K] in
theorem sameParams_refl (m : LDAbase K) : SameParams m m :=
  ⟨rfl, rfl, rfl, rfl, rfl, rfl, rfl, rfl, rfl, rfl⟩

omit [LinearOrderedField K] [FloorRing K] in
theorem sameParams_trans {a b c : LDAbase K} (h1 : SameParams a b) (h2 : SameParams b c) :
    SameParams a c := by
  obtain ⟨a1, a2, a3, a4, a5, a6, a7, a8, a9, a10⟩ := h1
  obtain ⟨b1, b2, b3, b4, b5, b6, b7, b8, b9, b10⟩ := h2
  exact ⟨b1.trans a1, b2.trans a2, b3.trans a3, b4.trans a4, b5.trans a5, b6.trans a6,
    b7.trans a7, b8.trans a8, b9.trans a9, b10.trans a10⟩

omit [FloorRing K] in
theorem addToken_loop (d : Nat) (dz dw : List Nat) (D T V : Nat) (m : LDAbase K)
    (hs : TableShape m D T V) (n : Nat) :
    DocLoopInv d dz dw D T V m n (forLoop n (addTokenBody d dz dw) m) := by
  apply forLoop_invariant (DocLoopInv d dz dw D T V m)
  · exact ⟨sameParams_refl m, hs, by simp, by simp, by simp, by simp⟩
  · intro i _ s hinv
    obtain ⟨hp, ⟨s1, s2, s3, s4⟩, hkv, hk, hkn, hdk⟩ := hinv
    have hvw : s.vocab_weights = m.vocab_weights := hp.vocab_weights
    refine ⟨?_, ?_, ?_, ?_, ?_, ?_⟩
    · exact sameParams_trans hp ⟨rfl, rfl, rfl, rfl, rfl, rfl, rfl, rfl, rfl, rfl⟩
    · exact ⟨matShape_matAdd s1 _ _ _, matShape_matAdd s2 _ _ _, by
        simp [addTokenBody, length_vecAdd, s3], by simp [addTokenBody, length_vecAdd, s4]⟩
    · intro k v
      simp only [addTokenBody]
      rw [matGet_matAdd s1, hkv, Finset.sum_range_succ, hvw, add_assoc]
    · intro k
      simp only [addTokenBody]
      rw [vecGet_vecAdd, hk, Finset.sum_range_succ, hvw, s3, add_assoc]
    · intro k
      simp only [addTokenBody]
      rw [vecGet_vecAdd, hkn, Finset.sum_range_succ, s4, add_assoc]
    · intro a k
      simp only [addTokenBody]
      rw [matGet_matAdd s2, hdk, Finset.sum_range_succ, add_assoc]

omit [FloorRing K] in
theorem addDoc_loop (D T V : Nat) (m : LDAbase K) (hs : TableShape m D T V) (n : Nat) :
    CorpusLoopInv D T V m n (forLoop n addDocBody m) := by
  apply forLoop_invariant (CorpusLoopInv D T V m)
  · exact ⟨sameParams_refl m, hs, by simp, by simp, by simp, by simp⟩
  · intro i _ s hinv
    obtain ⟨hp, hshape, hkv, hk, hkn, hdk⟩ := hinv
    have hW : s.W = m.W := hp.W
    have hZ : s.Z = m.Z := hp.Z
    have hlen : s.doc_each_len = m.doc_each_len := hp.doc_each_len
    have hvw : s.vocab_weights = m.vocab_weights := hp.vocab_weights
    obtain ⟨ip, ishape, ikv, ik, ikn, idk⟩ :=
      addToken_loop i (s.Z.getD i []) (s.W.getD i []) D T V s hshape (s.doc_each_len.getD i 0)
    refine ⟨sameParams_trans hp ip, ishape, ?_, ?_, ?_, ?_⟩
    · intro k v
      simp only [addDocBody]
      rw [ikv, hkv, Finset.sum_range_succ, hW, hZ, hlen, hvw, add_assoc]
      rfl
    · intro k
      simp only [addDocBody]
      rw [ik, hk, Finset.sum_range_succ, hW, hZ, hlen, hvw, add_assoc]
      rfl
    · intro k
      simp only [addDocBody]
      rw [ikn, hkn, Finset.sum_range_succ, hZ, hlen, add_assoc]
      rfl
    · intro a k
      simp only [addDocBody]
      rw [idk, hdk, Finset.sum_range_succ, hZ, hlen, add_assoc]
      rfl

end CountLoop


/-! ## The loop that counts the words -/

section VocabLoop

variable {K : Type} [LinearOrderedField K] [FloorRing K]

omit [LinearOrderedField K] [FloorRing K] in
theorem sameCorpus_refl (m : LDAbase K) : SameCorpus m m :=
  ⟨rfl, rfl, rfl, rfl, rfl, rfl, rfl⟩

omit [LinearOrderedField K] [FloorRing K] in
theorem sameCorpus_trans {a b c : LDAbase K} (h1 : SameCorpus a b) (h2 : SameCorpus b c) :
    SameCorpus a c :=
  ⟨h2.W.trans h1.W, h2.Z.trans h1.Z, h2.num_topics.trans h1.num_topics,
    h2.num_vocab.trans h1.num_vocab, h2.num_doc.trans h1.num_doc,
    h2.use_weight.trans h1.use_weight, h2.beta.trans h1.beta⟩

omit [FloorRing K] in
theorem countWord_loop (dw : List Nat) (m : LDAbase K) (n : Nat) :
    SameCorpus m (forLoop n (countWordBody dw) m) ∧
    (forLoop n (countWordBody dw) m).doc_each_len = m.doc_each_len ∧
    (forLoop n (countWordBody dw) m).vocab_weights.length = m.vocab_weights.length ∧
    ∀ v, vecGet (forLoop n (countWordBody dw) m).vocab_weights v
      = vecGet m.vocab_weights v + ∑ p ∈ range n,
          if v = dw.getD p 0 ∧ dw.getD p 0 < m.vocab_weights.length then 1 else 0 := by
  apply forLoop_invariant (fun n (s : LDAbase K) =>
    SameCorpus m s ∧ s.doc_each_len = m.doc_each_len ∧
    s.vocab_weights.length = m.vocab_weights.length ∧
    ∀ v, vecGet s.vocab_weights v = vecGet m.vocab_weights v + ∑ p ∈ range n,
      if v = dw.getD p 0 ∧ dw.getD p 0 < m.vocab_weights.length then 1 else 0)
  · exact ⟨sameCorpus_refl m, rfl, rfl, by simp⟩
  · intro i _ s hinv
    obtain ⟨hc, hd, hl, hv⟩ := hinv
    refine ⟨sameCorpus_trans hc ⟨rfl, rfl, rfl, rfl, rfl, rfl, rfl⟩, hd, ?_, ?_⟩
    · simp [countWordBody, length_vecAdd, hl]
    · intro v
      simp only [countWordBody]
      rw [vecGet_vecAdd, hv, Finset.sum_range_succ, hl, add_assoc]

omit [FloorRing K] in
theorem countDoc_loop (m : LDAbase K) (n : Nat) :
    VocabLoopInv m n (forLoop n countDocBody m) := by
  apply forLoop_invariant (VocabLoopInv m)
  · exact ⟨sameCorpus_refl m, by simp, rfl, by simp⟩
  · intro i _ s hinv
    obtain ⟨hc, hd, hl, hv⟩ := hinv
    obtain ⟨ic, id, il, iv⟩ := countWord_loop (s.W.getD i [])
      { s with doc_each_len := s.doc_each_len ++ [(s.W.getD i []).length] }
      (s.W.getD i []).length
    have h1 : SameCorpus s
        { s with doc_each_len := s.doc_each_len ++ [(s.W.getD i []).length] } :=
      ⟨rfl, rfl, rfl, rfl, rfl, rfl, rfl⟩
    refine ⟨sameCorpus_trans hc (sameCorpus_trans h1 ic), ?_, ?_, ?_⟩
    · simp only [countDocBody]
      rw [id, hd, hc.W, List.range_succ, List.map_append, List.append_assoc]
      rfl
    · simp only [countDocBody]
      rw [il, hl]
    · intro v
      simp only [countDocBody]
      rw [iv, hv, Finset.sum_range_succ, hl, hc.W, add_assoc]
      rfl

omit [FloorRing K] in
/-- After line 71 `vocab_weights` has `num_vocab` entries and entry `v` is one plus
the number of occurrences of `v` in the corpus. -/
theorem countedWords_spec (m : LDAbase K) (hD : m.num_doc = m.W.length) :
    SameCorpus m (countedWords m) ∧
    (countedWords m).doc_each_len = m.doc_each_len ++ (List.range m.W.length).map (docLen m.W) ∧
    (countedWords m).vocab_weights.length = m.num_vocab ∧
    ∀ v, v < m.num_vocab →
      vecGet (countedWords m).vocab_weights v = ((1 + occurrences m.W v : Nat) : K) := by
  obtain ⟨hc, hd, hl, hv⟩ :=
    countDoc_loop { m with vocab_weights := List.replicate m.num_vocab (1 : K) } m.num_doc
  have h1 : SameCorpus m { m with vocab_weights := List.replicate m.num_vocab (1 : K) } :=
    ⟨rfl, rfl, rfl, rfl, rfl, rfl, rfl⟩
  refine ⟨sameCorpus_trans h1 hc, ?_, ?_, ?_⟩
  · rw [← hD]; exact hd
  · simpa using hl
  · intro v hvV
    have := hv v
    simp only [List.length_replicate, vecGet_replicate, hvV, if_true] at this
    unfold countedWords
    rw [this, hD]
    unfold occurrences
    push_cast
    congr 1
    refine Finset.sum_congr rfl (fun d _ => Finset.sum_congr rfl (fun p _ => ?_))
    by_cases h : tokenAt m.W d p = v
    · simp [h, hvV]
    · have h' : ¬ v = tokenAt m.W d p := fun e => h e.symm
      simp [h, h']

/-- When every word index is below `num_vocab`, the occurrence counts of all
words add up to the number of tokens. -/
theorem sum_occurrences (W : List (List Nat)) (V : Nat) (h : WordsInRange W V) :
    ∑ v ∈ range V, occurrences W v = numTokens W := by
  unfold occurrences numTokens
  rw [Finset.sum_comm]
  refine Finset.sum_congr rfl (fun d hd => ?_)
  rw [Finset.sum_comm]
  have hd' : d < W.length := Finset.mem_range.mp hd
  calc ∑ p ∈ range (docLen W d), ∑ v ∈ range V, (if tokenAt W d p = v then 1 else 0)
      = ∑ p ∈ range (docLen W d), 1 := by
        refine Finset.sum_congr rfl (fun p hp => ?_)
        have hp' : p < docLen W d := Finset.mem_range.mp hp
        rw [Finset.sum_ite_eq]
        simp [h d hd' p hp']
    _ = docLen W d := by simp

omit [FloorRing K] in
/-- The sum taken at line 72 is `num_vocab` plus the occurrence counts. -/
theorem countedWords_sum (m : LDAbase K) (hD : m.num_doc = m.W.length) :
    (countedWords m).vocab_weights.sum
      = ((m.num_vocab + ∑ v ∈ range m.num_vocab, occurrences m.W v : Nat) : K) := by
  obtain ⟨_, _, hl, hv⟩ := countedWords_spec m hD
  rw [list_sum_eq_sum_vecGet, hl, Finset.sum_congr rfl (fun v hv' => hv v (Finset.mem_range.mp hv'))]
  push_cast
  rw [Finset.sum_add_distrib]
  simp

/-- Below `2^31` the cast of a whole number returns it. -/
theorem truncToInt_natCast (n : Nat) (h : n < 2147483648) :
    truncToInt ((n : Nat) : K) = (n : Int) := by
  unfold truncToInt
  have h0 : (0 : K) ≤ ((n : Nat) : K) := Nat.cast_nonneg n
  simp only [h0, if_true, Int.floor_natCast]
  rw [if_pos]
  omega

/-- From `2^31` on the cast of a whole number returns `INT_MIN`. -/
theorem truncToInt_natCast_big (n : Nat) (h : 2147483648 ≤ n) :
    truncToInt ((n : Nat) : K) = -2147483648 := by
  unfold truncToInt
  have h0 : (0 : K) ≤ ((n : Nat) : K) := Nat.cast_nonneg n
  simp only [h0, if_true, Int.floor_natCast]
  rw [if_neg]
  omega

/-- The occurrence counts of the words below `num_vocab` never exceed the number
of tokens. -/
theorem sum_occurrences_le (W : List (List Nat)) (V : Nat) :
    ∑ v ∈ range V, occurrences W v ≤ numTokens W := by
  unfold occurrences numTokens
  rw [Finset.sum_comm]
  refine Finset.sum_le_sum (fun d _ => ?_)
  rw [Finset.sum_comm]
  calc ∑ p ∈ range (docLen W d), ∑ v ∈ range V, (if tokenAt W d p = v then 1 else 0)
      ≤ ∑ p ∈ range (docLen W d), 1 := by
        refine Finset.sum_le_sum (fun p _ => ?_)
        rw [Finset.sum_ite_eq]
        split <;> simp
    _ = docLen W d := by simp

/-- Under the size bound the sum cast at line 72 is below `2^31`. -/
theorem fitsInt_bound {W : List (List Nat)} {V : Nat} (h : FitsInt W V) :
    V + ∑ v ∈ range V, occurrences W v < 2147483648 := by
  have := sum_occurrences_le W V
  unfold FitsInt at h
  omega

end VocabLoop



/-! ## `initialize_common`: what it computes -/

section InitSpec

variable {K : Type} [LinearOrderedField K] [FloorRing K]

/-- The integer stored in `total_words`. -/
theorem countedWords_total (m : LDAbase K) (hD : m.num_doc = m.W.length) :
    truncToInt (countedWords m).vocab_weights.sum
      = truncToInt (((m.num_vocab + ∑ v ∈ range m.num_vocab, occurrences m.W v : Nat)) : K) := by
  rw [countedWords_sum m hD]

/-- The function `initVocabWeights` in terms of the object after the counting loop. -/
theorem initVocabWeights_eq (log : K → K) (m : LDAbase K) :
    initVocabWeights log m =
      if (countedWords m).use_weight = 0 then
        { countedWords m with
          total_words := truncToInt (countedWords m).vocab_weights.sum
          vocab_weights := List.replicate (countedWords m).num_vocab 1 }
      else
        { countedWords m with
          total_words := truncToInt (countedWords m).vocab_weights.sum
          vocab_weights :=
            (((countedWords m).vocab_weights.map
              (fun x => x / ((truncToInt (countedWords m).vocab_weights.sum : Int) : K))).map
                log).map (fun x => - x / log 2) } := rfl

theorem initVocabWeights_params (log : K → K) (m : LDAbase K) (hD : m.num_doc = m.W.length) :
    SameCorpus m (initVocabWeights log m) ∧
    (initVocabWeights log m).doc_each_len
      = m.doc_each_len ++ (List.range m.W.length).map (docLen m.W) ∧
    (initVocabWeights log m).total_words
      = truncToInt (((m.num_vocab + ∑ v ∈ range m.num_vocab, occurrences m.W v : Nat)) : K) ∧
    (initVocabWeights log m).vocab_weights.length = m.num_vocab := by
  obtain ⟨hc, hd, hl, _⟩ := countedWords_spec m hD
  have ht := countedWords_total m hD
  rw [initVocabWeights_eq]
  split
  · exact ⟨⟨hc.W, hc.Z, hc.num_topics, hc.num_vocab, hc.num_doc, hc.use_weight, hc.beta⟩, hd, ht,
      by simpa using hc.num_vocab⟩
  · exact ⟨⟨hc.W, hc.Z, hc.num_topics, hc.num_vocab, hc.num_doc, hc.use_weight, hc.beta⟩, hd, ht,
      by simpa using hl⟩

/-- With weighting disabled every weight is the constant of line 80. -/
theorem initVocabWeights_off (log : K → K) (m : LDAbase K) (hD : m.num_doc = m.W.length)
    (h : m.use_weight = 0) :
    (initVocabWeights log m).vocab_weights = List.replicate m.num_vocab 1 := by
  obtain ⟨hc, _, _, _⟩ := countedWords_spec m hD
  have hu : (countedWords m).use_weight = 0 := by rw [hc.use_weight]; exact h
  have hv : (countedWords m).num_vocab = m.num_vocab := hc.num_vocab
  rw [initVocabWeights_eq, if_pos hu, ← hv]

omit [FloorRing K] in
theorem vecGet_map {f : K → K} (l : List K) (i : Nat) (hi : i < l.length) :
    vecGet (l.map f) i = f (vecGet l i) := by
  simp [vecGet, List.getElem?_eq_getElem hi]

/-- With weighting enabled, the weight of word `v` after lines 72-75. -/
theorem initVocabWeights_on (log : K → K) (m : LDAbase K) (hD : m.num_doc = m.W.length)
    (h : m.use_weight ≠ 0) (v : Nat) (hv : v < m.num_vocab) :
    vecGet (initVocabWeights log m).vocab_weights v
      = - log (((1 + occurrences m.W v : Nat) : K)
          / ((truncToInt
              (((m.num_vocab + ∑ u ∈ range m.num_vocab, occurrences m.W u : Nat)) : K) : Int) : K))
        / log 2 := by
  obtain ⟨hc, _, hl, hget⟩ := countedWords_spec m hD
  have ht := countedWords_total m hD
  have hu : ¬ (countedWords m).use_weight = 0 := by rw [hc.use_weight]; exact h
  have hvl : v < (countedWords m).vocab_weights.length := by rw [hl]; exact hv
  rw [initVocabWeights_eq, if_neg hu]
  simp only []
  rw [vecGet_map _ _ (by simpa using hvl), vecGet_map _ _ (by simpa using hvl),
    vecGet_map _ _ hvl, ← hget v hv, ← ht]

end InitSpec



section TableSpec

variable {K : Type} [LinearOrderedField K] [FloorRing K]

omit [FloorRing K] in
theorem initCountTables_eq (m : LDAbase K) :
    initCountTables m =
      { forLoop m.num_doc addDocBody (zeroTables m) with
        z_prob_vec :=
          List.replicate (forLoop m.num_doc addDocBody (zeroTables m)).num_topics 0 } := rfl

omit [FloorRing K] in
/-- The tables after `initCountTables`, entry by entry, as sums over the tokens. -/
theorem initCountTables_spec (m : LDAbase K) :
    SameParams m (initCountTables m) ∧
    TableShape (initCountTables m) m.num_doc m.num_topics m.num_vocab ∧
    (initCountTables m).z_prob_vec = List.replicate m.num_topics 0 ∧
    CorpusLoopInv m.num_doc m.num_topics m.num_vocab (zeroTables m) m.num_doc
      (forLoop m.num_doc addDocBody (zeroTables m)) ∧
    (initCountTables m).n_kv = (forLoop m.num_doc addDocBody (zeroTables m)).n_kv ∧
    (initCountTables m).n_dk = (forLoop m.num_doc addDocBody (zeroTables m)).n_dk ∧
    (initCountTables m).n_k = (forLoop m.num_doc addDocBody (zeroTables m)).n_k ∧
    (initCountTables m).n_k_noWeight
      = (forLoop m.num_doc addDocBody (zeroTables m)).n_k_noWeight := by
  have hz : TableShape (zeroTables m) m.num_doc m.num_topics m.num_vocab :=
    ⟨matShape_replicate _ _ _, matShape_replicate _ _ _, by simp [zeroTables],
      by simp [zeroTables]⟩
  have hinv := addDoc_loop m.num_doc m.num_topics m.num_vocab (zeroTables m) hz m.num_doc
  have hp := hinv.1
  have hshape := hinv.2.1
  have h0 : SameParams m (zeroTables m) := ⟨rfl, rfl, rfl, rfl, rfl, rfl, rfl, rfl, rfl, rfl⟩
  have hp' := sameParams_trans h0 hp
  rw [initCountTables_eq]
  refine ⟨⟨hp'.W, hp'.Z, hp'.num_topics, hp'.num_vocab, hp'.num_doc, hp'.use_weight, hp'.beta,
    hp'.doc_each_len, hp'.total_words, hp'.vocab_weights⟩,
    ⟨hshape.n_kv, hshape.n_dk, hshape.n_k, hshape.n_k_noWeight⟩, ?_, hinv, rfl, rfl, rfl, rfl⟩
  show List.replicate _ 0 = _
  rw [hp'.num_topics]

end TableSpec



/-! ## The sums of the loop, in the terms of the data model -/

section Sums

variable {K : Type} [LinearOrderedField K]

theorem loopSum_kv (W Z : List (List Nat)) (T V : Nat) (wt : Nat → K)
    (hwf : WellFormed W Z V T) (len : Nat → Nat)
    (hlen : ∀ d, d < W.length → len d = docLen W d) (k v : Nat) :
    (∑ d ∈ range W.length, ∑ p ∈ range (len d),
      if (k = tokenAt Z d p ∧ v = tokenAt W d p) ∧ (tokenAt Z d p < T ∧ tokenAt W d p < V)
      then wt (tokenAt W d p) else 0) = wt v * (countKV W Z k v : K) := by
  unfold countKV
  push_cast
  rw [Finset.mul_sum]
  refine Finset.sum_congr rfl (fun d hd => ?_)
  have hd' : d < W.length := Finset.mem_range.mp hd
  rw [hlen d hd', Finset.mul_sum]
  refine Finset.sum_congr rfl (fun p hp => ?_)
  have hp' : p < docLen W d := Finset.mem_range.mp hp
  obtain ⟨hw, hz⟩ := (hwf.2 d hd').2 p hp'
  by_cases h : tokenAt Z d p = k ∧ tokenAt W d p = v
  · have h2 : (k = tokenAt Z d p ∧ v = tokenAt W d p) ∧ (tokenAt Z d p < T ∧ tokenAt W d p < V) :=
      ⟨⟨h.1.symm, h.2.symm⟩, hz, hw⟩
    rw [if_pos h2, if_pos h, h.2, mul_one]
  · have h2 : ¬ ((k = tokenAt Z d p ∧ v = tokenAt W d p) ∧
        (tokenAt Z d p < T ∧ tokenAt W d p < V)) := fun e => h ⟨e.1.1.symm, e.1.2.symm⟩
    rw [if_neg h2, if_neg h, mul_zero]

theorem loopSum_k (W Z : List (List Nat)) (T V : Nat) (wt : Nat → K)
    (hwf : WellFormed W Z V T) (len : Nat → Nat)
    (hlen : ∀ d, d < W.length → len d = docLen W d) (k : Nat) :
    (∑ d ∈ range W.length, ∑ p ∈ range (len d),
      if k = tokenAt Z d p ∧ tokenAt Z d p < T then wt (tokenAt W d p) else 0)
      = weightK wt W Z k := by
  unfold weightK
  refine Finset.sum_congr rfl (fun d hd => ?_)
  have hd' : d < W.length := Finset.mem_range.mp hd
  rw [hlen d hd']
  refine Finset.sum_congr rfl (fun p hp => ?_)
  have hp' : p < docLen W d := Finset.mem_range.mp hp
  obtain ⟨_, hz⟩ := (hwf.2 d hd').2 p hp'
  by_cases h : tokenAt Z d p = k
  · rw [if_pos ⟨h.symm, hz⟩, if_pos h]
  · have h2 : ¬ (k = tokenAt Z d p ∧ tokenAt Z d p < T) := fun e => h e.1.symm
    rw [if_neg h2, if_neg h]

theorem loopSum_k_noWeight (W Z : List (List Nat)) (T V : Nat)
    (hwf : WellFormed W Z V T) (len : Nat → Nat)
    (hlen : ∀ d, d < W.length → len d = docLen W d) (k : Nat) :
    (∑ d ∈ range W.length, ∑ p ∈ range (len d),
      if k = tokenAt Z d p ∧ tokenAt Z d p < T then (1 : K) else 0)
      = (countK W Z k : K) := by
  unfold countK
  push_cast
  refine Finset.sum_congr rfl (fun d hd => ?_)
  have hd' : d < W.length := Finset.mem_range.mp hd
  rw [hlen d hd']
  refine Finset.sum_congr rfl (fun p hp => ?_)
  have hp' : p < docLen W d := Finset.mem_range.mp hp
  obtain ⟨_, hz⟩ := (hwf.2 d hd').2 p hp'
  by_cases h : tokenAt Z d p = k
  · rw [if_pos ⟨h.symm, hz⟩, if_pos h]
  · have h2 : ¬ (k = tokenAt Z d p ∧ tokenAt Z d p < T) := fun e => h e.1.symm
    rw [if_neg h2, if_neg h]

theorem docLen_eq_zero_of_le (W : List (List Nat)) (d : Nat) (h : W.length ≤ d) :
    docLen W d = 0 := by
  simp [docLen, List.getElem?_eq_none h]

theorem loopSum_dk (W Z : List (List Nat)) (T V : Nat)
    (hwf : WellFormed W Z V T) (len : Nat → Nat)
    (hlen : ∀ d, d < W.length → len d = docLen W d) (a k : Nat) :
    (∑ d ∈ range W.length, ∑ p ∈ range (len d),
      if (a = d ∧ k = tokenAt Z d p) ∧ (d < W.length ∧ tokenAt Z d p < T) then (1 : K) else 0)
      = (countDK W Z a k : K) := by
  have step : ∀ d ∈ range W.length,
      (∑ p ∈ range (len d),
        if (a = d ∧ k = tokenAt Z d p) ∧ (d < W.length ∧ tokenAt Z d p < T) then (1 : K) else 0)
      = if d = a then (countDK W Z a k : K) else 0 := by
    intro d hd
    have hd' : d < W.length := Finset.mem_range.mp hd
    by_cases had : d = a
    · subst had
      rw [if_pos rfl, hlen d hd']
      unfold countDK
      push_cast
      refine Finset.sum_congr rfl (fun p hp => ?_)
      have hp' : p < docLen W d := Finset.mem_range.mp hp
      obtain ⟨_, hz⟩ := (hwf.2 d hd').2 p hp'
      by_cases h : tokenAt Z d p = k
      · rw [if_pos ⟨⟨rfl, h.symm⟩, hd', hz⟩, if_pos h]
      · have h2 : ¬ ((d = d ∧ k = tokenAt Z d p) ∧ (d < W.length ∧ tokenAt Z d p < T)) :=
          fun e => h e.1.2.symm
        rw [if_neg h2, if_neg h]
    · rw [if_neg had]
      refine Finset.sum_eq_zero (fun p _ => ?_)
      have h2 : ¬ ((a = d ∧ k = tokenAt Z d p) ∧ (d < W.length ∧ tokenAt Z d p < T)) :=
        fun e => had e.1.1.symm
      rw [if_neg h2]
  rw [Finset.sum_congr rfl step, Finset.sum_ite_eq']
  by_cases ha : a < W.length
  · rw [if_pos (Finset.mem_range.mpr ha)]
  · rw [if_neg (fun e => ha (Finset.mem_range.mp e))]
    unfold countDK
    rw [docLen_eq_zero_of_le W a (by omega)]
    simp

end Sums



/-! ## `initialize_common` on a well-formed corpus -/

section InitReflects

variable {K : Type} [LinearOrderedField K] [FloorRing K]

theorem getD_map_range (f : Nat → Nat) (n d : Nat) (h : d < n) :
    ((List.range n).map f).getD d 0 = f d := by
  simp [List.getElem?_range h, h]

/-- The members of the object after `initialize_common` that do not depend on the
assignment. -/
theorem initialize_common_params (log : K → K) (model : Model K) :
    SameCorpus (read_data_common model) (initialize_common log (read_data_common model)) ∧
    (initialize_common log (read_data_common model)).vocab_weights
      = (initVocabWeights log (read_data_common model)).vocab_weights ∧
    (initialize_common log (read_data_common model)).doc_each_len
      = (List.range model.W.length).map (docLen model.W) ∧
    (initialize_common log (read_data_common model)).total_words
      = truncToInt
          (((model.vocab_size + ∑ v ∈ range model.vocab_size, occurrences model.W v : Nat)) : K) ∧
    (initialize_common log (read_data_common model)).vocab_weights.length = model.vocab_size ∧
    (initialize_common log (read_data_common model)).z_prob_vec
      = List.replicate model.no_keyword_topics 0 ∧
    TableShape (initialize_common log (read_data_common model)) model.W.length
      model.no_keyword_topics model.vocab_size := by
  obtain ⟨hc, hd, ht, hl⟩ := initVocabWeights_params log (read_data_common model) rfl
  obtain ⟨hp, hs, hz, _⟩ := initCountTables_spec (initVocabWeights log (read_data_common model))
  have e1 : (initVocabWeights log (read_data_common model)).num_doc = model.W.length :=
    hc.num_doc
  have e2 : (initVocabWeights log (read_data_common model)).num_topics
      = model.no_keyword_topics := hc.num_topics
  have e3 : (initVocabWeights log (read_data_common model)).num_vocab = model.vocab_size :=
    hc.num_vocab
  rw [e1, e2, e3] at hs
  rw [e2] at hz
  unfold initialize_common
  refine ⟨⟨hp.W.trans hc.W, hp.Z.trans hc.Z, hp.num_topics.trans hc.num_topics,
    hp.num_vocab.trans hc.num_vocab, hp.num_doc.trans hc.num_doc,
    hp.use_weight.trans hc.use_weight, hp.beta.trans hc.beta⟩, hp.vocab_weights, ?_, ?_, ?_,
    hz, hs⟩
  · rw [hp.doc_each_len, hd]; rfl
  · rw [hp.total_words, ht]; rfl
  · rw [hp.vocab_weights, hl]; rfl

/-- On a well-formed corpus the tables built by `initialize_common` reflect the
initial assignment. -/
theorem initialize_common_reflects (log : K → K) (model : Model K)
    (hwf : WellFormed model.W model.Z model.vocab_size model.no_keyword_topics) :
    TablesReflect (initialize_common log (read_data_common model)) model.W model.Z := by
  obtain ⟨hc, hd, _, _⟩ := initVocabWeights_params log (read_data_common model) rfl
  obtain ⟨hp, _, _, hinv, e1, e2, e3, e4⟩ :=
    initCountTables_spec (initVocabWeights log (read_data_common model))
  obtain ⟨_, _, hkv, hk, hkn, hdk⟩ := hinv
  have hW : (zeroTables (initVocabWeights log (read_data_common model))).W = model.W := hc.W
  have hZ : (zeroTables (initVocabWeights log (read_data_common model))).Z = model.Z := hc.Z
  have hD : (initVocabWeights log (read_data_common model)).num_doc = model.W.length :=
    hc.num_doc
  have hT : (initVocabWeights log (read_data_common model)).num_topics
      = model.no_keyword_topics := hc.num_topics
  have hV : (initVocabWeights log (read_data_common model)).num_vocab = model.vocab_size :=
    hc.num_vocab
  have hL : (zeroTables (initVocabWeights log (read_data_common model))).doc_each_len
      = (List.range model.W.length).map (docLen model.W) := by
    rw [show (zeroTables (initVocabWeights log (read_data_common model))).doc_each_len
      = (initVocabWeights log (read_data_common model)).doc_each_len from rfl, hd]
    rfl
  have hvw : (zeroTables (initVocabWeights log (read_data_common model))).vocab_weights
      = (initialize_common log (read_data_common model)).vocab_weights := hp.vocab_weights.symm
  have hlen : ∀ d, d < model.W.length →
      ((List.range model.W.length).map (docLen model.W)).getD d 0 = docLen model.W d :=
    fun d h => getD_map_range _ _ _ h
  simp only [hW, hZ, hD, hT, hV, hL, hvw] at hkv hk hkn hdk e1 e2 e3 e4
  unfold initialize_common at *
  refine ⟨?_, ?_, ?_, ?_⟩
  · intro k v
    rw [e1, hkv, loopSum_kv model.W model.Z _ _ _ hwf _ hlen]
    simp [zeroTables, matGet_replicate_zero]
  · intro d k
    rw [e2, hdk, loopSum_dk model.W model.Z _ _ hwf _ hlen]
    simp [zeroTables, matGet_replicate_zero]
  · intro k
    rw [e3, hk, loopSum_k model.W model.Z _ _ _ hwf _ hlen]
    simp [zeroTables, vecGet_replicate]
  · intro k
    rw [e4, hkn, loopSum_k_noWeight model.W model.Z _ _ hwf _ hlen]
    simp [zeroTables, vecGet_replicate]

end InitReflects



/-! ## Claims about `initialize_common` -/

section InitClaims

variable {K : Type} [LinearOrderedField K] [FloorRing K]

end InitClaims



/-! ## The three stages of `sample_z` -/

section Stages

variable {K : Type} [LinearOrderedField K] [FloorRing K]

omit [FloorRing K] in
theorem sample_z_fst (rcat : List K → K → Nat → Nat) (m : LDAbase K) (alpha : List K)
    (z s w doc_id : Nat) :
    (sample_z rcat m alpha z s w doc_id).1 = drawnTopic rcat m alpha z w doc_id := rfl

omit [FloorRing K] in
theorem sample_z_snd (rcat : List K → K → Nat → Nat) (m : LDAbase K) (alpha : List K)
    (z s w doc_id : Nat) :
    (sample_z rcat m alpha z s w doc_id).2
      = sampleAdd (sampleWeights (sampleRemove m z w doc_id) alpha w doc_id)
          (drawnTopic rcat m alpha z w doc_id) w doc_id := rfl

omit [FloorRing K] in
theorem sampleRemove_spec (m : LDAbase K) (D T V : Nat) (hs : TableShape m D T V)
    (z w doc_id : Nat) :
    SameParams m (sampleRemove m z w doc_id) ∧
    TableShape (sampleRemove m z w doc_id) D T V ∧
    (sampleRemove m z w doc_id).z_prob_vec = m.z_prob_vec ∧
    TokenShift D T V (-1) z w doc_id m (sampleRemove m z w doc_id) := by
  refine ⟨⟨rfl, rfl, rfl, rfl, rfl, rfl, rfl, rfl, rfl, rfl⟩, ⟨?_, ?_, ?_, ?_⟩, rfl,
    ⟨?_, ?_, ?_, ?_⟩⟩
  · simp only [sampleRemove, matSub_eq_matAdd]
    exact matShape_matAdd hs.n_kv _ _ _
  · simp only [sampleRemove, matSub_eq_matAdd]
    exact matShape_matAdd hs.n_dk _ _ _
  · simp only [sampleRemove, vecSub_eq_vecAdd, length_vecAdd]
    exact hs.n_k
  · simp only [sampleRemove, vecSub_eq_vecAdd, length_vecAdd]
    exact hs.n_k_noWeight
  · intro k v
    simp only [sampleRemove, matSub_eq_matAdd]
    rw [matGet_matAdd hs.n_kv, neg_one_mul]
  · intro k
    simp only [sampleRemove, vecSub_eq_vecAdd]
    rw [vecGet_vecAdd, hs.n_k, neg_one_mul]
  · intro k
    simp only [sampleRemove, vecSub_eq_vecAdd]
    rw [vecGet_vecAdd, hs.n_k_noWeight]
  · intro a k
    simp only [sampleRemove, matSub_eq_matAdd]
    rw [matGet_matAdd hs.n_dk]

omit [FloorRing K] in
theorem sampleAdd_spec (m : LDAbase K) (D T V : Nat) (hs : TableShape m D T V)
    (new_z w doc_id : Nat) :
    SameParams m (sampleAdd m new_z w doc_id) ∧
    TableShape (sampleAdd m new_z w doc_id) D T V ∧
    (sampleAdd m new_z w doc_id).z_prob_vec = m.z_prob_vec ∧
    TokenShift D T V 1 new_z w doc_id m (sampleAdd m new_z w doc_id) := by
  refine ⟨⟨rfl, rfl, rfl, rfl, rfl, rfl, rfl, rfl, rfl, rfl⟩, ⟨?_, ?_, ?_, ?_⟩, rfl,
    ⟨?_, ?_, ?_, ?_⟩⟩
  · exact matShape_matAdd hs.n_kv _ _ _
  · exact matShape_matAdd hs.n_dk _ _ _
  · simp only [sampleAdd, length_vecAdd]
    exact hs.n_k
  · simp only [sampleAdd, length_vecAdd]
    exact hs.n_k_noWeight
  · intro k v
    simp only [sampleAdd]
    rw [matGet_matAdd hs.n_kv, one_mul]
  · intro k
    simp only [sampleAdd]
    rw [vecGet_vecAdd, hs.n_k, one_mul]
  · intro k
    simp only [sampleAdd]
    rw [vecGet_vecAdd, hs.n_k_noWeight]
  · intro a k
    simp only [sampleAdd]
    rw [matGet_matAdd hs.n_dk]

omit [FloorRing K] in
/-- The loop of lines 124-132 writes the candidate weight of every topic and
nothing else. -/
theorem weight_loop (m : LDAbase K) (alpha : List K) (w doc_id : Nat) (n : Nat) :
    SameParams m (forLoop n (weightBody alpha w doc_id) m) ∧
    SameTables m (forLoop n (weightBody alpha w doc_id) m) ∧
    (forLoop n (weightBody alpha w doc_id) m).z_prob_vec.length = m.z_prob_vec.length ∧
    ∀ k, vecGet (forLoop n (weightBody alpha w doc_id) m).z_prob_vec k
      = if k < n ∧ k < m.z_prob_vec.length then candidateWeight m alpha w doc_id k
        else vecGet m.z_prob_vec k := by
  apply forLoop_invariant (fun n (s : LDAbase K) =>
    SameParams m s ∧ SameTables m s ∧ s.z_prob_vec.length = m.z_prob_vec.length ∧
    ∀ k, vecGet s.z_prob_vec k
      = if k < n ∧ k < m.z_prob_vec.length then candidateWeight m alpha w doc_id k
        else vecGet m.z_prob_vec k)
  · exact ⟨sameParams_refl m, ⟨rfl, rfl, rfl, rfl⟩, rfl, by simp⟩
  · intro i _ s hinv
    obtain ⟨hp, ht, hl, hz⟩ := hinv
    refine ⟨sameParams_trans hp ⟨rfl, rfl, rfl, rfl, rfl, rfl, rfl, rfl, rfl, rfl⟩,
      ⟨ht.n_kv, ht.n_dk, ht.n_k, ht.n_k_noWeight⟩, ?_, ?_⟩
    · simp only [weightBody, length_vecSet]
      exact hl
    · intro k
      simp only [weightBody]
      rw [vecGet_vecSet, hz k, hl, ht.n_kv, ht.n_dk, ht.n_k, hp.beta, hp.num_vocab]
      by_cases hki : k = i
      · subst hki
        by_cases hlen : k < m.z_prob_vec.length
        · simp [hlen, candidateWeight]
        · simp [hlen]
      · by_cases hlt : k < i
        · have : k < i + 1 := by omega
          simp [hki, hlt, this]
        · have : ¬ k < i + 1 := by omega
          simp [hki, hlt, this]

omit [FloorRing K] in
theorem sampleWeights_spec (m : LDAbase K) (alpha : List K) (w doc_id : Nat) :
    SameParams m (sampleWeights m alpha w doc_id) ∧
    SameTables m (sampleWeights m alpha w doc_id) ∧
    (sampleWeights m alpha w doc_id).z_prob_vec.length = m.z_prob_vec.length ∧
    (∀ k, vecGet (sampleWeights m alpha w doc_id).z_prob_vec k
      = if k < m.num_topics ∧ k < m.z_prob_vec.length then candidateWeight m alpha w doc_id k
        else vecGet m.z_prob_vec k) ∧
    (sampleWeights m alpha w doc_id).sum = (sampleWeights m alpha w doc_id).z_prob_vec.sum := by
  obtain ⟨hp, ht, hl, hz⟩ := weight_loop m alpha w doc_id m.num_topics
  exact ⟨⟨hp.W, hp.Z, hp.num_topics, hp.num_vocab, hp.num_doc, hp.use_weight, hp.beta,
    hp.doc_each_len, hp.total_words, hp.vocab_weights⟩,
    ⟨ht.n_kv, ht.n_dk, ht.n_k, ht.n_k_noWeight⟩, hl, hz, rfl⟩

end Stages



/-! ## Counts with one token excluded or reassigned -/

section Excl

variable {K : Type} [LinearOrderedField K]

theorem sum_single_shift (n p : Nat) (hp : p < n) (δ : K) (g g' : Nat → K)
    (h : ∀ q, q < n → g' q = g q + if q = p then δ else 0) :
    ∑ q ∈ range n, g' q = ∑ q ∈ range n, g q + δ := by
  rw [Finset.sum_congr rfl (fun q hq => h q (Finset.mem_range.mp hq)), Finset.sum_add_distrib,
    Finset.sum_ite_eq', if_pos (Finset.mem_range.mpr hp)]

theorem sum_double_shift (D : Nat) (len : Nat → Nat) (d p : Nat) (hd : d < D) (hp : p < len d)
    (δ : K) (g g' : Nat → Nat → K)
    (h : ∀ a, a < D → ∀ q, q < len a → g' a q = g a q + if a = d ∧ q = p then δ else 0) :
    ∑ a ∈ range D, ∑ q ∈ range (len a), g' a q
      = ∑ a ∈ range D, ∑ q ∈ range (len a), g a q + δ := by
  have inner : ∀ a ∈ range D, ∑ q ∈ range (len a), g' a q
      = ∑ q ∈ range (len a), g a q + if a = d then δ else 0 := by
    intro a ha
    have ha' : a < D := Finset.mem_range.mp ha
    by_cases had : a = d
    · subst had
      rw [if_pos rfl]
      apply sum_single_shift _ p hp
      intro q hq
      rw [h a ha' q hq]
      simp
    · rw [if_neg had, add_zero]
      refine Finset.sum_congr rfl (fun q hq => ?_)
      rw [h a ha' q (Finset.mem_range.mp hq)]
      simp [had]
  rw [Finset.sum_congr rfl inner, Finset.sum_add_distrib, Finset.sum_ite_eq',
    if_pos (Finset.mem_range.mpr hd)]

theorem tokenAt_setTopic (Z : List (List Nat)) (d p nz a q : Nat) (hd : d < Z.length)
    (hp : p < docLen Z d) :
    tokenAt (setTopic Z d p nz) a q = if a = d ∧ q = p then nz else tokenAt Z a q := by
  unfold tokenAt setTopic
  unfold docLen at hp
  by_cases had : a = d
  · subst had
    simp only [List.getD_eq_getElem?_getD, List.getElem?_set_self hd, Option.getD_some]
    by_cases hqp : q = p
    · subst hqp
      simp only [List.getD_eq_getElem?_getD] at hp
      simp [List.getElem?_set_self hp]
    · have : p ≠ q := fun e => hqp e.symm
      simp [hqp, List.getElem?_set_ne this]
  · have : d ≠ a := fun e => had e.symm
    simp [had, List.getElem?_set_ne this]

theorem docLen_setTopic (Z : List (List Nat)) (d p nz a : Nat) :
    docLen (setTopic Z d p nz) a = docLen Z a := by
  unfold docLen setTopic
  by_cases had : a = d
  · subst had
    by_cases hd : a < Z.length
    · simp [List.getElem?_set_self hd]
    · rw [List.set_eq_of_length_le (by omega)]
  · have : d ≠ a := fun e => had e.symm
    simp [List.getElem?_set_ne this]

theorem length_setTopic (Z : List (List Nat)) (d p nz : Nat) :
    (setTopic Z d p nz).length = Z.length := by
  simp [setTopic]

/-- Replacing the topic of a token by a topic in range keeps the corpus well formed. -/
theorem wellFormed_setTopic {W Z : List (List Nat)} {V T : Nat} (hwf : WellFormed W Z V T)
    (d p nz : Nat) (hd : d < W.length) (hp : p < docLen W d) (hnz : nz < T) :
    WellFormed W (setTopic Z d p nz) V T := by
  obtain ⟨hl, h⟩ := hwf
  refine ⟨by rw [length_setTopic, hl], fun a ha => ⟨?_, fun q hq => ⟨((h a ha).2 q hq).1, ?_⟩⟩⟩
  · rw [docLen_setTopic]; exact (h a ha).1
  · rw [tokenAt_setTopic Z d p nz a q (by omega) (by rw [(h d hd).1]; exact hp)]
    by_cases c : a = d ∧ q = p
    · rw [if_pos c]; exact hnz
    · rw [if_neg c]; exact ((h a ha).2 q hq).2

end Excl



section ExclCounts

variable {K : Type} [LinearOrderedField K]

/-- An assignment `Z2` that agrees with `Z` away from the token at `(d0, p0)`:
its count is the count without that token plus the token's own contribution. -/
theorem countKV_excl (W Z Z2 : List (List Nat)) (d0 p0 : Nat) (hd : d0 < W.length)
    (hp : p0 < docLen W d0)
    (hagree : ∀ a q, ¬ (a = d0 ∧ q = p0) → tokenAt Z2 a q = tokenAt Z a q) (k v : Nat) :
    (countKV W Z2 k v : K) = (countKVExcl W Z d0 p0 k v : K)
      + if k = tokenAt Z2 d0 p0 ∧ v = tokenAt W d0 p0 then 1 else 0 := by
  unfold countKV countKVExcl
  push_cast
  apply sum_double_shift W.length (docLen W) d0 p0 hd hp
  intro a _ q _
  by_cases c : a = d0 ∧ q = p0
  · obtain ⟨rfl, rfl⟩ := c
    by_cases e : tokenAt Z2 a q = k ∧ tokenAt W a q = v
    · have e' : k = tokenAt Z2 a q ∧ v = tokenAt W a q := ⟨e.1.symm, e.2.symm⟩
      rw [if_pos e, if_pos e']
      simp
    · have e' : ¬ (k = tokenAt Z2 a q ∧ v = tokenAt W a q) := fun x => e ⟨x.1.symm, x.2.symm⟩
      rw [if_neg e, if_neg e']
      simp
  · rw [hagree a q c]
    simp [c]

theorem countK_excl (W Z Z2 : List (List Nat)) (d0 p0 : Nat) (hd : d0 < W.length)
    (hp : p0 < docLen W d0)
    (hagree : ∀ a q, ¬ (a = d0 ∧ q = p0) → tokenAt Z2 a q = tokenAt Z a q) (k : Nat) :
    (countK W Z2 k : K) = (countKExcl W Z d0 p0 k : K)
      + if k = tokenAt Z2 d0 p0 then 1 else 0 := by
  unfold countK countKExcl
  push_cast
  apply sum_double_shift W.length (docLen W) d0 p0 hd hp
  intro a _ q _
  by_cases c : a = d0 ∧ q = p0
  · obtain ⟨rfl, rfl⟩ := c
    by_cases e : tokenAt Z2 a q = k
    · have e' : k = tokenAt Z2 a q := e.symm
      rw [if_pos e, if_pos e']
      simp
    · have e' : ¬ (k = tokenAt Z2 a q) := fun x => e x.symm
      rw [if_neg e, if_neg e']
      simp
  · rw [hagree a q c]
    simp [c]

theorem weightK_excl (wt : Nat → K) (W Z Z2 : List (List Nat)) (d0 p0 : Nat)
    (hd : d0 < W.length) (hp : p0 < docLen W d0)
    (hagree : ∀ a q, ¬ (a = d0 ∧ q = p0) → tokenAt Z2 a q = tokenAt Z a q) (k : Nat) :
    weightK wt W Z2 k = weightKExcl wt W Z d0 p0 k
      + if k = tokenAt Z2 d0 p0 then wt (tokenAt W d0 p0) else 0 := by
  unfold weightK weightKExcl
  apply sum_double_shift W.length (docLen W) d0 p0 hd hp
  intro a _ q _
  by_cases c : a = d0 ∧ q = p0
  · obtain ⟨rfl, rfl⟩ := c
    by_cases e : tokenAt Z2 a q = k
    · have e' : k = tokenAt Z2 a q := e.symm
      rw [if_pos e, if_pos e']
      simp
    · have e' : ¬ (k = tokenAt Z2 a q) := fun x => e x.symm
      rw [if_neg e, if_neg e']
      simp
  · rw [hagree a q c]
    simp [c]

theorem countDK_excl (W Z Z2 : List (List Nat)) (d0 p0 : Nat)
    (hp : p0 < docLen W d0)
    (hagree : ∀ a q, ¬ (a = d0 ∧ q = p0) → tokenAt Z2 a q = tokenAt Z a q) (a k : Nat) :
    (countDK W Z2 a k : K) = (countDKExcl W Z d0 p0 a k : K)
      + if a = d0 ∧ k = tokenAt Z2 d0 p0 then 1 else 0 := by
  unfold countDK countDKExcl
  push_cast
  by_cases had : a = d0
  · subst had
    apply sum_single_shift (docLen W a) p0 hp
    intro q _
    by_cases c : q = p0
    · subst c
      by_cases e : tokenAt Z2 a q = k
      · have e' : a = a ∧ k = tokenAt Z2 a q := ⟨rfl, e.symm⟩
        rw [if_pos e, if_pos rfl, if_pos e']
        simp
      · have e' : ¬ (a = a ∧ k = tokenAt Z2 a q) := fun x => e x.2.symm
        rw [if_neg e, if_pos rfl, if_neg e']
        simp
    · rw [hagree a q (fun x => c x.2)]
      simp [c]
  · rw [if_neg (fun x => had x.1), add_zero]
    refine Finset.sum_congr rfl (fun q _ => ?_)
    rw [hagree a q (fun x => had x.1)]
    simp [had]

theorem setTopic_agree (Z : List (List Nat)) (d0 p0 nz : Nat) (hd : d0 < Z.length)
    (hp : p0 < docLen Z d0) :
    ∀ a q, ¬ (a = d0 ∧ q = p0) → tokenAt (setTopic Z d0 p0 nz) a q = tokenAt Z a q := by
  intro a q c
  rw [tokenAt_setTopic Z d0 p0 nz a q hd hp, if_neg c]

theorem tokenAt_setTopic_self (Z : List (List Nat)) (d0 p0 nz : Nat) (hd : d0 < Z.length)
    (hp : p0 < docLen Z d0) : tokenAt (setTopic Z d0 p0 nz) d0 p0 = nz := by
  rw [tokenAt_setTopic Z d0 p0 nz d0 p0 hd hp, if_pos ⟨rfl, rfl⟩]

end ExclCounts



/-! ## `sample_z` moves one token from its topic to the drawn topic -/

section Resample

variable {K : Type} [LinearOrderedField K] [FloorRing K]

omit [FloorRing K] in
/-- Removing the token at `(d0, p0)` with its current topic turns tables that
reflect the assignment into tables that reflect the assignment without it. -/
theorem reflectExcl_of_remove {m m' : LDAbase K} {W Z : List (List Nat)} {T V : Nat}
    (d0 p0 : Nat) (hr : TablesReflect m W Z) (hd : d0 < W.length) (hp : p0 < docLen W d0)
    (hz : tokenAt Z d0 p0 < T) (hw : tokenAt W d0 p0 < V)
    (hvw : m'.vocab_weights = m.vocab_weights)
    (hs : TokenShift W.length T V (-1) (tokenAt Z d0 p0) (tokenAt W d0 p0) d0 m m') :
    TablesReflectExcl m' W Z d0 p0 := by
  have agree : ∀ a q, ¬ (a = d0 ∧ q = p0) → tokenAt Z a q = tokenAt Z a q := fun _ _ _ => rfl
  refine ⟨?_, ?_, ?_, ?_⟩
  · intro k v
    rw [hs.n_kv, hr.n_kv, hvw, countKV_excl W Z Z d0 p0 hd hp agree]
    by_cases c : k = tokenAt Z d0 p0 ∧ v = tokenAt W d0 p0
    · rw [if_pos c, if_pos ⟨c, hz, hw⟩, c.2]; ring
    · rw [if_neg c, if_neg (fun x => c x.1)]; ring
  · intro a k
    rw [hs.n_dk, hr.n_dk, countDK_excl W Z Z d0 p0 hp agree]
    by_cases c : a = d0 ∧ k = tokenAt Z d0 p0
    · rw [if_pos c, if_pos ⟨c, hd, hz⟩]; ring
    · rw [if_neg c, if_neg (fun x => c x.1)]; ring
  · intro k
    rw [hs.n_k, hr.n_k, hvw, weightK_excl _ W Z Z d0 p0 hd hp agree]
    by_cases c : k = tokenAt Z d0 p0
    · rw [if_pos c, if_pos ⟨c, hz⟩]; ring
    · rw [if_neg c, if_neg (fun x => c x.1)]; ring
  · intro k
    rw [hs.n_k_noWeight, hr.n_k_noWeight, countK_excl W Z Z d0 p0 hd hp agree]
    by_cases c : k = tokenAt Z d0 p0
    · rw [if_pos c, if_pos ⟨c, hz⟩]; ring
    · rw [if_neg c, if_neg (fun x => c x.1)]; ring

omit [FloorRing K] in
/-- Adding the token at `(d0, p0)` back under the topic `nz` turns tables that
reflect the assignment without it into tables that reflect the assignment with
the topic of that token replaced by `nz`. -/
theorem reflect_of_add {m m' : LDAbase K} {W Z : List (List Nat)} {T V : Nat}
    (d0 p0 nz : Nat) (hr : TablesReflectExcl m W Z d0 p0) (hd : d0 < W.length)
    (hp : p0 < docLen W d0) (hdZ : d0 < Z.length) (hpZ : p0 < docLen Z d0)
    (hnz : nz < T) (hw : tokenAt W d0 p0 < V)
    (hvw : m'.vocab_weights = m.vocab_weights)
    (hs : TokenShift W.length T V 1 nz (tokenAt W d0 p0) d0 m m') :
    TablesReflect m' W (setTopic Z d0 p0 nz) := by
  have agree := setTopic_agree Z d0 p0 nz hdZ hpZ
  have self := tokenAt_setTopic_self Z d0 p0 nz hdZ hpZ
  refine ⟨?_, ?_, ?_, ?_⟩
  · intro k v
    rw [hs.n_kv, hr.n_kv, hvw, countKV_excl W Z _ d0 p0 hd hp agree, self]
    by_cases c : k = nz ∧ v = tokenAt W d0 p0
    · rw [if_pos c, if_pos ⟨c, hnz, hw⟩, c.2]; ring
    · rw [if_neg c, if_neg (fun x => c x.1)]; ring
  · intro a k
    rw [hs.n_dk, hr.n_dk, countDK_excl W Z _ d0 p0 hp agree, self]
    by_cases c : a = d0 ∧ k = nz
    · rw [if_pos c, if_pos ⟨c, hd, hnz⟩]
    · rw [if_neg c, if_neg (fun x => c x.1)]
  · intro k
    rw [hs.n_k, hr.n_k, hvw, weightK_excl _ W Z _ d0 p0 hd hp agree, self]
    by_cases c : k = nz
    · rw [if_pos c, if_pos ⟨c, hnz⟩]; ring
    · rw [if_neg c, if_neg (fun x => c x.1)]
  · intro k
    rw [hs.n_k_noWeight, hr.n_k_noWeight, countK_excl W Z _ d0 p0 hd hp agree, self]
    by_cases c : k = nz
    · rw [if_pos c, if_pos ⟨c, hnz⟩]
    · rw [if_neg c, if_neg (fun x => c x.1)]

end Resample



section ResampleClaims

variable {K : Type} [LinearOrderedField K] [FloorRing K]

omit [FloorRing K] in
/-- The tables at the moment the candidate weights are evaluated reflect the
assignment without the token being resampled. -/
theorem sampleRemove_reflects (m : LDAbase K) (W Z : List (List Nat)) (T V : Nat)
    (hwf : WellFormed W Z V T) (hs : TableShape m W.length T V) (hr : TablesReflect m W Z)
    (d0 p0 : Nat) (hd : d0 < W.length) (hp : p0 < docLen W d0) :
    TablesReflectExcl (sampleRemove m (tokenAt Z d0 p0) (tokenAt W d0 p0) d0) W Z d0 p0 := by
  obtain ⟨hpar, _, _, hshift⟩ :=
    sampleRemove_spec m W.length T V hs (tokenAt Z d0 p0) (tokenAt W d0 p0) d0
  obtain ⟨hw, hz⟩ := (hwf.2 d0 hd).2 p0 hp
  exact reflectExcl_of_remove d0 p0 hr hd hp hz hw hpar.vocab_weights hshift

omit [FloorRing K] in
/-- After `sample_z` on the token at `(d0, p0)` with an in-range draw the tables
reflect the assignment with that token moved to the drawn topic, and the other
members are as before. -/
theorem sample_z_reflects (rcat : List K → K → Nat → Nat) (m : LDAbase K) (alpha : List K)
    (W Z : List (List Nat)) (T V : Nat) (hwf : WellFormed W Z V T)
    (hs : TableShape m W.length T V) (hr : TablesReflect m W Z)
    (d0 p0 s : Nat) (hd : d0 < W.length) (hp : p0 < docLen W d0)
    (hnew : (sample_z rcat m alpha (tokenAt Z d0 p0) s (tokenAt W d0 p0) d0).1 < T) :
    TablesReflect (sample_z rcat m alpha (tokenAt Z d0 p0) s (tokenAt W d0 p0) d0).2 W
      (setTopic Z d0 p0 (sample_z rcat m alpha (tokenAt Z d0 p0) s (tokenAt W d0 p0) d0).1) ∧
    TableShape (sample_z rcat m alpha (tokenAt Z d0 p0) s (tokenAt W d0 p0) d0).2
      W.length T V ∧
    SameParams m (sample_z rcat m alpha (tokenAt Z d0 p0) s (tokenAt W d0 p0) d0).2 := by
  rw [sample_z_snd, sample_z_fst]
  rw [sample_z_fst] at hnew
  obtain ⟨hpar1, hs1, _, _⟩ :=
    sampleRemove_spec m W.length T V hs (tokenAt Z d0 p0) (tokenAt W d0 p0) d0
  have hr1 := sampleRemove_reflects m W Z T V hwf hs hr d0 p0 hd hp
  obtain ⟨hpar2, ht2, _, _, _⟩ :=
    sampleWeights_spec (sampleRemove m (tokenAt Z d0 p0) (tokenAt W d0 p0) d0) alpha
      (tokenAt W d0 p0) d0
  have hs2 : TableShape
      (sampleWeights (sampleRemove m (tokenAt Z d0 p0) (tokenAt W d0 p0) d0) alpha
        (tokenAt W d0 p0) d0) W.length T V :=
    ⟨by rw [ht2.n_kv]; exact hs1.n_kv, by rw [ht2.n_dk]; exact hs1.n_dk,
      by rw [ht2.n_k]; exact hs1.n_k, by rw [ht2.n_k_noWeight]; exact hs1.n_k_noWeight⟩
  have hr2 : TablesReflectExcl
      (sampleWeights (sampleRemove m (tokenAt Z d0 p0) (tokenAt W d0 p0) d0) alpha
        (tokenAt W d0 p0) d0) W Z d0 p0 :=
    ⟨fun k v => by rw [ht2.n_kv, hpar2.vocab_weights]; exact hr1.n_kv k v,
      fun a k => by rw [ht2.n_dk]; exact hr1.n_dk a k,
      fun k => by rw [ht2.n_k, hpar2.vocab_weights]; exact hr1.n_k k,
      fun k => by rw [ht2.n_k_noWeight]; exact hr1.n_k_noWeight k⟩
  obtain ⟨hpar3, hs3, _, hshift3⟩ :=
    sampleAdd_spec _ W.length T V hs2 (drawnTopic rcat m alpha (tokenAt Z d0 p0)
      (tokenAt W d0 p0) d0) (tokenAt W d0 p0) d0
  obtain ⟨hw, _⟩ := (hwf.2 d0 hd).2 p0 hp
  have hdZ : d0 < Z.length := by rw [hwf.1]; exact hd
  have hpZ : p0 < docLen Z d0 := by rw [(hwf.2 d0 hd).1]; exact hp
  exact ⟨reflect_of_add d0 p0 _ hr2 hd hp hdZ hpZ hnew hw hpar3.vocab_weights hshift3, hs3,
    sameParams_trans hpar1 (sameParams_trans hpar2 hpar3)⟩

end ResampleClaims



/-! ## Consistency of the totals and conservation of the document lengths -/

section Invariants

variable {K : Type} [LinearOrderedField K] [FloorRing K]

omit [FloorRing K] in
/-- The weighted total of a topic is the sum over the words of the weighted counts. -/
theorem weightK_eq_sum_countKV (wt : Nat → K) (W Z : List (List Nat)) (V : Nat)
    (hw : WordsInRange W V) (k : Nat) :
    weightK wt W Z k = ∑ v ∈ range V, wt v * (countKV W Z k v : K) := by
  unfold weightK countKV
  push_cast
  simp only [Finset.mul_sum]
  rw [Finset.sum_comm]
  refine Finset.sum_congr rfl (fun d hd => ?_)
  rw [Finset.sum_comm]
  refine Finset.sum_congr rfl (fun p hp => ?_)
  have hwv := hw d (Finset.mem_range.mp hd) p (Finset.mem_range.mp hp)
  by_cases hz : tokenAt Z d p = k
  · simp only [hz, true_and, if_true, mul_ite, mul_one, mul_zero]
    rw [Finset.sum_ite_eq, if_pos (Finset.mem_range.mpr hwv)]
  · simp [hz]

omit [FloorRing K] in
/-- The topic counts of a document add up to its length. -/
theorem sum_countDK (W Z : List (List Nat)) (V T : Nat) (hwf : WellFormed W Z V T) (d : Nat)
    (hd : d < W.length) : ∑ k ∈ range T, countDK W Z d k = docLen W d := by
  unfold countDK
  rw [Finset.sum_comm]
  calc ∑ p ∈ range (docLen W d), ∑ k ∈ range T, (if tokenAt Z d p = k then 1 else 0)
      = ∑ p ∈ range (docLen W d), 1 := by
        refine Finset.sum_congr rfl (fun p hp => ?_)
        have hz := ((hwf.2 d hd).2 p (Finset.mem_range.mp hp)).2
        rw [Finset.sum_ite_eq, if_pos (Finset.mem_range.mpr hz)]
    _ = docLen W d := by simp

omit [FloorRing K] in
theorem consistent_of_reflect {m : LDAbase K} {W Z : List (List Nat)} {V T : Nat}
    (hwf : WellFormed W Z V T) (hr : TablesReflect m W Z) : Consistent m T V := by
  intro k _
  rw [hr.n_k, weightK_eq_sum_countKV _ W Z V (fun d hd p hp => ((hwf.2 d hd).2 p hp).1)]
  exact Finset.sum_congr rfl (fun v _ => (hr.n_kv k v).symm)

omit [FloorRing K] in
theorem lengthConserved_of_reflect {m : LDAbase K} {W Z : List (List Nat)} {V T : Nat}
    (hwf : WellFormed W Z V T) (hr : TablesReflect m W Z) : LengthConserved m W T := by
  intro d hd
  rw [Finset.sum_congr rfl (fun k _ => hr.n_dk d k), ← Nat.cast_sum, sum_countDK W Z V T hwf d hd]

omit [FloorRing K] in
/-- Shifting one token with in-range topic and word keeps the totals consistent. -/
theorem consistent_shift {m m' : LDAbase K} {D T V : Nat} {sign : K} {z w doc_id : Nat}
    (hs : TokenShift D T V sign z w doc_id m m') (hz : z < T) (hw : w < V)
    (hc : Consistent m T V) : Consistent m' T V := by
  intro k hk
  rw [hs.n_k, hc k hk, Finset.sum_congr rfl (fun v _ => hs.n_kv k v), Finset.sum_add_distrib]
  congr 1
  by_cases hkz : k = z
  · have : ∀ v ∈ range V, (if (k = z ∧ v = w) ∧ (z < T ∧ w < V)
        then sign * vecGet m.vocab_weights w else 0)
        = if v = w then sign * vecGet m.vocab_weights w else 0 := by
      intro v _
      by_cases hvw : v = w
      · rw [if_pos ⟨⟨hkz, hvw⟩, hz, hw⟩, if_pos hvw]
      · rw [if_neg (fun x => hvw x.1.2), if_neg hvw]
    rw [if_pos ⟨hkz, hz⟩, Finset.sum_congr rfl this, Finset.sum_ite_eq',
      if_pos (Finset.mem_range.mpr hw)]
  · rw [if_neg (fun x => hkz x.1)]
    exact (Finset.sum_eq_zero (fun v _ => if_neg (fun x => hkz x.1.1))).symm

omit [FloorRing K] in
/-- Shifting one token with in-range topic changes the row sum of its document by
the sign of the shift and no other row sum. -/
theorem rowSum_shift {m m' : LDAbase K} {D T V : Nat} {sign : K} {z w doc_id : Nat}
    (hs : TokenShift D T V sign z w doc_id m m') (hz : z < T) (hdoc : doc_id < D) (d : Nat) :
    ∑ k ∈ range T, matGet m'.n_dk d k
      = ∑ k ∈ range T, matGet m.n_dk d k + if d = doc_id then sign else 0 := by
  rw [Finset.sum_congr rfl (fun k _ => hs.n_dk d k), Finset.sum_add_distrib]
  congr 1
  by_cases hd : d = doc_id
  · have : ∀ k ∈ range T, (if (d = doc_id ∧ k = z) ∧ (doc_id < D ∧ z < T) then sign else 0)
        = if k = z then sign else 0 := by
      intro k _
      by_cases hkz : k = z
      · rw [if_pos ⟨⟨hd, hkz⟩, hdoc, hz⟩, if_pos hkz]
      · rw [if_neg (fun x => hkz x.1.2), if_neg hkz]
    rw [if_pos hd, Finset.sum_congr rfl this, Finset.sum_ite_eq',
      if_pos (Finset.mem_range.mpr hz)]
  · rw [if_neg hd]
    exact Finset.sum_eq_zero (fun k _ => if_neg (fun x => hd x.1.1))

omit [FloorRing K] in
/-- The call `sample_z` with in-range arguments and an in-range draw keeps the
dimensions of the tables and the consistency of the totals. -/
theorem sample_z_consistent (rcat : List K → K → Nat → Nat) (m : LDAbase K) (alpha : List K)
    (z s w doc_id D T V : Nat) (hs : TableShape m D T V) (hc : Consistent m T V)
    (hz : z < T) (hw : w < V) (hnew : (sample_z rcat m alpha z s w doc_id).1 < T) :
    Consistent (sample_z rcat m alpha z s w doc_id).2 T V := by
  rw [sample_z_snd]
  rw [sample_z_fst] at hnew
  obtain ⟨_, hs1, _, hshift1⟩ := sampleRemove_spec m D T V hs z w doc_id
  have hc1 := consistent_shift hshift1 hz hw hc
  obtain ⟨_, ht2, _, _, _⟩ := sampleWeights_spec (sampleRemove m z w doc_id) alpha w doc_id
  have hs2 : TableShape (sampleWeights (sampleRemove m z w doc_id) alpha w doc_id) D T V :=
    ⟨by rw [ht2.n_kv]; exact hs1.n_kv, by rw [ht2.n_dk]; exact hs1.n_dk,
      by rw [ht2.n_k]; exact hs1.n_k, by rw [ht2.n_k_noWeight]; exact hs1.n_k_noWeight⟩
  have hc2 : Consistent (sampleWeights (sampleRemove m z w doc_id) alpha w doc_id) T V := by
    intro k hk
    rw [ht2.n_k, ht2.n_kv]
    exact hc1 k hk
  obtain ⟨_, _, _, hshift3⟩ :=
    sampleAdd_spec _ D T V hs2 (drawnTopic rcat m alpha z w doc_id) w doc_id
  exact consistent_shift hshift3 hnew hw hc2

omit [FloorRing K] in
theorem sample_z_shape (rcat : List K → K → Nat → Nat) (m : LDAbase K) (alpha : List K)
    (z s w doc_id D T V : Nat) (hs : TableShape m D T V) :
    TableShape (sample_z rcat m alpha z s w doc_id).2 D T V := by
  rw [sample_z_snd]
  obtain ⟨_, hs1, _, _⟩ := sampleRemove_spec m D T V hs z w doc_id
  obtain ⟨_, ht2, _, _, _⟩ := sampleWeights_spec (sampleRemove m z w doc_id) alpha w doc_id
  have hs2 : TableShape (sampleWeights (sampleRemove m z w doc_id) alpha w doc_id) D T V :=
    ⟨by rw [ht2.n_kv]; exact hs1.n_kv, by rw [ht2.n_dk]; exact hs1.n_dk,
      by rw [ht2.n_k]; exact hs1.n_k, by rw [ht2.n_k_noWeight]; exact hs1.n_k_noWeight⟩
  exact (sampleAdd_spec _ D T V hs2 (drawnTopic rcat m alpha z w doc_id) w doc_id).2.1

omit [FloorRing K] in
/-- The call `sample_z` with in-range arguments and an in-range draw keeps every
row sum of `n_dk`. -/
theorem sample_z_rowSum (rcat : List K → K → Nat → Nat) (m : LDAbase K) (alpha : List K)
    (z s w doc_id D T V : Nat) (hs : TableShape m D T V)
    (hz : z < T) (hdoc : doc_id < D) (hnew : (sample_z rcat m alpha z s w doc_id).1 < T)
    (d : Nat) :
    ∑ k ∈ range T, matGet (sample_z rcat m alpha z s w doc_id).2.n_dk d k
      = ∑ k ∈ range T, matGet m.n_dk d k := by
  rw [sample_z_snd]
  rw [sample_z_fst] at hnew
  obtain ⟨_, hs1, _, hshift1⟩ := sampleRemove_spec m D T V hs z w doc_id
  obtain ⟨_, ht2, _, _, _⟩ := sampleWeights_spec (sampleRemove m z w doc_id) alpha w doc_id
  have hs2 : TableShape (sampleWeights (sampleRemove m z w doc_id) alpha w doc_id) D T V :=
    ⟨by rw [ht2.n_kv]; exact hs1.n_kv, by rw [ht2.n_dk]; exact hs1.n_dk,
      by rw [ht2.n_k]; exact hs1.n_k, by rw [ht2.n_k_noWeight]; exact hs1.n_k_noWeight⟩
  obtain ⟨_, _, _, hshift3⟩ :=
    sampleAdd_spec _ D T V hs2 (drawnTopic rcat m alpha z w doc_id) w doc_id
  rw [rowSum_shift hshift3 hnew hdoc d, ht2.n_dk, rowSum_shift hshift1 hz hdoc d]
  by_cases hd : d = doc_id
  · rw [if_pos hd, if_pos hd]; ring
  · rw [if_neg hd, if_neg hd]; ring

/-- Every reachable object has tables of the dimensions given by the model,
consistent totals and conserved document lengths. -/
theorem reachable_invariants (log : K → K) (model : Model K)
    (hwf : WellFormed model.W model.Z model.vocab_size model.no_keyword_topics)
    (m : LDAbase K) (h : Reachable log model m) :
    TableShape m model.W.length model.no_keyword_topics model.vocab_size ∧
    Consistent m model.no_keyword_topics model.vocab_size ∧
    LengthConserved m model.W model.no_keyword_topics := by
  induction h with
  | init =>
    have hr := initialize_common_reflects log model hwf
    exact ⟨(initialize_common_params log model).2.2.2.2.2.2, consistent_of_reflect hwf hr,
      lengthConserved_of_reflect hwf hr⟩
  | step m rcat alpha z s w doc_id _ hz hw hdoc hnew ih =>
    obtain ⟨hs, hc, hl⟩ := ih
    refine ⟨sample_z_shape rcat m alpha z s w doc_id _ _ _ hs,
      sample_z_consistent rcat m alpha z s w doc_id _ _ _ hs hc hz hw hnew, ?_⟩
    intro d hd
    rw [sample_z_rowSum rcat m alpha z s w doc_id _ _ _ hs hz hdoc hnew d]
    exact hl d hd

end Invariants



/-! ## The states of a sweep -/

section Sweep

variable {K : Type} [LinearOrderedField K] [FloorRing K]

omit [FloorRing K] in
theorem sample_z_z_prob_vec (rcat : List K → K → Nat → Nat) (m : LDAbase K) (alpha : List K)
    (z s w doc_id : Nat) :
    (sample_z rcat m alpha z s w doc_id).2.z_prob_vec
      = (sampleWeights (sampleRemove m z w doc_id) alpha w doc_id).z_prob_vec := rfl

omit [FloorRing K] in
/-- The topic returned by `sample_z` is the draw from the vector `z_prob_vec` and
the sum that the object holds after the call. -/
theorem sample_z_draw (rcat : List K → K → Nat → Nat) (m : LDAbase K) (alpha : List K)
    (z s w doc_id : Nat) :
    (sample_z rcat m alpha z s w doc_id).1
      = rcat (sample_z rcat m alpha z s w doc_id).2.z_prob_vec
          (sample_z rcat m alpha z s w doc_id).2.sum
          (sample_z rcat m alpha z s w doc_id).2.num_topics := rfl

/-- Every object of a sweep over a well-formed corpus stands for its assignment. -/
theorem sweepReachable_state (log : K → K) (model : Model K)
    (hwf : WellFormed model.W model.Z model.vocab_size model.no_keyword_topics)
    (Z : List (List Nat)) (m : LDAbase K) (h : SweepReachable log model Z m) :
    SweepState model (initialize_common log (read_data_common model)).vocab_weights Z m := by
  induction h with
  | init =>
    obtain ⟨hc, _, _, _, _, hz, hs⟩ := initialize_common_params log model
    exact ⟨hwf, initialize_common_reflects log model hwf, hs, rfl, hc.num_topics, hc.num_vocab,
      hc.beta, by rw [hz, List.length_replicate]⟩
  | step Z m rcat alpha doc_id position s _ hd hp hnew ih =>
    obtain ⟨hr, hs, hpar⟩ := sample_z_reflects rcat m alpha model.W Z model.no_keyword_topics
      model.vocab_size ih.wf ih.shape ih.reflect doc_id position s hd hp hnew
    refine ⟨wellFormed_setTopic ih.wf doc_id position _ hd hp hnew, hr, hs,
      hpar.vocab_weights.trans ih.vocab_weights, hpar.num_topics.trans ih.num_topics,
      hpar.num_vocab.trans ih.num_vocab, hpar.beta.trans ih.beta, ?_⟩
    rw [sample_z_z_prob_vec,
      (sampleWeights_spec (sampleRemove m (tokenAt Z doc_id position)
        (tokenAt model.W doc_id position) doc_id) alpha (tokenAt model.W doc_id position)
        doc_id).2.2.1]
    exact ih.z_prob_vec

omit [FloorRing K] in
/-- The candidate weights that `sample_z` computes for the token at
`(doc_id, position)`, in terms of the tables after the removal. -/
theorem sample_z_weight {model : Model K} {vw : List K} {Z : List (List Nat)} {m : LDAbase K}
    (st : SweepState model vw Z m) (rcat : List K → K → Nat → Nat) (alpha : List K)
    (doc_id position s k : Nat) (hk : k < model.no_keyword_topics) :
    vecGet (sample_z rcat m alpha (tokenAt Z doc_id position) s
        (tokenAt model.W doc_id position) doc_id).2.z_prob_vec k
      = candidateWeight (sampleRemove m (tokenAt Z doc_id position)
          (tokenAt model.W doc_id position) doc_id) alpha (tokenAt model.W doc_id position)
          doc_id k := by
  rw [sample_z_z_prob_vec, (sampleWeights_spec _ alpha _ doc_id).2.2.2.1 k]
  have h1 : (sampleRemove m (tokenAt Z doc_id position) (tokenAt model.W doc_id position)
      doc_id).num_topics = model.no_keyword_topics := st.num_topics
  have h2 : (sampleRemove m (tokenAt Z doc_id position) (tokenAt model.W doc_id position)
      doc_id).z_prob_vec.length = model.no_keyword_topics := st.z_prob_vec
  rw [h1, h2, if_pos ⟨hk, hk⟩]

end Sweep



/-! ## Claims about `sample_z` -/

section SampleClaims

variable {K : Type} [LinearOrderedField K] [FloorRing K]

/-- C4: sufficient-statistic consistency.  On a well-formed corpus every reachable
object (the one right after `initialize_common`, and the one after any call of
`sample_z` with in-range `z`, `w`, `doc_id` and an in-range drawn topic) has
`n_k(k)` equal to the sum over the words `v` of `n_kv(k,v)` for every topic `k`; and
`sample_z` preserves this equality from any object with tables of the proper
dimensions that satisfies it. -/
theorem C4_totals_consistent (log : K → K) (model : Model K)
    (hwf : WellFormed model.W model.Z model.vocab_size model.no_keyword_topics) :
    (∀ m, Reachable log model m →
      Consistent m model.no_keyword_topics model.vocab_size) ∧
    (∀ (m : LDAbase K) (rcat : List K → K → Nat → Nat) (alpha : List K)
      (z s w doc_id D T V : Nat), TableShape m D T V → Consistent m T V →
      z < T → w < V → doc_id < D → (sample_z rcat m alpha z s w doc_id).1 < T →
      Consistent (sample_z rcat m alpha z s w doc_id).2 T V) :=
  ⟨fun m h => (reachable_invariants log model hwf m h).2.1,
    fun m rcat alpha z s w doc_id D T V hs hc hz hw _ hnew =>
      sample_z_consistent rcat m alpha z s w doc_id D T V hs hc hz hw hnew⟩

/-- C4 at the example corpus, after one call of `sample_z`. -/
theorem C4_totals_consistent_witness :
    WellFormed (exampleModel ℝ 1).W (exampleModel ℝ 1).Z (exampleModel ℝ 1).vocab_size
        (exampleModel ℝ 1).no_keyword_topics ∧
      Consistent (sample_z (fun _ _ _ => 1)
        (initialize_common Real.log (read_data_common (exampleModel ℝ 1))) [1, 1] 0 0 0 0).2
        2 3 :=
  ⟨by decide,
    (C4_totals_consistent Real.log (exampleModel ℝ 1) (by decide)).1 _
      (Reachable.step _ (fun _ _ _ => 1) [1, 1] 0 0 0 0 Reachable.init (by decide) (by decide)
        (by decide) (by decide))⟩

end SampleClaims



/-! ## The vocabulary weights over the reals -/

section Weights

variable {K : Type} [LinearOrderedField K] [FloorRing K]

/-- With weighting enabled, the weight of word `v` after `initialize_common`, in
terms of the integer that line 72 stores. -/
theorem initialize_common_weight_cast (log : K → K) (model : Model K)
    (hu : model.use_weights ≠ 0) (v : Nat) (hv : v < model.vocab_size) :
    vecGet (initialize_common log (read_data_common model)).vocab_weights v
      = - log (((1 + occurrences model.W v : Nat) : K)
          / ((truncToInt (((model.vocab_size
              + ∑ u ∈ range model.vocab_size, occurrences model.W u : Nat)) : K) : Int) : K))
        / log 2 := by
  rw [(initialize_common_params log model).2.1,
    initVocabWeights_on log (read_data_common model) rfl hu v hv]
  rfl

/-- With weighting enabled and a corpus within the size bound, the weight of word
`v` after `initialize_common`. -/
theorem initialize_common_weight_on (log : K → K) (model : Model K)
    (hfit : FitsInt model.W model.vocab_size)
    (hu : model.use_weights ≠ 0) (v : Nat) (hv : v < model.vocab_size) :
    vecGet (initialize_common log (read_data_common model)).vocab_weights v
      = - log (((1 + occurrences model.W v : Nat) : K)
          / ((model.vocab_size + ∑ u ∈ range model.vocab_size, occurrences model.W u : Nat) : K))
        / log 2 := by
  rw [initialize_common_weight_cast log model hu v hv,
    truncToInt_natCast _ (fitsInt_bound hfit), Int.cast_natCast]

/-- With weighting disabled, every weight after `initialize_common` is one. -/
theorem initialize_common_weight_off (log : K → K) (model : Model K)
    (hu : model.use_weights = 0) :
    (initialize_common log (read_data_common model)).vocab_weights
      = List.replicate model.vocab_size 1 := by
  rw [(initialize_common_params log model).2.1,
    initVocabWeights_off log (read_data_common model) rfl hu]
  rfl

theorem occurrences_le_sum (W : List (List Nat)) (V v : Nat) (hv : v < V) :
    occurrences W v ≤ ∑ u ∈ range V, occurrences W u :=
  Finset.single_le_sum (f := fun u => occurrences W u) (fun _ _ => Nat.zero_le _)
    (Finset.mem_range.mpr hv)

/-- Every vocabulary weight computed by `initialize_common` with the natural
logarithm is non-negative. -/
theorem initialize_common_weight_nonneg (model : Model ℝ)
    (hfit : FitsInt model.W model.vocab_size) (v : Nat) :
    0 ≤ vecGet (initialize_common Real.log (read_data_common model)).vocab_weights v := by
  by_cases hv : v < model.vocab_size
  · by_cases hu : model.use_weights = 0
    · rw [initialize_common_weight_off Real.log model hu, vecGet_replicate, if_pos hv]
      exact zero_le_one
    · rw [initialize_common_weight_on Real.log model hfit hu v hv]
      have hle := occurrences_le_sum model.W model.vocab_size v hv
      have hnum : (0 : ℝ) ≤ ((1 + occurrences model.W v : Nat) : ℝ) := Nat.cast_nonneg _
      have hden : (0 : ℝ) ≤ ((model.vocab_size
          + ∑ u ∈ range model.vocab_size, occurrences model.W u : Nat) : ℝ) := Nat.cast_nonneg _
      have hcmp : ((1 + occurrences model.W v : Nat) : ℝ) ≤ ((model.vocab_size
          + ∑ u ∈ range model.vocab_size, occurrences model.W u : Nat) : ℝ) := by
        exact_mod_cast (by omega : 1 + occurrences model.W v
          ≤ model.vocab_size + ∑ u ∈ range model.vocab_size, occurrences model.W u)
      have hlog : Real.log (((1 + occurrences model.W v : Nat) : ℝ) / ((model.vocab_size
          + ∑ u ∈ range model.vocab_size, occurrences model.W u : Nat) : ℝ)) ≤ 0 :=
        Real.log_nonpos (div_nonneg hnum hden) (div_le_one_of_le₀ hcmp hden)
      exact div_nonneg (neg_nonneg.mpr hlog) (Real.log_pos one_lt_two).le
  · have hl := (initialize_common_params Real.log model).2.2.2.2.1
    rw [vecGet_of_le _ _ (by rw [hl]; omega)]

end Weights



/-! ## Runs in double precision -/

section DoubleRuns

/-- The object `driftState beta` is a state of the sweep over the example corpus in
doubles: each of the three calls is made on a token with its current topic and
draws a topic in range. -/
theorem drift_reachable (beta : Dbl) :
    SweepReachable dblLog (dblModel beta) driftZ (driftState beta) := by
  have h0 : SweepReachable dblLog (dblModel beta) (dblModel beta).Z
      (initialize_common dblLog (read_data_common (dblModel beta))) := SweepReachable.init
  have h1 := SweepReachable.step _ _ (fun _ _ _ => 0) [1, 1] 0 1 0 h0
    (show 0 < 2 by decide) (show 1 < 3 by decide) (show 0 < 2 by decide)
  have h2 := SweepReachable.step _ _ (fun _ _ _ => 1) [1, 1] 0 0 0 h1
    (show 0 < 2 by decide) (show 0 < 3 by decide) (show 1 < 2 by decide)
  exact SweepReachable.step _ _ (fun _ _ _ => 1) [1, 1] 0 1 0 h2
    (show 0 < 2 by decide) (show 1 < 3 by decide) (show 1 < 2 by decide)

/-- The rounding at known values: the double `0.1`, the sum
`0.1 + 0.2 = 0.30000000000000004`, two ties at `2^53` that go to the even
neighbour, the smallest subnormal `2^(-1074)`, half of it (a tie, rounded to zero)
and the underflow of `1e-400` to zero. -/
theorem roundDbl_samples :
    roundDbl (1 / 10) = 3602879701896397 / 36028797018963968 ∧
    roundDbl (3602879701896397 / 36028797018963968 + 3602879701896397 / 18014398509481984)
      = 1351079888211149 / 4503599627370496 ∧
    roundDbl 9007199254740993 = 9007199254740992 ∧
    roundDbl 9007199254740995 = 9007199254740996 ∧
    roundDbl (pow2 (-1074)) = pow2 (-1074) ∧
    roundDbl (pow2 (-1075)) = 0 ∧
    roundDbl (1 / ((10 ^ 400 : Nat) : ℚ)) = 0 := by
  decide!

/-- The weights of the example corpus in doubles: `1.4150374992788437` for the
words 0 and 1, and `2` for word 2; `total_words` is 8. -/
theorem dbl_example_weights :
    (initialize_common dblLog (read_data_common (dblModel (dblLit 1 10)))).total_words = 8 ∧
    (initialize_common dblLog (read_data_common (dblModel (dblLit 1 10)))).vocab_weights
      = [⟨6372762354467479 / 4503599627370496⟩, ⟨6372762354467479 / 4503599627370496⟩, ⟨2⟩] := by
  decide!

end DoubleRuns



/-! ## The run at the overflow of the cast to `int` -/

section OverflowRuns

theorem withNaN_val_add {K : Type} [Add K] (x y : K) :
    (WithNaN.val x + WithNaN.val y : WithNaN K) = WithNaN.val (x + y) := rfl

theorem withNaN_val_div {K : Type} [Div K] (x y : K) :
    (WithNaN.val x / WithNaN.val y : WithNaN K) = WithNaN.val (x / y) := rfl

theorem withNaN_nan_div {K : Type} [Div K] (a : WithNaN K) :
    (WithNaN.nan / a : WithNaN K) = WithNaN.nan := rfl

theorem withNaN_neg_nan {K : Type} [Neg K] : (- WithNaN.nan : WithNaN K) = WithNaN.nan := rfl

theorem withNaN_one {K : Type} [One K] : (1 : WithNaN K) = WithNaN.val 1 := rfl

theorem withNaN_zero {K : Type} [Zero K] : (0 : WithNaN K) = WithNaN.val 0 := rfl

theorem withNaN_intCast {K : Type} [IntCast K] (n : Int) :
    ((n : Int) : WithNaN K) = WithNaN.val (n : K) := rfl

/-- No value is below or equal to NaN. -/
theorem withNaN_not_le_nan {K : Type} [LE K] (a : WithNaN K) : ¬ (a ≤ WithNaN.nan) := by
  cases a <;> exact id

/-- No value is below NaN. -/
theorem withNaN_not_lt_nan {K : Type} [LT K] (a : WithNaN K) : ¬ (a < WithNaN.nan) := by
  cases a <;> exact id

theorem withNaN_sum_replicate_one (n : Nat) :
    (List.replicate n (1 : WithNaN ℝ)).sum = WithNaN.val (n : ℝ) := by
  induction n with
  | zero => simp [withNaN_zero]
  | succ n ih =>
    rw [List.replicate_succ, List.sum_cons, ih, withNaN_one, withNaN_val_add]
    push_cast
    ring_nf

theorem nanLog_of_neg (x : ℝ) (h : x < 0) :
    nanLog Real.log (WithNaN.val x) = WithNaN.nan := by
  simp [nanLog, h]

/-- Lines 53-81 on the corpus `wideModel n`, unfolded: the counting loop adds one to
the entry of word 0. -/
theorem wide_initVocabWeights_unfold (L : WithNaN ℝ → WithNaN ℝ) (n : Nat) :
    initVocabWeights L (read_data_common (wideModel (WithNaN ℝ) n))
      = { read_data_common (wideModel (WithNaN ℝ) n) with
          doc_each_len := [1]
          total_words :=
            CastToInt.toInt (WithNaN.val (1 + 1) :: List.replicate (n + 1) (1 : WithNaN ℝ)).sum
          vocab_weights :=
            (((WithNaN.val (1 + 1) :: List.replicate (n + 1) (1 : WithNaN ℝ)).map
              (fun x => x / ((CastToInt.toInt
                (WithNaN.val (1 + 1) :: List.replicate (n + 1) (1 : WithNaN ℝ)).sum : Int)
                  : WithNaN ℝ))).map L).map (fun x => - x / L 2) } := rfl

/-- Lines 53-81 on the corpus `wideModel n` with `n + 3 >= 2^31`: the cast at line
72 yields `INT_MIN`, every quotient is negative and every weight is NaN. -/
theorem wide_initVocabWeights (n : Nat) (h : 2147483645 ≤ n) :
    initVocabWeights (nanLog Real.log) (read_data_common (wideModel (WithNaN ℝ) n))
      = { read_data_common (wideModel (WithNaN ℝ) n) with
          doc_each_len := [1]
          total_words := -2147483648
          vocab_weights := List.replicate (n + 2) WithNaN.nan } := by
  have hsum : (WithNaN.val (1 + 1) :: List.replicate (n + 1) (1 : WithNaN ℝ)).sum
      = WithNaN.val (((n + 3 : Nat)) : ℝ) := by
    rw [List.sum_cons, withNaN_sum_replicate_one, withNaN_val_add]
    congr 1
    push_cast
    ring
  have htot : CastToInt.toInt (WithNaN.val (1 + 1) :: List.replicate (n + 1) (1 : WithNaN ℝ)).sum
      = -2147483648 := by
    rw [hsum]
    exact truncToInt_natCast_big (n + 3) (by omega)
  rw [wide_initVocabWeights_unfold, htot]
  have h1 : nanLog Real.log (WithNaN.val (1 + 1) / ((-2147483648 : Int) : WithNaN ℝ))
      = WithNaN.nan := by
    rw [withNaN_intCast, withNaN_val_div]
    exact nanLog_of_neg _ (by norm_num)
  have h2 : nanLog Real.log ((1 : WithNaN ℝ) / ((-2147483648 : Int) : WithNaN ℝ))
      = WithNaN.nan := by
    rw [withNaN_intCast, withNaN_one, withNaN_val_div]
    exact nanLog_of_neg _ (by norm_num)
  simp only [List.map_cons, List.map_replicate, h1, h2, withNaN_neg_nan, withNaN_nan_div]
  rfl

/-- The object after `initialize_common` on the corpus `wideModel n` with
`n + 3 >= 2^31`. -/
theorem wide_init_state (n : Nat) (h : 2147483645 ≤ n) :
    initialize_common (nanLog Real.log) (read_data_common (wideModel (WithNaN ℝ) n))
      = { W := [[0]], Z := [[0]], num_topics := 1, num_vocab := n + 2, num_doc := 1,
          use_weight := 1, beta := (wideModel (WithNaN ℝ) n).beta, doc_each_len := [1],
          total_words := -2147483648,
          vocab_weights := List.replicate (n + 2) WithNaN.nan,
          n_kv := [WithNaN.nan :: List.replicate (n + 1) 0],
          n_dk := [[WithNaN.val (0 + 1)]],
          n_k := [WithNaN.nan],
          n_k_noWeight := [WithNaN.val (0 + 1)],
          z_prob_vec := [0], sum := 0, new_z := 0 } := by
  unfold initialize_common
  rw [wide_initVocabWeights n h]
  rfl

/-- On the corpus `wideModel n` with `n + 3 >= 2^31`, `total_words` is `INT_MIN` and
the weights of the words 0 and 1 are NaN. -/
theorem wide_weights (n : Nat) (h : 2147483645 ≤ n) :
    (initialize_common (nanLog Real.log)
      (read_data_common (wideModel (WithNaN ℝ) n))).total_words = -2147483648 ∧
    vecGet (initialize_common (nanLog Real.log)
      (read_data_common (wideModel (WithNaN ℝ) n))).vocab_weights 0 = WithNaN.nan ∧
    vecGet (initialize_common (nanLog Real.log)
      (read_data_common (wideModel (WithNaN ℝ) n))).vocab_weights 1 = WithNaN.nan := by
  rw [wide_init_state n h]
  exact ⟨rfl, rfl, rfl⟩

/-- On the corpus `wideModel n` with `n + 3 >= 2^31`, `sample_z` on the only token
works on NaN: the total `n_k(0)` after the removal and after the add-back, the
denominator, the candidate weight and the sum are NaN. -/
theorem wide_sample_z (n : Nat) (h : 2147483645 ≤ n) :
    vecGet (sampleRemove (initialize_common (nanLog Real.log)
      (read_data_common (wideModel (WithNaN ℝ) n))) 0 0 0).n_k 0 = WithNaN.nan ∧
    vecGet (sample_z (fun _ _ _ => 0) (initialize_common (nanLog Real.log)
      (read_data_common (wideModel (WithNaN ℝ) n))) [1] 0 0 0 0).2.n_k 0 = WithNaN.nan ∧
    ((sampleRemove (initialize_common (nanLog Real.log)
        (read_data_common (wideModel (WithNaN ℝ) n))) 0 0 0).num_vocab : WithNaN ℝ)
      * (sampleRemove (initialize_common (nanLog Real.log)
        (read_data_common (wideModel (WithNaN ℝ) n))) 0 0 0).beta
      + vecGet (sampleRemove (initialize_common (nanLog Real.log)
        (read_data_common (wideModel (WithNaN ℝ) n))) 0 0 0).n_k 0 = WithNaN.nan ∧
    vecGet (sample_z (fun _ _ _ => 0) (initialize_common (nanLog Real.log)
      (read_data_common (wideModel (WithNaN ℝ) n))) [1] 0 0 0 0).2.z_prob_vec 0 = WithNaN.nan ∧
    (sample_z (fun _ _ _ => 0) (initialize_common (nanLog Real.log)
      (read_data_common (wideModel (WithNaN ℝ) n))) [1] 0 0 0 0).2.sum = WithNaN.nan := by
  rw [wide_init_state n h]
  exact ⟨rfl, rfl, rfl, rfl, rfl⟩

/-- The corpus `overflowModel` is well-formed, its number of tokens plus `num_vocab`
is `2^31`, and word 1 does not occur while word 0 occurs once. -/
theorem overflowModel_facts (K : Type) [One K] [Div K] [NatCast K] :
    WellFormed (overflowModel K).W (overflowModel K).Z (overflowModel K).vocab_size
      (overflowModel K).no_keyword_topics ∧
    WordsInRange (overflowModel K).W (overflowModel K).vocab_size ∧
    numTokens (overflowModel K).W + (overflowModel K).vocab_size = 2147483648 ∧
    occurrences (overflowModel K).W 1 = 0 ∧ occurrences (overflowModel K).W 0 = 1 := by
  refine ⟨?_, ?_, ?_, ?_, ?_⟩
  · show WellFormed [[0]] [[0]] 2147483647 1
    decide
  · show WordsInRange [[0]] 2147483647
    decide
  · show numTokens [[0]] + 2147483647 = 2147483648
    decide
  · show occurrences [[0]] 1 = 0
    decide
  · show occurrences [[0]] 0 = 1
    decide

/-- In the exact model, too, `total_words` of the corpus `overflowModel` is
`INT_MIN`. -/
theorem overflow_total_words :
    (initialize_common Real.log (read_data_common (overflowModel ℝ))).total_words
      = -2147483648 := by
  rw [(initialize_common_params Real.log (overflowModel ℝ)).2.2.2.1]
  apply truncToInt_natCast_big
  rw [sum_occurrences _ _ (overflowModel_facts ℝ).2.1]
  have h := (overflowModel_facts ℝ).2.2.1
  omega

end OverflowRuns



/-! ## Claims about the vocabulary weights -/

section WeightClaims

/-- C8, the claim as stated, fails in two ways.  For the corpus of one token (one
word, one topic) the code gives the weight `-log2((1 + 1) / (1 + 1)) = 0`, while the
claimed formula with the number of tokens as the denominator gives
`-log2((1 + 1) / 1) = -1`.  And for the corpus of one token with `INT_MAX` words,
where the number of tokens plus `num_vocab` is `2^31`, the cast at line 72 yields
`total_words = INT_MIN`, the quotient passed to the logarithm is negative and the
weight of word 0 is NaN, not the value of a formula. -/
theorem C8_counterexample :
    (singleTokenModel ℝ 1).use_weights ≠ 0 ∧
    vecGet (initialize_common Real.log (read_data_common (singleTokenModel ℝ 1))).vocab_weights 0
      = 0 ∧
    - Real.logb 2 (((1 + occurrences (singleTokenModel ℝ 1).W 0 : Nat) : ℝ)
        / ((numTokens (singleTokenModel ℝ 1).W : Nat) : ℝ)) = -1 ∧
    vecGet (initialize_common Real.log (read_data_common (singleTokenModel ℝ 1))).vocab_weights 0
      ≠ - Real.logb 2 (((1 + occurrences (singleTokenModel ℝ 1).W 0 : Nat) : ℝ)
        / ((numTokens (singleTokenModel ℝ 1).W : Nat) : ℝ)) ∧
    (overflowModel (WithNaN ℝ)).use_weights ≠ 0 ∧
    WordsInRange (overflowModel (WithNaN ℝ)).W (overflowModel (WithNaN ℝ)).vocab_size ∧
    numTokens (overflowModel (WithNaN ℝ)).W + (overflowModel (WithNaN ℝ)).vocab_size
      = 2147483648 ∧
    (initialize_common (nanLog Real.log)
      (read_data_common (overflowModel (WithNaN ℝ)))).total_words = -2147483648 ∧
    vecGet (initialize_common (nanLog Real.log)
      (read_data_common (overflowModel (WithNaN ℝ)))).vocab_weights 0 = WithNaN.nan := by
  have hocc : occurrences (singleTokenModel ℝ 1).W 0 = 1 := by decide
  have hsum : ∑ u ∈ range (singleTokenModel ℝ 1).vocab_size,
      occurrences (singleTokenModel ℝ 1).W u = 1 := by decide
  have hV : (singleTokenModel ℝ 1).vocab_size = 1 := rfl
  have hN : numTokens (singleTokenModel ℝ 1).W = 1 := by decide
  have hu : (singleTokenModel ℝ 1).use_weights ≠ 0 := by decide
  have h1 : vecGet (initialize_common Real.log
      (read_data_common (singleTokenModel ℝ 1))).vocab_weights 0 = 0 := by
    rw [initialize_common_weight_on Real.log (singleTokenModel ℝ 1) (by decide) hu 0 (by decide),
      hocc, hsum, hV]
    norm_num
  have h2 : - Real.logb 2 (((1 + occurrences (singleTokenModel ℝ 1).W 0 : Nat) : ℝ)
      / ((numTokens (singleTokenModel ℝ 1).W : Nat) : ℝ)) = -1 := by
    rw [hocc, hN]
    norm_num
  refine ⟨hu, h1, h2, ?_, show (1 : Int) ≠ 0 by decide, (overflowModel_facts (WithNaN ℝ)).2.1,
    (overflowModel_facts (WithNaN ℝ)).2.2.1, (wide_weights 2147483645 (le_refl _)).1,
    (wide_weights 2147483645 (le_refl _)).2.1⟩
  rw [h1, h2]
  norm_num

/-- C8, amended: with weighting enabled, for every corpus whose word indices are
below `num_vocab` and whose number of tokens plus `num_vocab` is at most `INT_MAX`,
and every word `v` below `num_vocab`, the weight computed by `initialize_common` is
`-log2(p_v)` with `p_v = (1 + occurrences of v) / (number of tokens + num_vocab)`:
the denominator counts the pseudo-count of every word as well. -/
theorem C8_vocab_weight_formula (model : Model ℝ) (hu : model.use_weights ≠ 0)
    (hw : WordsInRange model.W model.vocab_size) (hfit : FitsInt model.W model.vocab_size)
    (v : Nat) (hv : v < model.vocab_size) :
    vecGet (initialize_common Real.log (read_data_common model)).vocab_weights v
      = - Real.logb 2 (((1 + occurrences model.W v : Nat) : ℝ)
          / ((numTokens model.W + model.vocab_size : Nat) : ℝ)) := by
  rw [initialize_common_weight_on Real.log model hfit hu v hv,
    sum_occurrences model.W model.vocab_size hw, Nat.add_comm model.vocab_size, neg_div,
    Real.log_div_log]

/-- C8 amended, at the example corpus: word 0 occurs twice among five tokens and
three words. -/
theorem C8_vocab_weight_formula_witness :
    (exampleModel ℝ 1).use_weights ≠ 0 ∧
      WordsInRange (exampleModel ℝ 1).W (exampleModel ℝ 1).vocab_size ∧
      FitsInt (exampleModel ℝ 1).W (exampleModel ℝ 1).vocab_size ∧
      vecGet (initialize_common Real.log (read_data_common (exampleModel ℝ 1))).vocab_weights 0
        = - Real.logb 2 (3 / 8) := by
  refine ⟨by decide, by decide, by decide, ?_⟩
  have h := C8_vocab_weight_formula (exampleModel ℝ 1) (by decide) (by decide) (by decide) 0
    (by decide)
  have hocc : occurrences (exampleModel ℝ 1).W 0 = 2 := by decide
  have hN : numTokens (exampleModel ℝ 1).W = 5 := by decide
  have hV : (exampleModel ℝ 1).vocab_size = 3 := rfl
  rw [hocc, hN, hV] at h
  rw [h]
  norm_num

/-- C9, the claim as stated, fails when the cast at line 72 overflows.  The corpus
of one token with `INT_MAX` words has `num_vocab >= 1` and its word index in
range; the number of tokens plus `num_vocab` is `2^31`, `total_words` is `INT_MIN`,
the quotient passed to the logarithm is negative, and the weight of word 0 is NaN,
which is not `>= 0`. -/
theorem C9_counterexample :
    1 ≤ (overflowModel (WithNaN ℝ)).vocab_size ∧
    WordsInRange (overflowModel (WithNaN ℝ)).W (overflowModel (WithNaN ℝ)).vocab_size ∧
    numTokens (overflowModel (WithNaN ℝ)).W + (overflowModel (WithNaN ℝ)).vocab_size
      = 2147483648 ∧
    (initialize_common (nanLog Real.log)
      (read_data_common (overflowModel (WithNaN ℝ)))).total_words = -2147483648 ∧
    vecGet (initialize_common (nanLog Real.log)
      (read_data_common (overflowModel (WithNaN ℝ)))).vocab_weights 0 = WithNaN.nan ∧
    ¬ (0 ≤ vecGet (initialize_common (nanLog Real.log)
      (read_data_common (overflowModel (WithNaN ℝ)))).vocab_weights 0) := by
  refine ⟨show 1 ≤ 2147483647 by decide, (overflowModel_facts (WithNaN ℝ)).2.1,
    (overflowModel_facts (WithNaN ℝ)).2.2.1, (wide_weights 2147483645 (le_refl _)).1,
    (wide_weights 2147483645 (le_refl _)).2.1, ?_⟩
  have h : vecGet (initialize_common (nanLog Real.log)
      (read_data_common (overflowModel (WithNaN ℝ)))).vocab_weights 0 = WithNaN.nan :=
    (wide_weights 2147483645 (le_refl _)).2.1
  rw [h]
  exact withNaN_not_le_nan _

/-- C9, amended: for every corpus with `num_vocab >= 1`, all word indices below
`num_vocab` and number of tokens plus `num_vocab` at most `INT_MAX`, after
`initialize_common` the vector `vocab_weights` has `num_vocab` entries and every
entry is non-negative, with weighting enabled or disabled. -/
theorem C9_vocab_weights_nonneg (model : Model ℝ) (_hV : 1 ≤ model.vocab_size)
    (_hw : WordsInRange model.W model.vocab_size)
    (hfit : FitsInt model.W model.vocab_size) :
    (initialize_common Real.log (read_data_common model)).vocab_weights.length
      = model.vocab_size ∧
    ∀ v, v < model.vocab_size →
      0 ≤ vecGet (initialize_common Real.log (read_data_common model)).vocab_weights v :=
  ⟨(initialize_common_params Real.log model).2.2.2.2.1,
    fun v _ => initialize_common_weight_nonneg model hfit v⟩

/-- C9 amended, at the example corpus, with weighting enabled. -/
theorem C9_vocab_weights_nonneg_witness :
    1 ≤ (exampleModel ℝ 1).vocab_size ∧
      WordsInRange (exampleModel ℝ 1).W (exampleModel ℝ 1).vocab_size ∧
      FitsInt (exampleModel ℝ 1).W (exampleModel ℝ 1).vocab_size ∧
      (initialize_common Real.log (read_data_common (exampleModel ℝ 1))).vocab_weights.length
        = 3 ∧
      0 ≤ vecGet (initialize_common Real.log (read_data_common (exampleModel ℝ 1))).vocab_weights
        2 :=
  ⟨by decide, by decide, by decide,
    (C9_vocab_weights_nonneg (exampleModel ℝ 1) (by decide) (by decide) (by decide)).1,
    (C9_vocab_weights_nonneg (exampleModel ℝ 1) (by decide) (by decide) (by decide)).2 2
      (by decide)⟩

/-- C10, the claim as stated, fails when the cast at line 72 overflows.  In the
corpus of one token with `INT_MAX` words, word 1 does not occur and word 0 occurs
once; the number of tokens plus `num_vocab` is `2^31`, `total_words` is `INT_MIN`,
both weights are NaN, and the weight of word 1 is not larger than the weight of
word 0. -/
theorem C10_counterexample :
    (overflowModel (WithNaN ℝ)).use_weights ≠ 0 ∧
    1 < (overflowModel (WithNaN ℝ)).vocab_size ∧
    occurrences (overflowModel (WithNaN ℝ)).W 1 < occurrences (overflowModel (WithNaN ℝ)).W 0 ∧
    numTokens (overflowModel (WithNaN ℝ)).W + (overflowModel (WithNaN ℝ)).vocab_size
      = 2147483648 ∧
    (initialize_common (nanLog Real.log)
      (read_data_common (overflowModel (WithNaN ℝ)))).total_words = -2147483648 ∧
    vecGet (initialize_common (nanLog Real.log)
      (read_data_common (overflowModel (WithNaN ℝ)))).vocab_weights 1 = WithNaN.nan ∧
    ¬ (vecGet (initialize_common (nanLog Real.log)
        (read_data_common (overflowModel (WithNaN ℝ)))).vocab_weights 0
      < vecGet (initialize_common (nanLog Real.log)
        (read_data_common (overflowModel (WithNaN ℝ)))).vocab_weights 1) := by
  have hocc : occurrences (overflowModel (WithNaN ℝ)).W 1
      < occurrences (overflowModel (WithNaN ℝ)).W 0 := by
    rw [(overflowModel_facts (WithNaN ℝ)).2.2.2.1, (overflowModel_facts (WithNaN ℝ)).2.2.2.2]
    decide
  refine ⟨show (1 : Int) ≠ 0 by decide, show 1 < 2147483647 by decide, hocc,
    (overflowModel_facts (WithNaN ℝ)).2.2.1, (wide_weights 2147483645 (le_refl _)).1,
    (wide_weights 2147483645 (le_refl _)).2.2, ?_⟩
  have h : vecGet (initialize_common (nanLog Real.log)
      (read_data_common (overflowModel (WithNaN ℝ)))).vocab_weights 1 = WithNaN.nan :=
    (wide_weights 2147483645 (le_refl _)).2.2
  rw [h]
  exact withNaN_not_lt_nan _

/-- C10, amended: with weighting enabled, for every corpus whose number of tokens
plus `num_vocab` is at most `INT_MAX` and any two words `v1`, `v2` below
`num_vocab`, if `v1` occurs strictly fewer times in the corpus than `v2` then the
weight of `v1` is strictly larger than the weight of `v2`, and equal occurrence
counts give equal weights. -/
theorem C10_rare_words_weigh_more (model : Model ℝ) (hu : model.use_weights ≠ 0)
    (hfit : FitsInt model.W model.vocab_size)
    (v1 v2 : Nat) (h1 : v1 < model.vocab_size) (h2 : v2 < model.vocab_size) :
    (occurrences model.W v1 < occurrences model.W v2 →
      vecGet (initialize_common Real.log (read_data_common model)).vocab_weights v2
        < vecGet (initialize_common Real.log (read_data_common model)).vocab_weights v1) ∧
    (occurrences model.W v1 = occurrences model.W v2 →
      vecGet (initialize_common Real.log (read_data_common model)).vocab_weights v1
        = vecGet (initialize_common Real.log (read_data_common model)).vocab_weights v2) := by
  rw [initialize_common_weight_on Real.log model hfit hu v1 h1,
    initialize_common_weight_on Real.log model hfit hu v2 h2]
  have hden : (0 : ℝ) < ((model.vocab_size
      + ∑ u ∈ range model.vocab_size, occurrences model.W u : Nat) : ℝ) := by
    exact_mod_cast (by omega : 0 < model.vocab_size
      + ∑ u ∈ range model.vocab_size, occurrences model.W u)
  have hlog2 : 0 < Real.log 2 := Real.log_pos one_lt_two
  refine ⟨fun hlt => ?_, fun heq => by rw [heq]⟩
  have hnum : (0 : ℝ) < ((1 + occurrences model.W v1 : Nat) : ℝ) := by
    exact_mod_cast (by omega : 0 < 1 + occurrences model.W v1)
  have hcmp : ((1 + occurrences model.W v1 : Nat) : ℝ)
      < ((1 + occurrences model.W v2 : Nat) : ℝ) := by
    exact_mod_cast (by omega : 1 + occurrences model.W v1 < 1 + occurrences model.W v2)
  have hlog := Real.log_lt_log (div_pos hnum hden) ((div_lt_div_iff_of_pos_right hden).mpr hcmp)
  exact (div_lt_div_iff_of_pos_right hlog2).mpr (neg_lt_neg hlog)

/-- C10 amended, at the example corpus: word 2 occurs once, word 0 twice. -/
theorem C10_rare_words_weigh_more_witness :
    (exampleModel ℝ 1).use_weights ≠ 0 ∧
      FitsInt (exampleModel ℝ 1).W (exampleModel ℝ 1).vocab_size ∧
      occurrences (exampleModel ℝ 1).W 2 < occurrences (exampleModel ℝ 1).W 0 ∧
      vecGet (initialize_common Real.log (read_data_common (exampleModel ℝ 1))).vocab_weights 0
        < vecGet (initialize_common Real.log (read_data_common (exampleModel ℝ 1))).vocab_weights
          2 :=
  ⟨by decide, by decide, by decide,
    (C10_rare_words_weigh_more (exampleModel ℝ 1) (by decide) (by decide) 2 0 (by decide)
      (by decide)).1 (by decide)⟩

end WeightClaims



/-! ## Signs of the counts and of the candidate weights -/

section Signs

theorem nonneg_of_vecGet {K : Type} [LinearOrderedField K] (v : List K)
    (h : ∀ i, 0 ≤ vecGet v i) : ∀ x ∈ v, 0 ≤ x := by
  intro x hx
  obtain ⟨i, hi, rfl⟩ := List.getElem_of_mem hx
  have := h i
  simpa [vecGet, List.getElem?_eq_getElem hi] using this

theorem nonneg_of_matGet {K : Type} [LinearOrderedField K] (M : List (List K))
    (h : ∀ i j, 0 ≤ matGet M i j) : ∀ row ∈ M, ∀ x ∈ row, 0 ≤ x := by
  intro row hrow
  obtain ⟨i, hi, rfl⟩ := List.getElem_of_mem hrow
  apply nonneg_of_vecGet
  intro j
  have := h i j
  simpa [matGet, List.getElem?_eq_getElem hi] using this

/-- Tables that reflect an assignment without one token, with non-negative
weights, have no negative entry. -/
theorem tablesNonneg_of_reflectExcl {K : Type} [LinearOrderedField K] {m : LDAbase K}
    {W Z : List (List Nat)} {d0 p0 : Nat} (hr : TablesReflectExcl m W Z d0 p0)
    (hvw : ∀ v, 0 ≤ vecGet m.vocab_weights v) : TablesNonneg m := by
  refine ⟨nonneg_of_matGet _ (fun k v => ?_), nonneg_of_matGet _ (fun d k => ?_),
    nonneg_of_vecGet _ (fun k => ?_), nonneg_of_vecGet _ (fun k => ?_)⟩
  · rw [hr.n_kv]
    exact mul_nonneg (hvw v) (Nat.cast_nonneg _)
  · rw [hr.n_dk]
    exact Nat.cast_nonneg _
  · rw [hr.n_k]
    unfold weightKExcl
    refine Finset.sum_nonneg (fun d _ => Finset.sum_nonneg (fun p _ => ?_))
    split
    · exact hvw _
    · exact le_refl _
  · rw [hr.n_k_noWeight]
    exact Nat.cast_nonneg _

/-- Adding a token to tables without negative entries, with a non-negative weight,
leaves no negative entry. -/
theorem tablesNonneg_of_add {K : Type} [LinearOrderedField K] {m m' : LDAbase K}
    {D T V z w doc_id : Nat} (hs : TokenShift D T V 1 z w doc_id m m')
    (hn : ∀ i j, 0 ≤ matGet m.n_kv i j) (hd : ∀ i j, 0 ≤ matGet m.n_dk i j)
    (hk : ∀ i, 0 ≤ vecGet m.n_k i) (hkn : ∀ i, 0 ≤ vecGet m.n_k_noWeight i)
    (hvw : 0 ≤ vecGet m.vocab_weights w) : TablesNonneg m' := by
  refine ⟨nonneg_of_matGet _ (fun k v => ?_), nonneg_of_matGet _ (fun d k => ?_),
    nonneg_of_vecGet _ (fun k => ?_), nonneg_of_vecGet _ (fun k => ?_)⟩
  · rw [hs.n_kv]
    refine add_nonneg (hn k v) ?_
    split
    · rw [one_mul]; exact hvw
    · exact le_refl _
  · rw [hs.n_dk]
    refine add_nonneg (hd d k) ?_
    split
    · exact zero_le_one
    · exact le_refl _
  · rw [hs.n_k]
    refine add_nonneg (hk k) ?_
    split
    · rw [one_mul]; exact hvw
    · exact le_refl _
  · rw [hs.n_k_noWeight]
    refine add_nonneg (hkn k) ?_
    split
    · exact zero_le_one
    · exact le_refl _

/-- The weights held by an object of a sweep over a corpus within the size bound
are non-negative. -/
theorem sweep_weight_nonneg {model : Model ℝ} {Z : List (List Nat)} {m : LDAbase ℝ}
    (hfit : FitsInt model.W model.vocab_size)
    (st : SweepState model
      (initialize_common Real.log (read_data_common model)).vocab_weights Z m) (v : Nat) :
    0 ≤ vecGet m.vocab_weights v := by
  rw [st.vocab_weights]
  exact initialize_common_weight_nonneg model hfit v

/-- With `beta > 0`, the candidate weight of topic `k` computed from tables that
reflect the assignment without the token is positive exactly when
`n_dk'(doc_id,k) + alpha(k)` is. -/
theorem candidateWeight_pos_iff {m : LDAbase ℝ} {W Z : List (List Nat)} {d0 p0 : Nat}
    (hr : TablesReflectExcl m W Z d0 p0) (hvw : ∀ v, 0 ≤ vecGet m.vocab_weights v)
    (hbeta : 0 < m.beta) (hV : 1 ≤ m.num_vocab) (alpha : List ℝ) (w k : Nat) :
    0 < candidateWeight m alpha w d0 k
      ↔ 0 < (countDKExcl W Z d0 p0 d0 k : ℝ) + vecGet alpha k := by
  unfold candidateWeight
  have hA : 0 < m.beta + matGet m.n_kv k w := by
    rw [hr.n_kv]
    exact add_pos_of_pos_of_nonneg hbeta (mul_nonneg (hvw w) (Nat.cast_nonneg _))
  have hV' : (1 : ℝ) ≤ (m.num_vocab : ℝ) := by exact_mod_cast hV
  have hnk : 0 ≤ vecGet m.n_k k := by
    rw [hr.n_k]
    unfold weightKExcl
    refine Finset.sum_nonneg (fun d _ => Finset.sum_nonneg (fun p _ => ?_))
    split
    · exact hvw _
    · exact le_refl _
  have hC : 0 < (m.num_vocab : ℝ) * m.beta + vecGet m.n_k k :=
    add_pos_of_pos_of_nonneg (mul_pos (by linarith) hbeta) hnk
  rw [hr.n_dk]
  constructor
  · intro h
    by_contra hB
    have hB' : (countDKExcl W Z d0 p0 d0 k : ℝ) + vecGet alpha k ≤ 0 := not_lt.mp hB
    have : (m.beta + matGet m.n_kv k w) * ((countDKExcl W Z d0 p0 d0 k : ℝ) + vecGet alpha k)
        / ((m.num_vocab : ℝ) * m.beta + vecGet m.n_k k) ≤ 0 :=
      div_nonpos_of_nonpos_of_nonneg (mul_nonpos_of_nonneg_of_nonpos hA.le hB') hC.le
    linarith
  · intro hB
    exact div_pos (mul_pos hA hB) hC

end Signs



/-! ## Claims about the signs -/

section SignClaims

/-- C6, the claim as stated, fails in three ways.  In exact arithmetic `beta > 0`
alone does not make the candidate weights positive: for the corpus of one token
with `beta = 0.1` and `alpha = [0]` the only candidate weight is
`(beta + 0) * (0 + 0) / (1 * beta + 0) = 0`, and the weight vector sums to zero.
In doubles positive priors do not make them positive either: for the same corpus
with `beta = 1e-200` and `alpha = [1e-200]` the numerator `beta * alpha` underflows
and the only candidate weight and the sum are `0`.  And for the corpus of one
token with `INT_MAX` words, where the number of tokens plus `num_vocab` is `2^31`,
the cast at line 72 overflows, the tables hold NaN, and the candidate weight is
NaN, which is not `> 0`. -/
theorem C6_counterexample :
    WellFormed (singleTokenModel ℝ 1).W (singleTokenModel ℝ 1).Z
      (singleTokenModel ℝ 1).vocab_size (singleTokenModel ℝ 1).no_keyword_topics ∧
    (0 : ℝ) < (singleTokenModel ℝ 1).beta ∧
    vecGet (sample_z (fun _ _ _ => 0)
      (initialize_common Real.log (read_data_common (singleTokenModel ℝ 1)))
      [0] 0 0 0 0).2.z_prob_vec 0 = 0 ∧
    (sample_z (fun _ _ _ => 0)
      (initialize_common Real.log (read_data_common (singleTokenModel ℝ 1)))
      [0] 0 0 0 0).2.sum = 0 ∧
    WellFormed (dblSingleModel (dblLit 1 (10 ^ 200))).W (dblSingleModel (dblLit 1 (10 ^ 200))).Z
      (dblSingleModel (dblLit 1 (10 ^ 200))).vocab_size
      (dblSingleModel (dblLit 1 (10 ^ 200))).no_keyword_topics ∧
    FitsInt (dblSingleModel (dblLit 1 (10 ^ 200))).W
      (dblSingleModel (dblLit 1 (10 ^ 200))).vocab_size ∧
    0 < (dblSingleModel (dblLit 1 (10 ^ 200))).beta.q ∧
    0 < (vecGet [dblLit 1 (10 ^ 200)] 0).q ∧
    (vecGet (sample_z (fun _ _ _ => 0)
      (initialize_common dblLog (read_data_common (dblSingleModel (dblLit 1 (10 ^ 200)))))
      [dblLit 1 (10 ^ 200)] 0 0 0 0).2.z_prob_vec 0).q = 0 ∧
    (sample_z (fun _ _ _ => 0)
      (initialize_common dblLog (read_data_common (dblSingleModel (dblLit 1 (10 ^ 200)))))
      [dblLit 1 (10 ^ 200)] 0 0 0 0).2.sum.q = 0 ∧
    WellFormed (overflowModel (WithNaN ℝ)).W (overflowModel (WithNaN ℝ)).Z
      (overflowModel (WithNaN ℝ)).vocab_size (overflowModel (WithNaN ℝ)).no_keyword_topics ∧
    numTokens (overflowModel (WithNaN ℝ)).W + (overflowModel (WithNaN ℝ)).vocab_size
      = 2147483648 ∧
    0 < (overflowModel (WithNaN ℝ)).beta ∧
    0 < vecGet ([1] : List (WithNaN ℝ)) 0 ∧
    ¬ (0 < vecGet (sample_z (fun _ _ _ => 0)
      (initialize_common (nanLog Real.log) (read_data_common (overflowModel (WithNaN ℝ))))
      [1] 0 0 0 0).2.z_prob_vec 0) := by
  have hdbl : WellFormed (dblSingleModel (dblLit 1 (10 ^ 200))).W
        (dblSingleModel (dblLit 1 (10 ^ 200))).Z
        (dblSingleModel (dblLit 1 (10 ^ 200))).vocab_size
        (dblSingleModel (dblLit 1 (10 ^ 200))).no_keyword_topics ∧
      FitsInt (dblSingleModel (dblLit 1 (10 ^ 200))).W
        (dblSingleModel (dblLit 1 (10 ^ 200))).vocab_size ∧
      0 < (dblSingleModel (dblLit 1 (10 ^ 200))).beta.q ∧
      0 < (vecGet [dblLit 1 (10 ^ 200)] 0).q ∧
      (vecGet (sample_z (fun _ _ _ => 0)
        (initialize_common dblLog (read_data_common (dblSingleModel (dblLit 1 (10 ^ 200)))))
        [dblLit 1 (10 ^ 200)] 0 0 0 0).2.z_prob_vec 0).q = 0 ∧
      (sample_z (fun _ _ _ => 0)
        (initialize_common dblLog (read_data_common (dblSingleModel (dblLit 1 (10 ^ 200)))))
        [dblLit 1 (10 ^ 200)] 0 0 0 0).2.sum.q = 0 := by
    decide!
  have hnan : ¬ (0 < vecGet (sample_z (fun _ _ _ => 0)
      (initialize_common (nanLog Real.log) (read_data_common (overflowModel (WithNaN ℝ))))
      [1] 0 0 0 0).2.z_prob_vec 0) := by
    have h : vecGet (sample_z (fun _ _ _ => 0)
        (initialize_common (nanLog Real.log) (read_data_common (overflowModel (WithNaN ℝ))))
        [1] 0 0 0 0).2.z_prob_vec 0 = WithNaN.nan :=
      (wide_sample_z 2147483645 (le_refl _)).2.2.2.1
    rw [h]
    exact withNaN_not_lt_nan _
  have hbeta : 0 < (overflowModel (WithNaN ℝ)).beta := by
    show (0 : ℝ) < 1 / ((10 : Nat) : ℝ)
    norm_num
  have halpha : 0 < vecGet ([1] : List (WithNaN ℝ)) 0 := by
    show (0 : ℝ) < 1
    norm_num
  have hwf : WellFormed (singleTokenModel ℝ 1).W (singleTokenModel ℝ 1).Z
      (singleTokenModel ℝ 1).vocab_size (singleTokenModel ℝ 1).no_keyword_topics := by decide
  have st := sweepReachable_state Real.log (singleTokenModel ℝ 1) hwf _ _ SweepReachable.init
  have hex := sampleRemove_reflects _ (singleTokenModel ℝ 1).W (singleTokenModel ℝ 1).Z 1 1
    st.wf st.shape st.reflect 0 0 (by decide) (by decide)
  have hcount : countDKExcl (singleTokenModel ℝ 1).W (singleTokenModel ℝ 1).Z 0 0 0 0 = 0 := by
    decide
  have hw : vecGet (sample_z (fun _ _ _ => 0)
      (initialize_common Real.log (read_data_common (singleTokenModel ℝ 1)))
      [0] 0 0 0 0).2.z_prob_vec 0 = 0 := by
    have h := sample_z_weight st (fun _ _ _ => 0) [0] 0 0 0 0 (by decide)
    have hdk := hex.n_dk 0 0
    rw [hcount] at hdk
    have e : candidateWeight (sampleRemove
        (initialize_common Real.log (read_data_common (singleTokenModel ℝ 1)))
        (tokenAt (singleTokenModel ℝ 1).Z 0 0) (tokenAt (singleTokenModel ℝ 1).W 0 0) 0)
        [0] (tokenAt (singleTokenModel ℝ 1).W 0 0) 0 0 = 0 := by
      unfold candidateWeight
      rw [hdk]
      simp [vecGet]
    exact h.trans e
  refine ⟨hwf, by norm_num [singleTokenModel], hw, ?_, hdbl.1, hdbl.2.1, hdbl.2.2.1,
    hdbl.2.2.2.1, hdbl.2.2.2.2.1, hdbl.2.2.2.2.2, (overflowModel_facts (WithNaN ℝ)).1,
    (overflowModel_facts (WithNaN ℝ)).2.2.1, hbeta, halpha, hnan⟩
  have hlen : (sample_z (fun _ _ _ => 0)
      (initialize_common Real.log (read_data_common (singleTokenModel ℝ 1)))
      [0] 0 0 0 0).2.z_prob_vec.length = 1 := by
    rw [sample_z_z_prob_vec, (sampleWeights_spec _ _ _ _).2.2.1]
    exact st.z_prob_vec
  have hsum : (sample_z (fun _ _ _ => 0)
      (initialize_common Real.log (read_data_common (singleTokenModel ℝ 1)))
      [0] 0 0 0 0).2.sum
      = (sample_z (fun _ _ _ => 0)
        (initialize_common Real.log (read_data_common (singleTokenModel ℝ 1)))
        [0] 0 0 0 0).2.z_prob_vec.sum := rfl
  rw [hsum, list_sum_eq_sum_vecGet, hlen, Finset.sum_range_one, hw]

/-- C6, amended: in exact real arithmetic, for every state of a sweep over a
well-formed corpus whose number of tokens plus `num_vocab` is at most `INT_MAX`,
every token of it passed to `sample_z` with its current topic and every `beta > 0`,
the candidate weight `z_prob_vec(k)` is strictly positive exactly when
`n_dk'(doc_id,k) + alpha(k) > 0`; hence for every alpha with `alpha(k) > 0` for all
topics `k` every candidate weight is strictly positive and the weight vector does
not sum to zero. -/
theorem C6_candidate_weights_positive (rcat : List ℝ → ℝ → Nat → Nat) (model : Model ℝ)
    (hwf : WellFormed model.W model.Z model.vocab_size model.no_keyword_topics)
    (hfit : FitsInt model.W model.vocab_size)
    (Z : List (List Nat)) (m : LDAbase ℝ) (h : SweepReachable Real.log model Z m)
    (hbeta : 0 < model.beta) (alpha : List ℝ) (doc_id position s : Nat)
    (hd : doc_id < model.W.length) (hp : position < docLen model.W doc_id) :
    (∀ k, k < model.no_keyword_topics →
      (0 < vecGet (sample_z rcat m alpha (tokenAt Z doc_id position) s
          (tokenAt model.W doc_id position) doc_id).2.z_prob_vec k
        ↔ 0 < (countDKExcl model.W Z doc_id position doc_id k : ℝ) + vecGet alpha k)) ∧
    ((∀ k, k < model.no_keyword_topics → 0 < vecGet alpha k) →
      (∀ k, k < model.no_keyword_topics →
        0 < vecGet (sample_z rcat m alpha (tokenAt Z doc_id position) s
          (tokenAt model.W doc_id position) doc_id).2.z_prob_vec k) ∧
      0 < (sample_z rcat m alpha (tokenAt Z doc_id position) s
          (tokenAt model.W doc_id position) doc_id).2.sum) := by
  have st := sweepReachable_state Real.log model hwf Z m h
  obtain ⟨hw, hz⟩ := (st.wf.2 doc_id hd).2 position hp
  have hex := sampleRemove_reflects m model.W Z model.no_keyword_topics model.vocab_size st.wf
    st.shape st.reflect doc_id position hd hp
  have hvw : ∀ v, 0 ≤ vecGet (sampleRemove m (tokenAt Z doc_id position)
      (tokenAt model.W doc_id position) doc_id).vocab_weights v :=
    fun v => (sweep_weight_nonneg hfit st v : 0 ≤ vecGet m.vocab_weights v)
  have hb : 0 < (sampleRemove m (tokenAt Z doc_id position)
      (tokenAt model.W doc_id position) doc_id).beta := by
    rw [show (sampleRemove m (tokenAt Z doc_id position)
      (tokenAt model.W doc_id position) doc_id).beta = model.beta from st.beta]
    exact hbeta
  have hV : 1 ≤ (sampleRemove m (tokenAt Z doc_id position)
      (tokenAt model.W doc_id position) doc_id).num_vocab := by
    rw [show (sampleRemove m (tokenAt Z doc_id position)
      (tokenAt model.W doc_id position) doc_id).num_vocab = model.vocab_size from st.num_vocab]
    omega
  have hiff : ∀ k, k < model.no_keyword_topics →
      (0 < vecGet (sample_z rcat m alpha (tokenAt Z doc_id position) s
          (tokenAt model.W doc_id position) doc_id).2.z_prob_vec k
        ↔ 0 < (countDKExcl model.W Z doc_id position doc_id k : ℝ) + vecGet alpha k) := by
    intro k hk
    rw [sample_z_weight st rcat alpha doc_id position s k hk]
    exact candidateWeight_pos_iff hex hvw hb hV alpha _ k
  refine ⟨hiff, fun halpha => ?_⟩
  have hpos : ∀ k, k < model.no_keyword_topics →
      0 < vecGet (sample_z rcat m alpha (tokenAt Z doc_id position) s
        (tokenAt model.W doc_id position) doc_id).2.z_prob_vec k :=
    fun k hk => (hiff k hk).mpr (add_pos_of_nonneg_of_pos (Nat.cast_nonneg _) (halpha k hk))
  refine ⟨hpos, ?_⟩
  have hlen : (sample_z rcat m alpha (tokenAt Z doc_id position) s
      (tokenAt model.W doc_id position) doc_id).2.z_prob_vec.length
      = model.no_keyword_topics := by
    rw [sample_z_z_prob_vec, (sampleWeights_spec _ _ _ _).2.2.1]
    exact st.z_prob_vec
  have hsum : (sample_z rcat m alpha (tokenAt Z doc_id position) s
      (tokenAt model.W doc_id position) doc_id).2.sum
      = (sample_z rcat m alpha (tokenAt Z doc_id position) s
        (tokenAt model.W doc_id position) doc_id).2.z_prob_vec.sum := rfl
  rw [hsum, list_sum_eq_sum_vecGet, hlen]
  exact Finset.sum_pos (fun k hk => hpos k (Finset.mem_range.mp hk))
    ⟨tokenAt Z doc_id position, Finset.mem_range.mpr hz⟩

/-- C6 amended, at the example corpus with `alpha = [1, 1]`: both candidate weights
of the first token are positive. -/
theorem C6_candidate_weights_positive_witness :
    WellFormed (exampleModel ℝ 1).W (exampleModel ℝ 1).Z (exampleModel ℝ 1).vocab_size
        (exampleModel ℝ 1).no_keyword_topics ∧
      FitsInt (exampleModel ℝ 1).W (exampleModel ℝ 1).vocab_size ∧
      (0 : ℝ) < (exampleModel ℝ 1).beta ∧
      0 < (sample_z (fun _ _ _ => 1)
        (initialize_common Real.log (read_data_common (exampleModel ℝ 1))) [1, 1] 0 0 0 0).2.sum :=
  ⟨by decide, by decide, by norm_num [exampleModel],
    ((C6_candidate_weights_positive (fun _ _ _ => 1) (exampleModel ℝ 1) (by decide) (by decide)
      (exampleModel ℝ 1).Z _ SweepReachable.init (by norm_num [exampleModel]) [1, 1] 0 0 0
      (by decide) (by decide)).2 (by
        intro k hk
        have hk' : k < 2 := hk
        interval_cases k <;> simp [vecGet])).2⟩

/-- C7, the claim as stated, fails in two ways.  In doubles the weighted
subtractions and additions of `sample_z` do not cancel: on the example corpus with
`beta = 0.1` and `alpha = [1, 1]`, after the calls on the tokens `(0,1)`, `(0,0)`,
`(0,1)` that draw the topics 0, 1, 1, the call on the token `(0,2)` (word 1, current
topic 0) leaves `n_k(0) = -2^(-51)` after the removal step, and with the draw 1
`n_k(0)` is still `-2^(-51)` after the add-back step.  And for the corpus of one
token with `INT_MAX` words, where the number of tokens plus `num_vocab` is `2^31`,
the cast at line 72 overflows, the weights are NaN, and `n_k(0)` is NaN after the
removal and after the add-back, which is not `>= 0`. -/
theorem C7_counterexample :
    WellFormed (dblModel (dblLit 1 10)).W (dblModel (dblLit 1 10)).Z
      (dblModel (dblLit 1 10)).vocab_size (dblModel (dblLit 1 10)).no_keyword_topics ∧
    FitsInt (dblModel (dblLit 1 10)).W (dblModel (dblLit 1 10)).vocab_size ∧
    SweepReachable dblLog (dblModel (dblLit 1 10)) driftZ (driftState (dblLit 1 10)) ∧
    (vecGet (sampleRemove (driftState (dblLit 1 10)) (tokenAt driftZ 0 2)
      (tokenAt (dblModel (dblLit 1 10)).W 0 2) 0).n_k 0).q = -1 / 2251799813685248 ∧
    (vecGet (sampleRemove (driftState (dblLit 1 10)) (tokenAt driftZ 0 2)
      (tokenAt (dblModel (dblLit 1 10)).W 0 2) 0).n_k 0).q < 0 ∧
    (vecGet (sample_z (fun _ _ _ => 1) (driftState (dblLit 1 10)) [1, 1] (tokenAt driftZ 0 2) 0
      (tokenAt (dblModel (dblLit 1 10)).W 0 2) 0).2.n_k 0).q = -1 / 2251799813685248 ∧
    (vecGet (sample_z (fun _ _ _ => 1) (driftState (dblLit 1 10)) [1, 1] (tokenAt driftZ 0 2) 0
      (tokenAt (dblModel (dblLit 1 10)).W 0 2) 0).2.n_k 0).q < 0 ∧
    WellFormed (overflowModel (WithNaN ℝ)).W (overflowModel (WithNaN ℝ)).Z
      (overflowModel (WithNaN ℝ)).vocab_size (overflowModel (WithNaN ℝ)).no_keyword_topics ∧
    numTokens (overflowModel (WithNaN ℝ)).W + (overflowModel (WithNaN ℝ)).vocab_size
      = 2147483648 ∧
    SweepReachable (nanLog Real.log) (overflowModel (WithNaN ℝ)) (overflowModel (WithNaN ℝ)).Z
      (initialize_common (nanLog Real.log) (read_data_common (overflowModel (WithNaN ℝ)))) ∧
    ¬ (0 ≤ vecGet (sampleRemove
      (initialize_common (nanLog Real.log) (read_data_common (overflowModel (WithNaN ℝ))))
      0 0 0).n_k 0) ∧
    ¬ (0 ≤ vecGet (sample_z (fun _ _ _ => 0)
      (initialize_common (nanLog Real.log) (read_data_common (overflowModel (WithNaN ℝ))))
      [1] 0 0 0 0).2.n_k 0) := by
  have hdbl : WellFormed (dblModel (dblLit 1 10)).W (dblModel (dblLit 1 10)).Z
        (dblModel (dblLit 1 10)).vocab_size (dblModel (dblLit 1 10)).no_keyword_topics ∧
      FitsInt (dblModel (dblLit 1 10)).W (dblModel (dblLit 1 10)).vocab_size ∧
      (vecGet (sampleRemove (driftState (dblLit 1 10)) (tokenAt driftZ 0 2)
        (tokenAt (dblModel (dblLit 1 10)).W 0 2) 0).n_k 0).q = -1 / 2251799813685248 ∧
      (vecGet (sampleRemove (driftState (dblLit 1 10)) (tokenAt driftZ 0 2)
        (tokenAt (dblModel (dblLit 1 10)).W 0 2) 0).n_k 0).q < 0 ∧
      (vecGet (sample_z (fun _ _ _ => 1) (driftState (dblLit 1 10)) [1, 1] (tokenAt driftZ 0 2)
        0 (tokenAt (dblModel (dblLit 1 10)).W 0 2) 0).2.n_k 0).q = -1 / 2251799813685248 ∧
      (vecGet (sample_z (fun _ _ _ => 1) (driftState (dblLit 1 10)) [1, 1] (tokenAt driftZ 0 2)
        0 (tokenAt (dblModel (dblLit 1 10)).W 0 2) 0).2.n_k 0).q < 0 := by
    decide!
  have h1 : vecGet (sampleRemove
      (initialize_common (nanLog Real.log) (read_data_common (overflowModel (WithNaN ℝ))))
      0 0 0).n_k 0 = WithNaN.nan := (wide_sample_z 2147483645 (le_refl _)).1
  have h2 : vecGet (sample_z (fun _ _ _ => 0)
      (initialize_common (nanLog Real.log) (read_data_common (overflowModel (WithNaN ℝ))))
      [1] 0 0 0 0).2.n_k 0 = WithNaN.nan := (wide_sample_z 2147483645 (le_refl _)).2.1
  refine ⟨hdbl.1, hdbl.2.1, drift_reachable _, hdbl.2.2.1, hdbl.2.2.2.1, hdbl.2.2.2.2.1,
    hdbl.2.2.2.2.2, (overflowModel_facts (WithNaN ℝ)).1, (overflowModel_facts (WithNaN ℝ)).2.2.1,
    SweepReachable.init, ?_, ?_⟩
  · rw [h1]
    exact withNaN_not_le_nan _
  · rw [h2]
    exact withNaN_not_le_nan _

/-- C7, amended: in exact real arithmetic no count goes negative.  For every state
of a sweep over a well-formed corpus whose number of tokens plus `num_vocab` is at
most `INT_MAX` (built by `initialize_common`, then updated only by `sample_z` calls
on tokens with their current topic), when `sample_z` is called on a token with its
current topic, every entry of `n_kv`, `n_dk`, `n_k` and `n_k_noWeight` is
non-negative after the removal step, while the candidate weights are evaluated, and
after the add-back step. -/
theorem C7_counts_nonnegative (rcat : List ℝ → ℝ → Nat → Nat) (model : Model ℝ)
    (hwf : WellFormed model.W model.Z model.vocab_size model.no_keyword_topics)
    (hfit : FitsInt model.W model.vocab_size)
    (Z : List (List Nat)) (m : LDAbase ℝ) (h : SweepReachable Real.log model Z m)
    (alpha : List ℝ) (doc_id position s : Nat)
    (hd : doc_id < model.W.length) (hp : position < docLen model.W doc_id) :
    TablesNonneg (sampleRemove m (tokenAt Z doc_id position)
      (tokenAt model.W doc_id position) doc_id) ∧
    TablesNonneg (sampleWeights (sampleRemove m (tokenAt Z doc_id position)
      (tokenAt model.W doc_id position) doc_id) alpha (tokenAt model.W doc_id position)
      doc_id) ∧
    TablesNonneg (sample_z rcat m alpha (tokenAt Z doc_id position) s
      (tokenAt model.W doc_id position) doc_id).2 := by
  have st := sweepReachable_state Real.log model hwf Z m h
  have hex := sampleRemove_reflects m model.W Z model.no_keyword_topics model.vocab_size st.wf
    st.shape st.reflect doc_id position hd hp
  have hvw : ∀ v, 0 ≤ vecGet (sampleRemove m (tokenAt Z doc_id position)
      (tokenAt model.W doc_id position) doc_id).vocab_weights v :=
    fun v => (sweep_weight_nonneg hfit st v : 0 ≤ vecGet m.vocab_weights v)
  have hn1 := tablesNonneg_of_reflectExcl hex hvw
  obtain ⟨_, hs1, _, _⟩ := sampleRemove_spec m model.W.length model.no_keyword_topics
    model.vocab_size st.shape (tokenAt Z doc_id position) (tokenAt model.W doc_id position)
    doc_id
  obtain ⟨hpar2, ht2, _, _, _⟩ := sampleWeights_spec (sampleRemove m (tokenAt Z doc_id position)
    (tokenAt model.W doc_id position) doc_id) alpha (tokenAt model.W doc_id position) doc_id
  have hs2 : TableShape (sampleWeights (sampleRemove m (tokenAt Z doc_id position)
      (tokenAt model.W doc_id position) doc_id) alpha (tokenAt model.W doc_id position)
      doc_id) model.W.length model.no_keyword_topics model.vocab_size :=
    ⟨by rw [ht2.n_kv]; exact hs1.n_kv, by rw [ht2.n_dk]; exact hs1.n_dk,
      by rw [ht2.n_k]; exact hs1.n_k, by rw [ht2.n_k_noWeight]; exact hs1.n_k_noWeight⟩
  have hn2 : TablesNonneg (sampleWeights (sampleRemove m (tokenAt Z doc_id position)
      (tokenAt model.W doc_id position) doc_id) alpha (tokenAt model.W doc_id position)
      doc_id) :=
    ⟨by rw [ht2.n_kv]; exact hn1.n_kv, by rw [ht2.n_dk]; exact hn1.n_dk,
      by rw [ht2.n_k]; exact hn1.n_k, by rw [ht2.n_k_noWeight]; exact hn1.n_k_noWeight⟩
  refine ⟨hn1, hn2, ?_⟩
  rw [sample_z_snd]
  obtain ⟨_, _, _, hshift3⟩ := sampleAdd_spec _ model.W.length model.no_keyword_topics
    model.vocab_size hs2 (drawnTopic rcat m alpha (tokenAt Z doc_id position)
      (tokenAt model.W doc_id position) doc_id) (tokenAt model.W doc_id position) doc_id
  refine tablesNonneg_of_add hshift3 (fun i j => ?_) (fun i j => ?_) (fun i => ?_) (fun i => ?_)
    ?_
  · rw [ht2.n_kv, hex.n_kv]
    exact mul_nonneg (hvw j) (Nat.cast_nonneg _)
  · rw [ht2.n_dk, hex.n_dk]
    exact Nat.cast_nonneg _
  · rw [ht2.n_k, hex.n_k]
    unfold weightKExcl
    refine Finset.sum_nonneg (fun d _ => Finset.sum_nonneg (fun p _ => ?_))
    split
    · exact hvw _
    · exact le_refl _
  · rw [ht2.n_k_noWeight, hex.n_k_noWeight]
    exact Nat.cast_nonneg _
  · rw [hpar2.vocab_weights]
    exact hvw _

/-- C7 amended, at the example corpus, for the first token of the first document. -/
theorem C7_counts_nonnegative_witness :
    WellFormed (exampleModel ℝ 1).W (exampleModel ℝ 1).Z (exampleModel ℝ 1).vocab_size
        (exampleModel ℝ 1).no_keyword_topics ∧
      FitsInt (exampleModel ℝ 1).W (exampleModel ℝ 1).vocab_size ∧
      TablesNonneg (sampleRemove
        (initialize_common Real.log (read_data_common (exampleModel ℝ 1))) 0 0 0) ∧
      TablesNonneg (sample_z (fun _ _ _ => 1)
        (initialize_common Real.log (read_data_common (exampleModel ℝ 1))) [1, 1] 0 0 0 0).2 :=
  ⟨by decide, by decide,
    (C7_counts_nonnegative (fun _ _ _ => 1) (exampleModel ℝ 1) (by decide) (by decide)
      (exampleModel ℝ 1).Z _ SweepReachable.init [1, 1] 0 0 0 (by decide) (by decide)).1,
    (C7_counts_nonnegative (fun _ _ _ => 1) (exampleModel ℝ 1) (by decide) (by decide)
      (exampleModel ℝ 1).Z _ SweepReachable.init [1, 1] 0 0 0 (by decide) (by decide)).2.2⟩

end SignClaims



/-! ## Weighting disabled -/

section Unweighted

variable {K : Type} [LinearOrderedField K] [FloorRing K]

end Unweighted



/-! ## Initialisation and configuration errors -/

section Configuration

variable {K : Type} [LinearOrderedField K] [FloorRing K]

end Configuration



/-! ## Positive priors -/

section PositivePriors

/-- With `beta > 0` and `num_vocab >= 1`, the denominator of every candidate weight
computed from tables that reflect the assignment without the token is positive. -/
theorem denominator_pos {m : LDAbase ℝ} {W Z : List (List Nat)} {d0 p0 : Nat}
    (hr : TablesReflectExcl m W Z d0 p0) (hvw : ∀ v, 0 ≤ vecGet m.vocab_weights v)
    (hbeta : 0 < m.beta) (hV : 1 ≤ m.num_vocab) (k : Nat) :
    0 < (m.num_vocab : ℝ) * m.beta + vecGet m.n_k k := by
  have hV' : (1 : ℝ) ≤ (m.num_vocab : ℝ) := by exact_mod_cast hV
  have hnk : 0 ≤ vecGet m.n_k k := by
    rw [hr.n_k]
    unfold weightKExcl
    refine Finset.sum_nonneg (fun d _ => Finset.sum_nonneg (fun p _ => ?_))
    split
    · exact hvw _
    · exact le_refl _
  exact add_pos_of_pos_of_nonneg (mul_pos (by linarith) hbeta) hnk

/-- C13, the claim as stated, fails in three ways.  In doubles the totals drift
below zero: on the example corpus with `beta = 1e-16` and `alpha = [1, 1]`, after
the calls on the tokens `(0,1)`, `(0,0)`, `(0,1)` that draw the topics 0, 1, 1, the
call on the token `(0,2)` (word 1, current topic 0) evaluates the denominator
`num_vocab * beta + n_k(0)` to `-1.4408920985006262e-16` and the candidate weight
`z_prob_vec(0)` to `-0.6940144935492304`.  In doubles the product of the priors underflows: on
the corpus of one token with `beta = 1e-200` and `alpha = [1e-200]` the only
candidate weight and the sum are `0`.  And for the corpus of one token with
`INT_MAX` words, where the number of tokens plus `num_vocab` is `2^31`, the cast at
line 72 overflows and the denominator, the candidate weight and the sum are NaN,
which is not `> 0`. -/
theorem C13_counterexample :
    WellFormed (dblModel (dblLit 1 (10 ^ 16))).W (dblModel (dblLit 1 (10 ^ 16))).Z
      (dblModel (dblLit 1 (10 ^ 16))).vocab_size
      (dblModel (dblLit 1 (10 ^ 16))).no_keyword_topics ∧
    1 ≤ (dblModel (dblLit 1 (10 ^ 16))).vocab_size ∧
    FitsInt (dblModel (dblLit 1 (10 ^ 16))).W (dblModel (dblLit 1 (10 ^ 16))).vocab_size ∧
    0 < (dblModel (dblLit 1 (10 ^ 16))).beta.q ∧
    0 < (vecGet ([1, 1] : List Dbl) 0).q ∧ 0 < (vecGet ([1, 1] : List Dbl) 1).q ∧
    SweepReachable dblLog (dblModel (dblLit 1 (10 ^ 16))) driftZ
      (driftState (dblLit 1 (10 ^ 16))) ∧
    (((sampleRemove (driftState (dblLit 1 (10 ^ 16))) (tokenAt driftZ 0 2)
          (tokenAt (dblModel (dblLit 1 (10 ^ 16))).W 0 2) 0).num_vocab : Dbl)
        * (sampleRemove (driftState (dblLit 1 (10 ^ 16))) (tokenAt driftZ 0 2)
          (tokenAt (dblModel (dblLit 1 (10 ^ 16))).W 0 2) 0).beta
        + vecGet (sampleRemove (driftState (dblLit 1 (10 ^ 16))) (tokenAt driftZ 0 2)
          (tokenAt (dblModel (dblLit 1 (10 ^ 16))).W 0 2) 0).n_k 0).q
      = -2922476373645491 / 20282409603651670423947251286016 ∧
    (vecGet (sample_z (fun _ _ _ => 1) (driftState (dblLit 1 (10 ^ 16))) [1, 1]
      (tokenAt driftZ 0 2) 0 (tokenAt (dblModel (dblLit 1 (10 ^ 16))).W 0 2)
        0).2.z_prob_vec 0).q = -6251126829076075 / 9007199254740992 ∧
    (vecGet (sample_z (fun _ _ _ => 1) (driftState (dblLit 1 (10 ^ 16))) [1, 1]
      (tokenAt driftZ 0 2) 0 (tokenAt (dblModel (dblLit 1 (10 ^ 16))).W 0 2)
        0).2.z_prob_vec 0).q < 0 ∧
    WellFormed (dblSingleModel (dblLit 1 (10 ^ 200))).W (dblSingleModel (dblLit 1 (10 ^ 200))).Z
      (dblSingleModel (dblLit 1 (10 ^ 200))).vocab_size
      (dblSingleModel (dblLit 1 (10 ^ 200))).no_keyword_topics ∧
    0 < (dblSingleModel (dblLit 1 (10 ^ 200))).beta.q ∧
    0 < (vecGet [dblLit 1 (10 ^ 200)] 0).q ∧
    (vecGet (sample_z (fun _ _ _ => 0)
      (initialize_common dblLog (read_data_common (dblSingleModel (dblLit 1 (10 ^ 200)))))
      [dblLit 1 (10 ^ 200)] 0 0 0 0).2.z_prob_vec 0).q = 0 ∧
    (sample_z (fun _ _ _ => 0)
      (initialize_common dblLog (read_data_common (dblSingleModel (dblLit 1 (10 ^ 200)))))
      [dblLit 1 (10 ^ 200)] 0 0 0 0).2.sum.q = 0 ∧
    WellFormed (overflowModel (WithNaN ℝ)).W (overflowModel (WithNaN ℝ)).Z
      (overflowModel (WithNaN ℝ)).vocab_size (overflowModel (WithNaN ℝ)).no_keyword_topics ∧
    numTokens (overflowModel (WithNaN ℝ)).W + (overflowModel (WithNaN ℝ)).vocab_size
      = 2147483648 ∧
    0 < (overflowModel (WithNaN ℝ)).beta ∧
    0 < vecGet ([1] : List (WithNaN ℝ)) 0 ∧
    ¬ (0 < ((sampleRemove (initialize_common (nanLog Real.log)
          (read_data_common (overflowModel (WithNaN ℝ)))) 0 0 0).num_vocab : WithNaN ℝ)
        * (sampleRemove (initialize_common (nanLog Real.log)
          (read_data_common (overflowModel (WithNaN ℝ)))) 0 0 0).beta
        + vecGet (sampleRemove (initialize_common (nanLog Real.log)
          (read_data_common (overflowModel (WithNaN ℝ)))) 0 0 0).n_k 0) ∧
    ¬ (0 < vecGet (sample_z (fun _ _ _ => 0)
      (initialize_common (nanLog Real.log) (read_data_common (overflowModel (WithNaN ℝ))))
      [1] 0 0 0 0).2.z_prob_vec 0) ∧
    ¬ (0 < (sample_z (fun _ _ _ => 0)
      (initialize_common (nanLog Real.log) (read_data_common (overflowModel (WithNaN ℝ))))
      [1] 0 0 0 0).2.sum) := by
  have hdrift : WellFormed (dblModel (dblLit 1 (10 ^ 16))).W (dblModel (dblLit 1 (10 ^ 16))).Z
        (dblModel (dblLit 1 (10 ^ 16))).vocab_size
        (dblModel (dblLit 1 (10 ^ 16))).no_keyword_topics ∧
      1 ≤ (dblModel (dblLit 1 (10 ^ 16))).vocab_size ∧
      FitsInt (dblModel (dblLit 1 (10 ^ 16))).W (dblModel (dblLit 1 (10 ^ 16))).vocab_size ∧
      0 < (dblModel (dblLit 1 (10 ^ 16))).beta.q ∧
      0 < (vecGet ([1, 1] : List Dbl) 0).q ∧ 0 < (vecGet ([1, 1] : List Dbl) 1).q ∧
      (((sampleRemove (driftState (dblLit 1 (10 ^ 16))) (tokenAt driftZ 0 2)
            (tokenAt (dblModel (dblLit 1 (10 ^ 16))).W 0 2) 0).num_vocab : Dbl)
          * (sampleRemove (driftState (dblLit 1 (10 ^ 16))) (tokenAt driftZ 0 2)
            (tokenAt (dblModel (dblLit 1 (10 ^ 16))).W 0 2) 0).beta
          + vecGet (sampleRemove (driftState (dblLit 1 (10 ^ 16))) (tokenAt driftZ 0 2)
            (tokenAt (dblModel (dblLit 1 (10 ^ 16))).W 0 2) 0).n_k 0).q
        = -2922476373645491 / 20282409603651670423947251286016 ∧
      (vecGet (sample_z (fun _ _ _ => 1) (driftState (dblLit 1 (10 ^ 16))) [1, 1]
        (tokenAt driftZ 0 2) 0 (tokenAt (dblModel (dblLit 1 (10 ^ 16))).W 0 2)
          0).2.z_prob_vec 0).q = -6251126829076075 / 9007199254740992 ∧
      (vecGet (sample_z (fun _ _ _ => 1) (driftState (dblLit 1 (10 ^ 16))) [1, 1]
        (tokenAt driftZ 0 2) 0 (tokenAt (dblModel (dblLit 1 (10 ^ 16))).W 0 2)
          0).2.z_prob_vec 0).q < 0 := by
    decide!
  have hunder : WellFormed (dblSingleModel (dblLit 1 (10 ^ 200))).W
        (dblSingleModel (dblLit 1 (10 ^ 200))).Z
        (dblSingleModel (dblLit 1 (10 ^ 200))).vocab_size
        (dblSingleModel (dblLit 1 (10 ^ 200))).no_keyword_topics ∧
      0 < (dblSingleModel (dblLit 1 (10 ^ 200))).beta.q ∧
      0 < (vecGet [dblLit 1 (10 ^ 200)] 0).q ∧
      (vecGet (sample_z (fun _ _ _ => 0)
        (initialize_common dblLog (read_data_common (dblSingleModel (dblLit 1 (10 ^ 200)))))
        [dblLit 1 (10 ^ 200)] 0 0 0 0).2.z_prob_vec 0).q = 0 ∧
      (sample_z (fun _ _ _ => 0)
        (initialize_common dblLog (read_data_common (dblSingleModel (dblLit 1 (10 ^ 200)))))
        [dblLit 1 (10 ^ 200)] 0 0 0 0).2.sum.q = 0 := by
    decide!
  have hbeta : 0 < (overflowModel (WithNaN ℝ)).beta := by
    show (0 : ℝ) < 1 / ((10 : Nat) : ℝ)
    norm_num
  have halpha : 0 < vecGet ([1] : List (WithNaN ℝ)) 0 := by
    show (0 : ℝ) < 1
    norm_num
  have h1 := (wide_sample_z 2147483645 (le_refl _)).2.2.1
  have h2 : vecGet (sample_z (fun _ _ _ => 0)
      (initialize_common (nanLog Real.log) (read_data_common (overflowModel (WithNaN ℝ))))
      [1] 0 0 0 0).2.z_prob_vec 0 = WithNaN.nan :=
    (wide_sample_z 2147483645 (le_refl _)).2.2.2.1
  have h3 : (sample_z (fun _ _ _ => 0)
      (initialize_common (nanLog Real.log) (read_data_common (overflowModel (WithNaN ℝ))))
      [1] 0 0 0 0).2.sum = WithNaN.nan := (wide_sample_z 2147483645 (le_refl _)).2.2.2.2
  refine ⟨hdrift.1, hdrift.2.1, hdrift.2.2.1, hdrift.2.2.2.1, hdrift.2.2.2.2.1,
    hdrift.2.2.2.2.2.1, drift_reachable _, hdrift.2.2.2.2.2.2.1, hdrift.2.2.2.2.2.2.2.1,
    hdrift.2.2.2.2.2.2.2.2, hunder.1, hunder.2.1, hunder.2.2.1, hunder.2.2.2.1, hunder.2.2.2.2,
    (overflowModel_facts (WithNaN ℝ)).1, (overflowModel_facts (WithNaN ℝ)).2.2.1, hbeta, halpha,
    ?_, ?_, ?_⟩
  · intro h
    have e : overflowModel (WithNaN ℝ) = wideModel (WithNaN ℝ) 2147483645 := rfl
    rw [e, h1] at h
    exact withNaN_not_lt_nan _ h
  · rw [h2]
    exact withNaN_not_lt_nan _
  · rw [h3]
    exact withNaN_not_lt_nan _

/-- C13, amended: strict positivity and a guarded division under positive priors,
in exact real arithmetic.  For every state of a sweep over a well-formed corpus
whose number of tokens plus `num_vocab` is at most `INT_MAX`, every token of it
passed to `sample_z` with its current topic, every `beta > 0` and every alpha with
`alpha(k) > 0` for all topics `k`, each denominator `num_vocab * beta + n_k(k)` evaluated in `sample_z`
(on the tables after the removal) is strictly positive, each candidate weight
`z_prob_vec(k)` is the quotient by that denominator and is strictly positive, and
the sum of the weights is strictly positive.  (`num_vocab >= 1` holds because the
word index of the token is below `num_vocab`.) -/
theorem C13_positive_priors (rcat : List ℝ → ℝ → Nat → Nat) (model : Model ℝ)
    (hwf : WellFormed model.W model.Z model.vocab_size model.no_keyword_topics)
    (hfit : FitsInt model.W model.vocab_size)
    (Z : List (List Nat)) (m : LDAbase ℝ) (h : SweepReachable Real.log model Z m)
    (hbeta : 0 < model.beta) (alpha : List ℝ)
    (halpha : ∀ k, k < model.no_keyword_topics → 0 < vecGet alpha k)
    (doc_id position s : Nat)
    (hd : doc_id < model.W.length) (hp : position < docLen model.W doc_id) :
    1 ≤ model.vocab_size ∧
    (∀ k, k < model.no_keyword_topics →
      0 < ((sampleRemove m (tokenAt Z doc_id position)
            (tokenAt model.W doc_id position) doc_id).num_vocab : ℝ)
          * (sampleRemove m (tokenAt Z doc_id position)
            (tokenAt model.W doc_id position) doc_id).beta
          + vecGet (sampleRemove m (tokenAt Z doc_id position)
            (tokenAt model.W doc_id position) doc_id).n_k k) ∧
    (∀ k, k < model.no_keyword_topics →
      vecGet (sample_z rcat m alpha (tokenAt Z doc_id position) s
          (tokenAt model.W doc_id position) doc_id).2.z_prob_vec k
        = candidateWeight (sampleRemove m (tokenAt Z doc_id position)
            (tokenAt model.W doc_id position) doc_id) alpha
            (tokenAt model.W doc_id position) doc_id k ∧
      0 < vecGet (sample_z rcat m alpha (tokenAt Z doc_id position) s
          (tokenAt model.W doc_id position) doc_id).2.z_prob_vec k) ∧
    0 < (sample_z rcat m alpha (tokenAt Z doc_id position) s
        (tokenAt model.W doc_id position) doc_id).2.sum := by
  have st := sweepReachable_state Real.log model hwf Z m h
  obtain ⟨hw, hz⟩ := (st.wf.2 doc_id hd).2 position hp
  have hV1 : 1 ≤ model.vocab_size := by omega
  have hex := sampleRemove_reflects m model.W Z model.no_keyword_topics model.vocab_size st.wf
    st.shape st.reflect doc_id position hd hp
  have hvw : ∀ v, 0 ≤ vecGet (sampleRemove m (tokenAt Z doc_id position)
      (tokenAt model.W doc_id position) doc_id).vocab_weights v :=
    fun v => (sweep_weight_nonneg hfit st v : 0 ≤ vecGet m.vocab_weights v)
  have hb : 0 < (sampleRemove m (tokenAt Z doc_id position)
      (tokenAt model.W doc_id position) doc_id).beta := by
    rw [show (sampleRemove m (tokenAt Z doc_id position)
      (tokenAt model.W doc_id position) doc_id).beta = model.beta from st.beta]
    exact hbeta
  have hV : 1 ≤ (sampleRemove m (tokenAt Z doc_id position)
      (tokenAt model.W doc_id position) doc_id).num_vocab := by
    rw [show (sampleRemove m (tokenAt Z doc_id position)
      (tokenAt model.W doc_id position) doc_id).num_vocab = model.vocab_size from st.num_vocab]
    exact hV1
  have hpos : ∀ k, k < model.no_keyword_topics →
      0 < vecGet (sample_z rcat m alpha (tokenAt Z doc_id position) s
        (tokenAt model.W doc_id position) doc_id).2.z_prob_vec k := by
    intro k hk
    rw [sample_z_weight st rcat alpha doc_id position s k hk]
    exact (candidateWeight_pos_iff hex hvw hb hV alpha _ k).mpr
      (add_pos_of_nonneg_of_pos (Nat.cast_nonneg _) (halpha k hk))
  refine ⟨hV1, fun k _ => denominator_pos hex hvw hb hV k,
    fun k hk => ⟨sample_z_weight st rcat alpha doc_id position s k hk, hpos k hk⟩, ?_⟩
  have hlen : (sample_z rcat m alpha (tokenAt Z doc_id position) s
      (tokenAt model.W doc_id position) doc_id).2.z_prob_vec.length
      = model.no_keyword_topics := by
    rw [sample_z_z_prob_vec, (sampleWeights_spec _ _ _ _).2.2.1]
    exact st.z_prob_vec
  have hsum : (sample_z rcat m alpha (tokenAt Z doc_id position) s
      (tokenAt model.W doc_id position) doc_id).2.sum
      = (sample_z rcat m alpha (tokenAt Z doc_id position) s
        (tokenAt model.W doc_id position) doc_id).2.z_prob_vec.sum := rfl
  rw [hsum, list_sum_eq_sum_vecGet, hlen]
  exact Finset.sum_pos (fun k hk => hpos k (Finset.mem_range.mp hk))
    ⟨tokenAt Z doc_id position, Finset.mem_range.mpr hz⟩

/-- C13 amended, at the example corpus with `alpha = [1, 1]`, for the last token of
the second document. -/
theorem C13_positive_priors_witness :
    WellFormed (exampleModel ℝ 1).W (exampleModel ℝ 1).Z (exampleModel ℝ 1).vocab_size
        (exampleModel ℝ 1).no_keyword_topics ∧
      FitsInt (exampleModel ℝ 1).W (exampleModel ℝ 1).vocab_size ∧
      (0 : ℝ) < (exampleModel ℝ 1).beta ∧
      0 < vecGet (sample_z (fun _ _ _ => 0)
        (initialize_common Real.log (read_data_common (exampleModel ℝ 1))) [1, 1] 1 0 0
          1).2.z_prob_vec 0 :=
  ⟨by decide, by decide, by norm_num [exampleModel],
    ((C13_positive_priors (fun _ _ _ => 0) (exampleModel ℝ 1) (by decide) (by decide)
      (exampleModel ℝ 1).Z _ SweepReachable.init (by norm_num [exampleModel]) [1, 1]
      (by
        intro k hk
        have hk' : k < 2 := hk
        interval_cases k <;> simp [vecGet])
      1 1 0 (by decide) (by decide)).2.2.1 0 (by decide)).2⟩

end PositivePriors



/-! ## The candidate weights ignore the current topic of the token -/

section Independence

variable {K : Type} [LinearOrderedField K] [FloorRing K]

end Independence



section IndependenceClaims

variable {K : Type} [LinearOrderedField K] [FloorRing K]

end IndependenceClaims



/-! ## The net effect of `sample_z` on the tables -/

section NetEffect

variable {K : Type} [LinearOrderedField K] [FloorRing K]

omit [FloorRing K] in
/-- Every entry after `sample_z` is the entry before, minus the contribution of the
token under the old topic, plus its contribution under the drawn topic. -/
theorem sample_z_entries (rcat : List K → K → Nat → Nat) (m : LDAbase K) (alpha : List K)
    (z s w doc_id D T V : Nat) (hs : TableShape m D T V) :
    (∀ k v, matGet (sample_z rcat m alpha z s w doc_id).2.n_kv k v
      = matGet m.n_kv k v
        + (if (k = z ∧ v = w) ∧ (z < T ∧ w < V) then -1 * vecGet m.vocab_weights w else 0)
        + (if (k = (sample_z rcat m alpha z s w doc_id).1 ∧ v = w)
              ∧ ((sample_z rcat m alpha z s w doc_id).1 < T ∧ w < V)
            then 1 * vecGet m.vocab_weights w else 0)) ∧
    (∀ k, vecGet (sample_z rcat m alpha z s w doc_id).2.n_k k
      = vecGet m.n_k k
        + (if k = z ∧ z < T then -1 * vecGet m.vocab_weights w else 0)
        + (if k = (sample_z rcat m alpha z s w doc_id).1
              ∧ (sample_z rcat m alpha z s w doc_id).1 < T
            then 1 * vecGet m.vocab_weights w else 0)) ∧
    (∀ k, vecGet (sample_z rcat m alpha z s w doc_id).2.n_k_noWeight k
      = vecGet m.n_k_noWeight k
        + (if k = z ∧ z < T then -1 else 0)
        + (if k = (sample_z rcat m alpha z s w doc_id).1
              ∧ (sample_z rcat m alpha z s w doc_id).1 < T then 1 else 0)) ∧
    (∀ a k, matGet (sample_z rcat m alpha z s w doc_id).2.n_dk a k
      = matGet m.n_dk a k
        + (if (a = doc_id ∧ k = z) ∧ (doc_id < D ∧ z < T) then -1 else 0)
        + (if (a = doc_id ∧ k = (sample_z rcat m alpha z s w doc_id).1)
              ∧ (doc_id < D ∧ (sample_z rcat m alpha z s w doc_id).1 < T) then 1 else 0)) := by
  rw [sample_z_snd, sample_z_fst]
  obtain ⟨hp1, hs1, _, hshift1⟩ := sampleRemove_spec m D T V hs z w doc_id
  obtain ⟨hp2, ht2, _, _, _⟩ := sampleWeights_spec (sampleRemove m z w doc_id) alpha w doc_id
  have hs2 : TableShape (sampleWeights (sampleRemove m z w doc_id) alpha w doc_id) D T V :=
    ⟨by rw [ht2.n_kv]; exact hs1.n_kv, by rw [ht2.n_dk]; exact hs1.n_dk,
      by rw [ht2.n_k]; exact hs1.n_k, by rw [ht2.n_k_noWeight]; exact hs1.n_k_noWeight⟩
  obtain ⟨_, _, _, hshift3⟩ :=
    sampleAdd_spec _ D T V hs2 (drawnTopic rcat m alpha z w doc_id) w doc_id
  have hvw : (sampleWeights (sampleRemove m z w doc_id) alpha w doc_id).vocab_weights
      = m.vocab_weights := hp2.vocab_weights.trans hp1.vocab_weights
  refine ⟨fun k v => ?_, fun k => ?_, fun k => ?_, fun a k => ?_⟩
  · rw [hshift3.n_kv, ht2.n_kv, hshift1.n_kv, hvw]
  · rw [hshift3.n_k, ht2.n_k, hshift1.n_k, hvw]
  · rw [hshift3.n_k_noWeight, ht2.n_k_noWeight, hshift1.n_k_noWeight]
  · rw [hshift3.n_dk, ht2.n_dk, hshift1.n_dk]

omit [FloorRing K] in
/-- The members that `sample_z` only reads are unchanged by it. -/
theorem sample_z_sameParams (rcat : List K → K → Nat → Nat) (m : LDAbase K) (alpha : List K)
    (z s w doc_id : Nat) : SameParams m (sample_z rcat m alpha z s w doc_id).2 := by
  rw [sample_z_snd]
  have hp1 : SameParams m (sampleRemove m z w doc_id) :=
    ⟨rfl, rfl, rfl, rfl, rfl, rfl, rfl, rfl, rfl, rfl⟩
  have hp2 := (sampleWeights_spec (sampleRemove m z w doc_id) alpha w doc_id).1
  have hp3 : SameParams (sampleWeights (sampleRemove m z w doc_id) alpha w doc_id)
      (sampleAdd (sampleWeights (sampleRemove m z w doc_id) alpha w doc_id)
        (drawnTopic rcat m alpha z w doc_id) w doc_id) :=
    ⟨rfl, rfl, rfl, rfl, rfl, rfl, rfl, rfl, rfl, rfl⟩
  exact sameParams_trans hp1 (sameParams_trans hp2 hp3)

omit [FloorRing K] in
theorem getD_matAdd_ne (M : List (List K)) (i j a : Nat) (x : K) (h : a ≠ i) :
    (matAdd M i j x).getD a [] = M.getD a [] := by
  have hia : i ≠ a := fun e => h e.symm
  simp [matAdd, List.getElem?_set_ne hia]

omit [FloorRing K] in
/-- The rows of `n_dk` of the other documents are the same lists after `sample_z`. -/
theorem sample_z_other_rows (rcat : List K → K → Nat → Nat) (m : LDAbase K) (alpha : List K)
    (z s w doc_id a : Nat) (h : a ≠ doc_id) :
    (sample_z rcat m alpha z s w doc_id).2.n_dk.getD a [] = m.n_dk.getD a [] := by
  rw [sample_z_snd]
  have ht2 := (sampleWeights_spec (sampleRemove m z w doc_id) alpha w doc_id).2.1
  have e3 : (sampleAdd (sampleWeights (sampleRemove m z w doc_id) alpha w doc_id)
      (drawnTopic rcat m alpha z w doc_id) w doc_id).n_dk
      = matAdd (sampleWeights (sampleRemove m z w doc_id) alpha w doc_id).n_dk doc_id
          (drawnTopic rcat m alpha z w doc_id) 1 := rfl
  have e1 : (sampleRemove m z w doc_id).n_dk = matSub m.n_dk doc_id z 1 := rfl
  rw [e3, getD_matAdd_ne _ _ _ _ _ h, ht2.n_dk, e1, matSub_eq_matAdd,
    getD_matAdd_ne _ _ _ _ _ h]

end NetEffect



section NetEffectClaims

variable {K : Type} [LinearOrderedField K]

/-- C15: drawing the same topic is a no-op on the tables.  For every object with
tables of the proper dimensions and every in-range `z`, `w`, `doc_id`, if the draw
inside `sample_z` returns `z`, then after `sample_z` the four tables `n_kv`, `n_dk`,
`n_k`, `n_k_noWeight` are equal (in exact arithmetic) to their values before the
call, and the returned value is `z`. -/
theorem C15_same_topic_is_noop (rcat : List K → K → Nat → Nat) (m : LDAbase K)
    (alpha : List K) (z s w doc_id D T V : Nat) (hs : TableShape m D T V)
    (_hz : z < T) (_hw : w < V) (_hdoc : doc_id < D)
    (hdraw : drawnTopic rcat m alpha z w doc_id = z) :
    (sample_z rcat m alpha z s w doc_id).2.n_kv = m.n_kv ∧
    (sample_z rcat m alpha z s w doc_id).2.n_dk = m.n_dk ∧
    (sample_z rcat m alpha z s w doc_id).2.n_k = m.n_k ∧
    (sample_z rcat m alpha z s w doc_id).2.n_k_noWeight = m.n_k_noWeight ∧
    (sample_z rcat m alpha z s w doc_id).1 = z := by
  have hs' := sample_z_shape rcat m alpha z s w doc_id D T V hs
  obtain ⟨ekv, ek, ekn, edk⟩ := sample_z_entries rcat m alpha z s w doc_id D T V hs
  have hfst : (sample_z rcat m alpha z s w doc_id).1 = z := by rw [sample_z_fst]; exact hdraw
  refine ⟨mat_ext hs'.n_kv hs.n_kv (fun k v _ _ => ?_),
    mat_ext hs'.n_dk hs.n_dk (fun a k _ _ => ?_),
    vec_ext (by rw [hs'.n_k, hs.n_k]) (fun k _ => ?_),
    vec_ext (by rw [hs'.n_k_noWeight, hs.n_k_noWeight]) (fun k _ => ?_), hfst⟩
  · rw [ekv, hfst]
    split_ifs <;> ring
  · rw [edk, hfst]
    split_ifs <;> ring
  · rw [ek, hfst]
    split_ifs <;> ring
  · rw [ekn, hfst]
    split_ifs <;> ring

/-- C15 at the example corpus: the first token of the first document has topic 0
and the draw returns 0. -/
theorem C15_same_topic_is_noop_witness :
    (sample_z (fun _ _ _ => 0)
        (initialize_common Real.log (read_data_common (exampleModel ℝ 1))) [1, 1] 0 0 0 0).2.n_kv
      = (initialize_common Real.log (read_data_common (exampleModel ℝ 1))).n_kv :=
  (C15_same_topic_is_noop (fun _ _ _ => 0)
    (initialize_common Real.log (read_data_common (exampleModel ℝ 1))) [1, 1] 0 0 0 0 2 2 3
    (initialize_common_params Real.log (exampleModel ℝ 1)).2.2.2.2.2.2
    (by decide) (by decide) (by decide) rfl).1

/-- C16: the frame of `sample_z`.  For every object with tables of the proper
dimensions and every in-range `z`, `w`, `doc_id`, with `new_z` the drawn topic,
`sample_z` changes `n_kv` only at `(z,w)` and `(new_z,w)`, `n_dk` only at
`(doc_id,z)` and `(doc_id,new_z)`, `n_k` and `n_k_noWeight` only at `z` and `new_z`;
it leaves the dimensions of the tables, `vocab_weights`, `beta`, `num_vocab` and
`num_topics` unchanged; every row of `n_dk` of a document other than `doc_id` and
every column of `n_kv` of a word other than `w` is the same before and after. -/
theorem C16_sample_z_frame (rcat : List K → K → Nat → Nat) (m : LDAbase K)
    (alpha : List K) (z s w doc_id D T V : Nat) (hs : TableShape m D T V)
    (_hz : z < T) (_hw : w < V) (_hdoc : doc_id < D) :
    (∀ k v, ¬ (v = w ∧ (k = z ∨ k = (sample_z rcat m alpha z s w doc_id).1)) →
      matGet (sample_z rcat m alpha z s w doc_id).2.n_kv k v = matGet m.n_kv k v) ∧
    (∀ a k, ¬ (a = doc_id ∧ (k = z ∨ k = (sample_z rcat m alpha z s w doc_id).1)) →
      matGet (sample_z rcat m alpha z s w doc_id).2.n_dk a k = matGet m.n_dk a k) ∧
    (∀ k, k ≠ z → k ≠ (sample_z rcat m alpha z s w doc_id).1 →
      vecGet (sample_z rcat m alpha z s w doc_id).2.n_k k = vecGet m.n_k k ∧
      vecGet (sample_z rcat m alpha z s w doc_id).2.n_k_noWeight k
        = vecGet m.n_k_noWeight k) ∧
    TableShape (sample_z rcat m alpha z s w doc_id).2 D T V ∧
    (sample_z rcat m alpha z s w doc_id).2.vocab_weights = m.vocab_weights ∧
    (sample_z rcat m alpha z s w doc_id).2.beta = m.beta ∧
    (sample_z rcat m alpha z s w doc_id).2.num_vocab = m.num_vocab ∧
    (sample_z rcat m alpha z s w doc_id).2.num_topics = m.num_topics ∧
    (∀ a, a ≠ doc_id →
      (sample_z rcat m alpha z s w doc_id).2.n_dk.getD a [] = m.n_dk.getD a []) ∧
    (∀ v, v ≠ w → ∀ k,
      matGet (sample_z rcat m alpha z s w doc_id).2.n_kv k v = matGet m.n_kv k v) := by
  obtain ⟨ekv, ek, ekn, edk⟩ := sample_z_entries rcat m alpha z s w doc_id D T V hs
  have hpar := sample_z_sameParams rcat m alpha z s w doc_id
  refine ⟨fun k v h => ?_, fun a k h => ?_, fun k h1 h2 => ⟨?_, ?_⟩,
    sample_z_shape rcat m alpha z s w doc_id D T V hs, hpar.vocab_weights, hpar.beta,
    hpar.num_vocab, hpar.num_topics,
    fun a h => sample_z_other_rows rcat m alpha z s w doc_id a h, fun v h k => ?_⟩
  · rw [ekv, if_neg (fun x => h ⟨x.1.2, Or.inl x.1.1⟩),
      if_neg (fun x => h ⟨x.1.2, Or.inr x.1.1⟩), add_zero, add_zero]
  · rw [edk, if_neg (fun x => h ⟨x.1.1, Or.inl x.1.2⟩),
      if_neg (fun x => h ⟨x.1.1, Or.inr x.1.2⟩), add_zero, add_zero]
  · rw [ek, if_neg (fun x => h1 x.1), if_neg (fun x => h2 x.1), add_zero, add_zero]
  · rw [ekn, if_neg (fun x => h1 x.1), if_neg (fun x => h2 x.1), add_zero, add_zero]
  · rw [ekv, if_neg (fun x => h x.1.2), if_neg (fun x => h x.1.2), add_zero, add_zero]

/-- C16 at the example corpus: resampling the first token of the first document
leaves the row of the second document in `n_dk` as it was. -/
theorem C16_sample_z_frame_witness :
    (sample_z (fun _ _ _ => 1)
        (initialize_common Real.log (read_data_common (exampleModel ℝ 1))) [1, 1] 0 0 0
          0).2.n_dk.getD 1 []
      = (initialize_common Real.log (read_data_common (exampleModel ℝ 1))).n_dk.getD 1 [] :=
  (C16_sample_z_frame (fun _ _ _ => 1)
    (initialize_common Real.log (read_data_common (exampleModel ℝ 1))) [1, 1] 0 0 0 0 2 2 3
    (initialize_common_params Real.log (exampleModel ℝ 1)).2.2.2.2.2.2
    (by decide) (by decide) (by decide)).2.2.2.2.2.2.2.2.1 1 (by decide)

end NetEffectClaims



/-! ## The smoothed word probabilities -/

section Normalisation

/-- With weighting enabled, two to the power minus the weight of `v` is the smoothed
probability of `v`. -/
theorem two_rpow_neg_weight (model : Model ℝ) (hfit : FitsInt model.W model.vocab_size)
    (hu : model.use_weights ≠ 0) (v : Nat) (hv : v < model.vocab_size) :
    (2 : ℝ) ^ (- vecGet (initialize_common Real.log (read_data_common model)).vocab_weights v)
      = ((1 + occurrences model.W v : Nat) : ℝ)
        / ((model.vocab_size + ∑ u ∈ range model.vocab_size, occurrences model.W u : Nat) : ℝ) := by
  have hnum : (0 : ℝ) < ((1 + occurrences model.W v : Nat) : ℝ) := by
    exact_mod_cast (by omega : 0 < 1 + occurrences model.W v)
  have hden : (0 : ℝ) < ((model.vocab_size
      + ∑ u ∈ range model.vocab_size, occurrences model.W u : Nat) : ℝ) := by
    exact_mod_cast (by omega : 0 < model.vocab_size
      + ∑ u ∈ range model.vocab_size, occurrences model.W u)
  rw [initialize_common_weight_on Real.log model hfit hu v hv, neg_div, neg_neg,
    Real.log_div_log]
  exact Real.rpow_logb (by norm_num) (by norm_num) (div_pos hnum hden)

/-- C17, the claim as stated, fails in two ways.  For the empty vocabulary (the
corpus without documents and words) all word indices are in range, `total_words`
is `0 = 0 + 0`, and the sum over no words is `0`, not `1`.  And for the corpus of
one token with `INT_MAX` words all word indices are in range and the number of
tokens plus `num_vocab` is `2^31`, but the cast at line 72 stores
`total_words = INT_MIN`. -/
theorem C17_counterexample :
    (emptyModel ℝ 1).use_weights ≠ 0 ∧
    WordsInRange (emptyModel ℝ 1).W (emptyModel ℝ 1).vocab_size ∧
    (initialize_common Real.log (read_data_common (emptyModel ℝ 1))).total_words
      = ((numTokens (emptyModel ℝ 1).W + (emptyModel ℝ 1).vocab_size : Nat) : Int) ∧
    ∑ v ∈ range (emptyModel ℝ 1).vocab_size,
      (2 : ℝ) ^ (- vecGet
        (initialize_common Real.log (read_data_common (emptyModel ℝ 1))).vocab_weights v) ≠ 1 ∧
    (overflowModel ℝ).use_weights ≠ 0 ∧
    WordsInRange (overflowModel ℝ).W (overflowModel ℝ).vocab_size ∧
    1 ≤ (overflowModel ℝ).vocab_size ∧
    numTokens (overflowModel ℝ).W + (overflowModel ℝ).vocab_size = 2147483648 ∧
    (initialize_common Real.log (read_data_common (overflowModel ℝ))).total_words
      = -2147483648 ∧
    (initialize_common Real.log (read_data_common (overflowModel ℝ))).total_words
      ≠ ((numTokens (overflowModel ℝ).W + (overflowModel ℝ).vocab_size : Nat) : Int) := by
  refine ⟨by decide, by decide, ?_, ?_, show (1 : Int) ≠ 0 by decide,
    (overflowModel_facts ℝ).2.1, show 1 ≤ 2147483647 by decide, (overflowModel_facts ℝ).2.2.1,
    overflow_total_words, ?_⟩
  · rw [(initialize_common_params Real.log (emptyModel ℝ 1)).2.2.2.1,
      truncToInt_natCast _ (fitsInt_bound (by decide))]
    rfl
  · have hV : (emptyModel ℝ 1).vocab_size = 0 := rfl
    rw [hV, Finset.sum_range_zero]
    norm_num
  · rw [overflow_total_words, (overflowModel_facts ℝ).2.2.1]
    decide

/-- C17, amended: with weighting enabled, for every corpus with `num_vocab >= 1`,
all word indices below `num_vocab` and number of tokens plus `num_vocab` at most
`INT_MAX`, `total_words` computed by `initialize_common` equals the number of
tokens plus `num_vocab`, and the sum over all words `v` of `2^(-vocab_weights(v))`
equals `1`. -/
theorem C17_probabilities_normalised (model : Model ℝ) (hu : model.use_weights ≠ 0)
    (hw : WordsInRange model.W model.vocab_size) (hV : 1 ≤ model.vocab_size)
    (hfit : FitsInt model.W model.vocab_size) :
    (initialize_common Real.log (read_data_common model)).total_words
      = ((numTokens model.W + model.vocab_size : Nat) : Int) ∧
    ∑ v ∈ range model.vocab_size,
      (2 : ℝ) ^ (- vecGet (initialize_common Real.log (read_data_common model)).vocab_weights v)
      = 1 := by
  constructor
  · rw [(initialize_common_params Real.log model).2.2.2.1,
      truncToInt_natCast _ (fitsInt_bound hfit),
      sum_occurrences model.W model.vocab_size hw, Nat.add_comm]
  · have hden : ((model.vocab_size
        + ∑ u ∈ range model.vocab_size, occurrences model.W u : Nat) : ℝ) ≠ 0 := by
      exact_mod_cast (by omega : model.vocab_size
        + ∑ u ∈ range model.vocab_size, occurrences model.W u ≠ 0)
    rw [Finset.sum_congr rfl
        (fun v hv => two_rpow_neg_weight model hfit hu v (Finset.mem_range.mp hv)),
      ← Finset.sum_div]
    have hsum : ∑ v ∈ range model.vocab_size, ((1 + occurrences model.W v : Nat) : ℝ)
        = ((model.vocab_size + ∑ u ∈ range model.vocab_size, occurrences model.W u : Nat) : ℝ) := by
      push_cast
      rw [Finset.sum_add_distrib]
      simp
    rw [hsum, div_self hden]

/-- C17 amended, at the example corpus: five tokens, three words. -/
theorem C17_probabilities_normalised_witness :
    (exampleModel ℝ 1).use_weights ≠ 0 ∧
      WordsInRange (exampleModel ℝ 1).W (exampleModel ℝ 1).vocab_size ∧
      FitsInt (exampleModel ℝ 1).W (exampleModel ℝ 1).vocab_size ∧
      (initialize_common Real.log (read_data_common (exampleModel ℝ 1))).total_words = 8 ∧
      ∑ v ∈ range 3,
        (2 : ℝ) ^ (- vecGet
          (initialize_common Real.log (read_data_common (exampleModel ℝ 1))).vocab_weights v)
        = 1 := by
  have h := C17_probabilities_normalised (exampleModel ℝ 1) (by decide) (by decide) (by decide)
    (by decide)
  have hN : numTokens (exampleModel ℝ 1).W = 5 := by decide
  refine ⟨by decide, by decide, by decide, ?_, h.2⟩
  rw [h.1, hN]
  rfl

end Normalisation


end KeyATM
